import Mathlib

/-!
SO2-TP4: telemetry pipeline on the LM3S811 (FreeRTOS demo)

A shallow embedding of `Demo/CORTEX_LM3S811_GCC/main.c` and the properties of
its history buffers, its moving-average filter, its serial command console and
its formatted-output routine.

Conventions of the embedding:

* machine integers are natural numbers (or integers where C computes in `int`)
  reduced explicitly at the width of the C type that stores them;
* a C array is the list of its cells; a read or write outside the list is
  undefined behaviour and is reported as `none`;
* a C string is the list of bytes in front of its terminating NUL;
* the bytes handed to `UARTCharPut` are collected, in order, in a list.
-/

namespace SO2TP4

/-! ## Constants of `main.c` -/

/-- Constant `MAX_NUMBER_OF_SAMPLES`. -/
def MAX_NUMBER_OF_SAMPLES : Nat := 20

/-- Constant `MIN_NUMBER_OF_SAMPLES`. -/
def MIN_NUMBER_OF_SAMPLES : Nat := 1

/-! ## History buffers: `appendToArray` and `avgArray` -/

/-- The loop `for (uint8_t i = 0; i < size - 1; i++) array[i] = array[i + 1];`
of `appendToArray`, started at counter value `i`.  The comparison is done in
`int`, the counter is a `uint8_t`.  The first argument bounds the number of
iterations. -/
def appendToArrayLoop (size : Nat) : Nat → Nat → List Nat → Option (List Nat)
  | 0, _, _ => none
  | fuel + 1, i, array =>
    if (i : Int) < (size : Int) - 1 then
      match array[i + 1]? with
      | some x =>
        if i < array.length then
          appendToArrayLoop size fuel ((i + 1) % 256) (array.set i x)
        else none
      | none => none
    else some array

/-- Function `appendToArray(array, new_value, size)`: the array after the call, or
`none` when the call touches a cell outside the array.  A `uint8_t` counter
that stays below `size - 1` is incremented at most 255 times. -/
def appendToArray (array : List Nat) (new_value size : Nat) : Option (List Nat) :=
  match appendToArrayLoop size 256 0 array with
  | some a =>
    if 1 ≤ size ∧ size - 1 < a.length then some (a.set (size - 1) new_value)
    else none
  | none => none

/-- One call of `appendToArray` per value of `vs`, in order. -/
def appendAll (size : Nat) (array : List Nat) (vs : List Nat) : Option (List Nat) :=
  vs.foldlM (fun a v => appendToArray a v size) array

/-- The loop `for (uint8_t i = size - to_use; i < size; i++) sum += array[i];`
of `avgArray`, started at counter value `i` with running sum `sum`
(a `uint16_t`).  The first argument bounds the number of iterations. -/
def avgArrayLoop (array : List Nat) (size : Nat) : Nat → Nat → Nat → Option Nat
  | 0, _, _ => none
  | fuel + 1, i, sum =>
    if i < size then
      match array[i]? with
      | some x => avgArrayLoop array size fuel ((i + 1) % 256) ((sum + x) % 65536)
      | none => none
    else some sum

/-- Function `avgArray(array, size, to_use)`: the returned `uint8_t`, or `none` when
the call reads outside the array or divides by zero.  The start index
`size - to_use` is computed in `int` and stored in a `uint8_t`. -/
def avgArray (array : List Nat) (size to_use : Nat) : Option Nat :=
  match avgArrayLoop array size 256 ((((size : Int) - (to_use : Int)) % 256).toNat) 0 with
  | some sum => if to_use = 0 then none else some ((sum / to_use) % 256)
  | none => none

/-! ## Serial output -/

/-- The bytes of a string literal of the source. -/
def bytes (s : String) : List Nat := s.toList.map Char.toNat

/-- The text of a C string: the bytes in front of its first NUL. -/
def cString (str : List Nat) : List Nat := str.takeWhile (fun c => c ≠ 0)

/-- Function `printString(str)`: `while (*str != 0) UARTCharPut(UART0_BASE, *(str++));`
acting on the bytes `uart` sent so far. -/
def printString : List Nat → List Nat → List Nat
  | [], uart => uart
  | c :: rest, uart => if c = 0 then uart else printString rest (uart ++ [c])

/-- Loop of `lenStr(str)`: `while (*(str++) != 0) len++;` with `len` a
`uint8_t`, started at `len`. -/
def lenStrLoop : List Nat → Nat → Nat
  | [], len => len
  | c :: rest, len => if c = 0 then len else lenStrLoop rest ((len + 1) % 256)

/-- Function `lenStr(str)`. -/
def lenStr (str : List Nat) : Nat := lenStrLoop str 0

/-! ## The command console: `vUART_ISR` -/

/-- The globals the interrupt handler works on, the state of the reporter task
it suspends and resumes, and the bytes sent to the UART. -/
structure Console where
  /-- global `s_numberOfSamples`, a `uint8_t` -/
  s_numberOfSamples : Nat
  /-- cell `s_uart_buffer[0]` -/
  buf0 : Nat
  /-- cell `s_uart_buffer[1]` -/
  buf1 : Nat
  /-- cell `s_uart_buffer[2]` -/
  buf2 : Nat
  /-- global `s_uart_index`, a `uint8_t` -/
  s_uart_index : Nat
  /-- global `s_is_top_running` -/
  s_is_top_running : Bool
  /-- whether `xTopTask` is suspended (`vTaskSuspend` / `vTaskResume`) -/
  topSuspended : Bool
  /-- the bytes handed to `UARTCharPut`, oldest first -/
  uart : List Nat
  deriving DecidableEq

/-- The globals as initialised at their definitions, with the reporter task
suspended by `main` and nothing sent yet. -/
def Console.init : Console :=
  { s_numberOfSamples := 10, buf0 := 0, buf1 := 0, buf2 := 0, s_uart_index := 0,
    s_is_top_running := false, topSuspended := true, uart := [] }

/-- The three assignments `s_uart_buffer[k] = 0` followed by `s_uart_index = 0`. -/
def clearBuffer (s : Console) : Console :=
  { s with buf0 := 0, buf1 := 0, buf2 := 0, s_uart_index := 0 }

/-- Statement `s_uart_buffer[s_uart_index++] = c`, reached only with `s_uart_index ≤ 2`. -/
def storeChar (c : Nat) (s : Console) : Console :=
  match s.s_uart_index with
  | 0 => { s with buf0 := c, s_uart_index := 1 }
  | 1 => { s with buf1 := c, s_uart_index := 2 }
  | 2 => { s with buf2 := c, s_uart_index := 3 }
  | _ => s

/-- The `switch (s_uart_buffer[0])` of the handler: `'t'` is 116, `'o'` 111,
`'p'` 112, `'N'` 78, `'0'` 48 and `'9'` 57. -/
def dispatchCommand (s : Console) : Console :=
  if s.buf0 = 116 then
    if s.buf1 = 111 ∧ s.buf2 = 112 then
      { s with topSuspended := false, s_is_top_running := true }
    else
      { s with uart := printString (bytes "\r\nInvalid command") s.uart }
  else if s.buf0 = 78 then
    if s.s_uart_index = 3 ∧ (s.buf2 < 48 ∨ s.buf2 > 57) then
      { s with uart := printString (bytes "\r\nInvalid command, N must be a number") s.uart }
    else if s.s_uart_index ≥ 2 ∧ (s.buf1 < 48 ∨ s.buf1 > 57) then
      { s with uart := printString (bytes "\r\nInvalid command, N must be a number") s.uart }
    else
      let n0 := (s.buf1 - 48) % 256
      let n1 := if s.s_uart_index = 3 then (n0 * 10 + (s.buf2 - 48)) % 256 else n0
      let n2 := if n1 > MAX_NUMBER_OF_SAMPLES then MAX_NUMBER_OF_SAMPLES else n1
      let n3 := if n2 < MIN_NUMBER_OF_SAMPLES then MIN_NUMBER_OF_SAMPLES else n2
      { s with s_numberOfSamples := n3 }
  else
    { s with uart := printString (bytes "\r\nInvalid command") s.uart }

/-- One pass through the body of `while (UARTCharsAvail(UART0_BASE))` for the
received byte `c`.  The second component is `false` when the pass leaves the
loop through `break`.  `'q'` is 113, `'\n'` 10 and `'\r'` 13. -/
def uartChar (c : Nat) (s : Console) : Console × Bool :=
  if s.s_is_top_running then
    if c = 113 then
      ({ s with topSuspended := true, s_is_top_running := false,
                uart := printString (bytes "Top Task was stopped\r\n") s.uart }, true)
    else (s, true)
  else if c ≠ 10 ∧ c ≠ 13 then
    let s1 := { s with uart := s.uart ++ [c] }
    if s1.s_uart_index > 2 then (s1, false)
    else (storeChar c s1, true)
  else if s.s_uart_index = 1 then
    (clearBuffer { s with uart := printString (bytes "\r\nInvalid command\r\n") s.uart }, true)
  else if (c = 10 ∨ c = 13) ∧ s.s_uart_index > 1 then
    let s1 := clearBuffer (dispatchCommand s)
    ({ s1 with uart := s1.uart ++ [13, 10] }, true)
  else (s, true)

/-- Handler `vUART_ISR` run with the bytes `rx` waiting in the receiver: the state it
leaves and the bytes it has not taken out of the receiver. -/
def vUART_ISR : List Nat → Console → Console × List Nat
  | [], s => (s, [])
  | c :: rest, s =>
    let r := uartChar c s
    if r.2 then vUART_ISR rest r.1 else (r.1, rest)

/-- A sequence of interrupts: each one finds in the receiver what the previous
one left there followed by the bytes of its own batch. -/
def interrupts (s : Console) (pending : List Nat) : List (List Nat) → Console × List Nat
  | [] => (s, pending)
  | batch :: later =>
    let r := vUART_ISR (pending ++ batch) s
    interrupts r.1 r.2 later

/-- The bytes `line` delivered one per interrupt. -/
def deliver (s : Console) (line : List Nat) : Console :=
  line.foldl (fun st c => (vUART_ISR [c] st).1) s

/-! ## The formatter: `intToString` and `printFormat` -/

/-- The value of a `uint32_t` passed as the `long int` parameter of
`intToString` (`long int` is 32 bits wide on the Cortex-M3). -/
def toLong (v : Nat) : Int :=
  if v % 4294967296 < 2147483648 then (v % 4294967296 : Nat)
  else ((v % 4294967296 : Nat) : Int) - 4294967296

/-- The loop `while (temp != 0) { temp /= 10; digits++; }`; C division
truncates towards zero.  The first argument bounds the number of iterations;
`|temp|` iterations always suffice. -/
def countDigits : Nat → Int → Nat → Nat
  | 0, _, digits => digits
  | fuel + 1, temp, digits =>
    if temp ≠ 0 then countDigits fuel (temp.tdiv 10) (digits + 1) else digits

/-- The loop `for (i = digits - 1; i >= 0; i--) { str[i] = (num % 10) + '0';
num /= 10; }` with `k` cells left to fill and `acc` the cells already filled;
each cell is a `char`. -/
def fillDigits : Nat → Int → List Nat → List Nat
  | 0, _, acc => acc
  | k + 1, num, acc =>
    fillDigits k (num.tdiv 10) ((((num.tmod 10) + 48) % 256).toNat :: acc)

/-- Function `intToString(num)`: the bytes of the string in front of its NUL, or `none`
when `pvPortMalloc` returns `NULL` (`mallocOk = false`). -/
def intToString (mallocOk : Bool) (num : Int) : Option (List Nat) :=
  let digits := if num = 0 then 1 else countDigits num.natAbs num 0
  if mallocOk then
    if num = 0 then some [48] else some (fillDigits digits num [])
  else none

/-- What an entry of `args` points to: an integer object (read at the width
of the directive, little endian, so a narrower read gives the value modulo
the width) or a C string. -/
inductive Arg where
  | int (value : Nat)
  | str (s : List Nat)
  deriving DecidableEq

/-- The scan `while (*format != 'd' && *format != 'h' && *format != 'c' &&
*format != 's' && *format != 0 && *format != '%') { count++; format++; }`.
`pre` holds the bytes before `format`, nearest first; the second list the
bytes from `format` on (its end is the NUL); `count` is a `uint8_t`. -/
def scanDirective : List Nat → List Nat → Nat → List Nat × List Nat × Nat
  | pre, [], count => (pre, [], count)
  | pre, c :: rest, count =>
    if c = 100 ∨ c = 104 ∨ c = 99 ∨ c = 115 ∨ c = 0 ∨ c = 37 then (pre, c :: rest, count)
    else scanDirective (c :: pre) rest ((count + 1) % 256)

/-- The loop `for (uint8_t i = 1; i <= count; i++) { spaces += (*(format - i)
- '0') * multiplier; multiplier *= 10; }`; `*(format - i)` is `pre[i - 1]`,
the product is formed in `int` and stored in a `uint8_t`.  `none` when the
loop does not end within the given number of iterations. -/
def widthLoop (pre : List Nat) (count : Nat) : Nat → Nat → Nat → Nat → Option Nat
  | 0, _, _, _ => none
  | fuel + 1, i, spaces, multiplier =>
    if i ≤ count then
      widthLoop pre count fuel ((i + 1) % 256)
        ((((spaces : Int) + ((pre.getD (i - 1) 0 : Nat) - 48 : Int) * (multiplier : Int)) % 256).toNat)
        ((multiplier * 10) % 256)
    else some spaces

/-- The block `if (count != 0) { ... }`: the width `spaces` and the flag
`spaces_in_left` (`'-'` is 45).  A `uint8_t` counter can take 256 values, so
the loop either ends within 256 iterations or never. -/
def parseWidth (pre : List Nat) (count : Nat) : Option (Nat × Bool) :=
  if count ≠ 0 then
    let spaces_in_left : Bool := pre.getD (count - 1) 0 = 45
    let count1 := if spaces_in_left then count - 1 else count
    match widthLoop pre count1 256 1 0 1 with
    | some spaces => some (spaces, spaces_in_left)
    | none => none
  else some (0, false)

/-- The cases `'c'` (99), `'h'` (104), `'d'` (100) and `'s'` (115) of
`switch (*format)`: the string `str` (`some none` for `NULL`).  The outer
`none` stands for a directive applied to an argument of the other kind. -/
def directiveString (mallocOk : Bool) (d : Nat) (arg : Arg) : Option (Option (List Nat)) :=
  if d = 99 then
    match arg with
    | Arg.int v => some (intToString mallocOk ((v % 256 : Nat) : Int))
    | Arg.str _ => none
  else if d = 104 then
    match arg with
    | Arg.int v => some (intToString mallocOk ((v % 65536 : Nat) : Int))
    | Arg.str _ => none
  else if d = 100 then
    match arg with
    | Arg.int v => some (intToString mallocOk (toLong v))
    | Arg.str _ => none
  else
    match arg with
    | Arg.str s => some (some s)
    | Arg.int _ => none

/-- The block `if (str != NULL) { ... }` without the release of the buffer:
padding on the left when `spaces_in_left`, the text, padding on the right
otherwise.  Each padding loop sends `spaces` blanks (32). -/
def emitField (spaces : Nat) (spaces_in_left : Bool) (str : List Nat)
    (uart : List Nat) : List Nat :=
  let len_str := lenStr str
  let spaces1 := if spaces ≥ len_str then spaces - len_str else 0
  let u1 := if spaces_in_left then uart ++ List.replicate spaces1 32 else uart
  let u2 := printString str u1
  if spaces_in_left then u2 else u2 ++ List.replicate spaces1 32

/-- The variables of `printFormat` that change from one iteration to the next. -/
structure FormatState where
  /-- the bytes of the template before `format`, nearest first -/
  pre : List Nat
  /-- the bytes of the template from `format` on -/
  suf : List Nat
  /-- variable `arg_index`, a `uint8_t` -/
  arg_index : Nat
  /-- the number of calls of `pvPortMalloc` made so far -/
  allocs : Nat
  /-- the bytes handed to `UARTCharPut`, oldest first -/
  uart : List Nat
  deriving DecidableEq

/-- The loop `while (*format != 0)` of `printFormat`.  `malloc k` tells whether
the `k`-th allocation succeeds.  `none` when an argument is missing or of the
wrong kind, or when the loop does not end.  The first argument bounds the
number of iterations; every iteration but the last moves `format` forward. -/
def printFormatLoop (malloc : Nat → Bool) (args : List Arg) :
    Nat → FormatState → Option FormatState
  | 0, _ => none
  | fuel + 1, st =>
    match st.suf with
    | [] => some st
    | c :: rest =>
      if c = 0 then some st
      else if c ≠ 37 then
        printFormatLoop malloc args fuel
          { st with pre := c :: st.pre, suf := rest, uart := st.uart ++ [c] }
      else
        match scanDirective (c :: st.pre) rest 0 with
        | (pre1, suf1, count) =>
          match parseWidth pre1 count with
          | none => none
          | some (spaces, spaces_in_left) =>
            match suf1 with
            | [] => some { st with pre := pre1, suf := suf1 }
            | d :: rest1 =>
              if d = 0 then some { st with pre := pre1, suf := suf1 }
              else if d = 37 then
                printFormatLoop malloc args fuel
                  { st with pre := d :: pre1, suf := rest1, uart := st.uart ++ [37] }
              else
                match args[st.arg_index]? with
                | none => none
                | some arg =>
                  match directiveString (malloc st.allocs) d arg with
                  | none => none
                  | some str =>
                    printFormatLoop malloc args fuel
                      { pre := d :: pre1, suf := rest1,
                        arg_index := (st.arg_index + 1) % 256,
                        allocs := if d = 115 then st.allocs else st.allocs + 1,
                        uart := match str with
                          | some text => emitField spaces spaces_in_left text st.uart
                          | none => st.uart }

/-- Function `printFormat(format, args)`: the bytes sent to the UART after the call,
starting from `uart`. -/
def printFormat (malloc : Nat → Bool) (format : List Nat) (args : List Arg)
    (uart : List Nat) : Option (List Nat) :=
  (printFormatLoop malloc args (format.length + 1)
    { pre := [], suf := format, arg_index := 0, allocs := 0, uart := uart }).map
    (fun st => st.uart)

/-- The decimal text of a width, as written in a template. -/
def decimalText (w : Nat) : List Nat := (Nat.toDigits 10 w).map Char.toNat

/-- The number a decimal text stands for: its digits `'0'` to `'9'` read from
the left. -/
def parseDecimal (text : List Nat) : Nat :=
  text.foldl (fun value c => 10 * value + (c - 48)) 0

/-- The command buffer is empty: length 0 and the three bytes zero. -/
def Console.bufferEmpty (s : Console) : Prop :=
  s.s_uart_index = 0 ∧ s.buf0 = 0 ∧ s.buf1 = 0 ∧ s.buf2 = 0

instance (s : Console) : Decidable s.bufferEmpty := by
  unfold Console.bufferEmpty; infer_instance

/-- The text of a command of the console: `top`, or `N` (78) followed by one
or by two decimal digits (48 to 57). -/
def isCommandText (cmd : List Nat) : Prop :=
  cmd = [116, 111, 112]
    ∨ (cmd.length = 2 ∧ cmd.getD 0 0 = 78 ∧ 48 ≤ cmd.getD 1 0 ∧ cmd.getD 1 0 ≤ 57)
    ∨ (cmd.length = 3 ∧ cmd.getD 0 0 = 78 ∧ 48 ≤ cmd.getD 1 0 ∧ cmd.getD 1 0 ≤ 57
        ∧ 48 ≤ cmd.getD 2 0 ∧ cmd.getD 2 0 ≤ 57)

instance (cmd : List Nat) : Decidable (isCommandText cmd) := by
  unfold isCommandText; infer_instance

/-- The line `N<d1>[<d2>]` followed by the terminator `t`, as bytes. -/
def commandN (d1 : Nat) (d2 : Option Nat) (t : Nat) : List Nat :=
  [78, 48 + d1] ++ (d2.toList.map (fun d => 48 + d)) ++ [t]

/-- The decimal value of one digit or of two digits. -/
def digitsValue (d1 : Nat) (d2 : Option Nat) : Nat :=
  match d2 with
  | none => d1
  | some d => 10 * d1 + d

/-! ## The sensor: `vSensorTask` -/

/-- Constant `MAX_TEMP_DECIMALS`. -/
def MAX_TEMP_DECIMALS : Nat := 150

/-- Constant `MIN_TEMP_DECIMALS`. -/
def MIN_TEMP_DECIMALS : Nat := 0

/-- Constant `INITIAL_TEMP_DECIMALS`. -/
def INITIAL_TEMP_DECIMALS : Nat := (MAX_TEMP_DECIMALS + MIN_TEMP_DECIMALS) / 2

/-- Constant `TEMP_DECIMALS_STEP`. -/
def TEMP_DECIMALS_STEP : Nat := 30

/-- The three statements `xorshift_state ^= xorshift_state << 13;
xorshift_state ^= xorshift_state >> 17; xorshift_state ^= xorshift_state << 5;`
on an `unsigned long` of 32 bits. -/
def xorshift (xorshift_state : Nat) : Nat :=
  let x1 := xorshift_state ^^^ ((xorshift_state <<< 13) % 4294967296)
  let x2 := x1 ^^^ (x1 >>> 17)
  x2 ^^^ ((x2 <<< 5) % 4294967296)

/-- The start value of the generator: `SysTickValueGet()`, replaced by 1 when
it is 0. -/
def seedState (seed : Nat) : Nat := if seed = 0 then 1 else seed

/-- One pass through the loop of `vSensorTask` from the sample `temp_decimals`
(a `uint8_t`) and the generator state: the new sample and the new state, or
`none` when the modulus `upper - lower + 1`, converted to `unsigned long`, is
zero.  The bounds are `int16_t`, the sum is formed in `unsigned long` and
stored in a `uint8_t`. -/
def sensorCycle (temp_decimals xorshift_state : Nat) : Option (Nat × Nat) :=
  let lower0 : Int := (temp_decimals : Int) - (TEMP_DECIMALS_STEP : Int)
  let upper0 : Int := (temp_decimals : Int) + (TEMP_DECIMALS_STEP : Int)
  let lower : Int := if lower0 < (MIN_TEMP_DECIMALS : Int) then (MIN_TEMP_DECIMALS : Int) else lower0
  let upper : Int := if upper0 > (MAX_TEMP_DECIMALS : Int) then (MAX_TEMP_DECIMALS : Int) else upper0
  let x := xorshift xorshift_state
  let modulus := ((upper - lower + 1) % 4294967296).toNat
  if modulus = 0 then none
  else some ((((x % modulus) + (lower % 4294967296).toNat) % 4294967296) % 256, x)

/-- The first `n` passes through the loop of `vSensorTask` from the given
sample and generator state: the sample and the state after each pass. -/
def sensorCycles : Nat → Nat → Nat → Option (List (Nat × Nat))
  | 0, _, _ => some []
  | n + 1, temp_decimals, xorshift_state =>
    (sensorCycle temp_decimals xorshift_state).bind
      (fun r => (sensorCycles n r.1 r.2).map (fun later => r :: later))

/-- The first `n` cycles of `vSensorTask` when `SysTickValueGet()` returns
`seed`. -/
def vSensorTask (seed n : Nat) : Option (List (Nat × Nat)) :=
  sensorCycles n INITIAL_TEMP_DECIMALS (seedState seed)

/-! ## The display: columns of `vDisplayTask` -/

/-- The value of an `int` stored in an `int8_t`. -/
def toInt8 (x : Int) : Int := (x + 128) % 256 - 128

/-- The loop `for (int8_t j = 0; j < diff; j++) { col = col << 1; col++; }`
with `n` passes left; `col` is a `uint16_t`.  The counter stays below
`diff ≤ 127`, so it never wraps. -/
def connectBits : Nat → Nat → Nat
  | 0, col => col
  | n + 1, col => connectBits n ((((col <<< 1) % 65536) + 1) % 65536)

/-- The column `col` of position `i` before the bit reversal, for
`cur = temps_array[i]` and `prev = temps_array[i - 1]` (not read when
`i = 0`). -/
def columnBits (i prev cur : Nat) : Nat :=
  let col := (1 <<< cur) % 65536
  if i ≠ 0 then
    let diff := toInt8 ((cur : Int) - (prev : Int))
    if diff ≠ 0 then
      let diff1 := if diff < 0 then toInt8 (diff * -1) else diff
      (connectBits diff1.toNat 0 <<< (if cur < prev then cur else prev)) % 65536
    else col
  else col

/-- The four statements that invert the column; the masks keep every value
below `2^16`. -/
def reverseBits (col : Nat) : Nat :=
  let c1 := ((col >>> 1) &&& 0x5555) ||| ((col <<< 1) &&& 0xAAAA)
  let c2 := ((c1 >>> 2) &&& 0x3333) ||| ((c1 <<< 2) &&& 0xCCCC)
  let c3 := ((c2 >>> 4) &&& 0x0F0F) ||| ((c2 <<< 4) &&& 0xF0F0)
  ((c3 >>> 8) &&& 0x00FF) ||| ((c3 <<< 8) &&& 0xFF00)

/-- The column sent to the display for position `i`. -/
def displayColumn (i prev cur : Nat) : Nat := reverseBits (columnBits i prev cur)

/-- The number of set bits among the 16 bits of a column. -/
def setBits (col : Nat) : Nat := ((List.range 16).filter (fun k => col.testBit k)).length

/-! ## The reporter: pieces of `vTopTask` -/

/-- The divisor of the CPU figure: `s_overflow_counter - last_mark_time_counter`
when the counter is not below the mark, `(0xFFFFFFFF - last_mark_time_counter)
+ s_overflow_counter` otherwise, in `uint32_t`. -/
def tickDelta (s_overflow_counter last_mark_time_counter : Nat) : Nat :=
  if s_overflow_counter ≥ last_mark_time_counter then
    s_overflow_counter - last_mark_time_counter
  else
    ((4294967295 - last_mark_time_counter) + s_overflow_counter) % 4294967296

/-- The value of `ul_stats_as_percentage` after the division, for the run-time
counter of a task now and at the previous report (`unsigned long`, 32 bits);
`none` when the divisor is 0. -/
def cpuStat (ulRunTimeCounter runTimeLast s_overflow_counter last_mark_time_counter : Nat) :
    Option Nat :=
  let stat := (((ulRunTimeCounter + 4294967296 - runTimeLast) % 4294967296) * 1000) % 4294967296
  let delta := tickDelta s_overflow_counter last_mark_time_counter
  if delta = 0 then none else some (stat / delta)

/-- The CPU cell of a task row: `printFormat("%-4c,%c%% |", print_args)` with
the integer part (a `uint8_t`) and the remainder when the figure is at least
10, `printString("   < 1% |")` otherwise. -/
def cpuCell (malloc : Nat → Bool) (ul_stats_as_percentage : Nat) (uart : List Nat) :
    Option (List Nat) :=
  if ul_stats_as_percentage ≥ 10 then
    let integer_part := (ul_stats_as_percentage / 10) % 256
    printFormat malloc (bytes "%-4c,%c%% |")
      [Arg.int integer_part, Arg.int (ul_stats_as_percentage % 10)] uart
  else some (printString (bytes "   < 1% |") uart)

/-- A loop `for (uint8_t i = start; i < bound; i += 5) UARTCharPut(UART0_BASE, c);`
at counter value `i`.  The first argument bounds the number of iterations. -/
def fillLoop (bound c : Nat) : Nat → Nat → List Nat → Option (List Nat)
  | 0, _, _ => none
  | fuel + 1, i, uart =>
    if i < bound then fillLoop bound c fuel ((i + 5) % 256) (uart ++ [c])
    else some uart

/-- The start of the heap line: `printString("|    [")` and the two loops that
draw the bar for `heap_use_percentage` (a `uint8_t`), `'|'` being 124.  A
counter that advances by 5 below a bound of at most 255 makes at most 51
steps. -/
def heapBar (heap_use_percentage : Nat) (uart : List Nat) : Option (List Nat) :=
  match fillLoop heap_use_percentage 124 64 0 (printString (bytes "|    [") uart) with
  | none => none
  | some u => fillLoop 100 32 64 heap_use_percentage u

/-- The cells of the bar: what `heapBar` sends after `|    [`. -/
def heapBarCells (heap_use_percentage : Nat) : Option (List Nat) :=
  (heapBar heap_use_percentage []).map (fun u => u.drop (bytes "|    [").length)

/-! ## The command buffer as an array -/

/-- The cell `s_uart_buffer[k]` for `k` below 3 (0 for any other `k`). -/
def Console.cell (s : Console) (k : Nat) : Nat :=
  match k with
  | 0 => s.buf0
  | 1 => s.buf1
  | 2 => s.buf2
  | _ => 0

/-- The bound of the command buffer: the length is at most 3 and the cells
from the length on are zero. -/
def bufferInv (s : Console) : Prop :=
  s.s_uart_index ≤ 3 ∧ (s.s_uart_index ≤ 2 → s.buf2 = 0) ∧ (s.s_uart_index ≤ 1 → s.buf1 = 0)
    ∧ (s.s_uart_index = 0 → s.buf0 = 0)

instance (s : Console) : Decidable (bufferInv s) := by
  unfold bufferInv; infer_instance

/-! ## The pipeline: three tasks and two queues -/

/-- Constant `TEMP_QUEUE_SIZE`. -/
def TEMP_QUEUE_SIZE : Nat := 3

/-- Constant `LCD_COLUMNS_FOR_GRAPH`. -/
def LCD_COLUMNS_FOR_GRAPH : Nat := 69

/-- Modelled from the spec: the call `xQueueSend(queue, &item, portMAX_DELAY)`
of the scheduler, whose code is not among the sources.  A queue is the list of
the items it holds, oldest first, with room for `TEMP_QUEUE_SIZE` items; the
call appends the item, and while the queue is full the caller stays blocked
in it (`none`). -/
def xQueueSend (queue : List Nat) (item : Nat) : Option (List Nat) :=
  if queue.length < TEMP_QUEUE_SIZE then some (queue ++ [item]) else none

/-- Modelled from the spec: the call `xQueueReceive(queue, &item,
portMAX_DELAY)` of the scheduler, whose code is not among the sources.  The
call takes the oldest item out of the queue, and while the queue is empty the
caller stays blocked in it (`none`). -/
def xQueueReceive : List Nat → Option (Nat × List Nat)
  | [] => none
  | item :: rest => some (item, rest)

/-- The queues, the variables the three tasks keep from one pass of their
loop to the next, and the record of what has gone through each blocking
call. -/
structure Pipeline where
  /-- queue `s_temps_queue` -/
  s_temps_queue : List Nat
  /-- queue `s_temps_to_display_queue` -/
  s_temps_to_display_queue : List Nat
  /-- variable `temp_decimals` of `vSensorTask` -/
  temp_decimals : Nat
  /-- variable `xorshift_state` of `vSensorTask` -/
  xorshift_state : Nat
  /-- the sample that `vSensorTask` has computed and not yet sent -/
  sample : Option Nat
  /-- array `temps_array` of `vAverageTask` -/
  average_temps_array : List Nat
  /-- the `average` that `vAverageTask` has computed and not yet sent -/
  average : Option Nat
  /-- array `temps_array` of `vDisplayTask` -/
  display_temps_array : List Nat
  /-- the samples `vSensorTask` has computed, oldest first -/
  produced : List Nat
  /-- the samples `vAverageTask` has received, oldest first -/
  filtered : List Nat
  /-- the averages `vAverageTask` has computed, oldest first -/
  averaged : List Nat
  /-- the averages `vDisplayTask` has received, oldest first -/
  shown : List Nat
  deriving DecidableEq

/-- The state `main` leaves to the scheduler: empty queues, zeroed arrays,
the first sample and the seeded generator. -/
def Pipeline.init (seed : Nat) : Pipeline :=
  { s_temps_queue := [], s_temps_to_display_queue := [],
    temp_decimals := INITIAL_TEMP_DECIMALS, xorshift_state := seedState seed, sample := none,
    average_temps_array := List.replicate MAX_NUMBER_OF_SAMPLES 0, average := none,
    display_temps_array := List.replicate LCD_COLUMNS_FOR_GRAPH 0,
    produced := [], filtered := [], averaged := [], shown := [] }

/-- What the scheduler lets happen next: a task runs from the blocking call
it is in to its next one.  The average task reads `s_numberOfSamples` while
it runs. -/
inductive Action where
  | sensorCompute
  | sensorSend
  | averageReceive (s_numberOfSamples : Nat)
  | averageSend
  | displayReceive
  deriving DecidableEq

/-- The window size the action reads is one the console can have set. -/
def Action.valid : Action → Prop
  | Action.averageReceive n => MIN_NUMBER_OF_SAMPLES ≤ n ∧ n ≤ MAX_NUMBER_OF_SAMPLES
  | _ => True

instance (a : Action) : Decidable a.valid := by
  cases a <;> unfold Action.valid <;> infer_instance

/-- The first half of a pass of `vSensorTask`: the delay is over and the new
sample is computed.  While the task is in its send nothing changes. -/
def sensorCompute (p : Pipeline) : Option Pipeline :=
  match p.sample with
  | some _ => some p
  | none =>
    (sensorCycle p.temp_decimals p.xorshift_state).bind (fun r =>
      some { p with temp_decimals := r.1, xorshift_state := r.2, sample := some r.1,
                    produced := p.produced ++ [r.1] })

/-- The second half of a pass of `vSensorTask`: the sample is sent to
`s_temps_queue`.  While the queue is full the task is blocked in the send and
nothing changes. -/
def sensorSend (p : Pipeline) : Option Pipeline :=
  match p.sample with
  | none => some p
  | some temp_decimals =>
    match xQueueSend p.s_temps_queue temp_decimals with
    | none => some p
    | some queue => some { p with s_temps_queue := queue, sample := none }

/-- The first half of a pass of `vAverageTask`: a sample is received from
`s_temps_queue`, appended to the array and the average computed.  While the
queue is empty, or while the task is in its send, nothing changes. -/
def averageReceive (s_numberOfSamples : Nat) (p : Pipeline) : Option Pipeline :=
  match p.average with
  | some _ => some p
  | none =>
    match xQueueReceive p.s_temps_queue with
    | none => some p
    | some (new_temp, queue) =>
      (appendToArray p.average_temps_array new_temp MAX_NUMBER_OF_SAMPLES).bind (fun array =>
        (avgArray array MAX_NUMBER_OF_SAMPLES s_numberOfSamples).bind (fun average =>
          some { p with s_temps_queue := queue, average_temps_array := array,
                        average := some average, filtered := p.filtered ++ [new_temp],
                        averaged := p.averaged ++ [average] }))

/-- The second half of a pass of `vAverageTask`: the average is sent to
`s_temps_to_display_queue`.  While that queue is full the task is blocked in
the send and nothing changes. -/
def averageSend (p : Pipeline) : Option Pipeline :=
  match p.average with
  | none => some p
  | some average =>
    match xQueueSend p.s_temps_to_display_queue average with
    | none => some p
    | some queue => some { p with s_temps_to_display_queue := queue, average := none }

/-- The receiving part of a pass of `vDisplayTask`: an average is received
from `s_temps_to_display_queue` and a tenth of it appended to the array.
While the queue is empty nothing changes. -/
def displayReceive (p : Pipeline) : Option Pipeline :=
  match xQueueReceive p.s_temps_to_display_queue with
  | none => some p
  | some (new_temp, queue) =>
    (appendToArray p.display_temps_array (new_temp / 10) LCD_COLUMNS_FOR_GRAPH).bind
      (fun array =>
        some { p with s_temps_to_display_queue := queue, display_temps_array := array,
                      shown := p.shown ++ [new_temp] })

/-- One action of the schedule; `none` when a task runs into undefined
behaviour. -/
def pipelineStep (a : Action) (p : Pipeline) : Option Pipeline :=
  match a with
  | Action.sensorCompute => sensorCompute p
  | Action.sensorSend => sensorSend p
  | Action.averageReceive n => averageReceive n p
  | Action.averageSend => averageSend p
  | Action.displayReceive => displayReceive p

/-- A schedule carried out from the state `p`. -/
def pipelineRun (schedule : List Action) (p : Pipeline) : Option Pipeline :=
  schedule.foldlM (fun q a => pipelineStep a q) p

/-- The mean, rounded down, of the last `N` cells of the array of
`vAverageTask` once it has received exactly the given samples. -/
def windowMean (N : Nat) (samples : List Nat) : Nat :=
  (((List.replicate MAX_NUMBER_OF_SAMPLES 0 ++ samples).drop samples.length).drop
    (MAX_NUMBER_OF_SAMPLES - N)).sum / N

/-- The facts that hold of the pipeline between any two actions. -/
def pipelineInv (p : Pipeline) : Prop :=
  p.s_temps_queue.length ≤ TEMP_QUEUE_SIZE
    ∧ p.s_temps_to_display_queue.length ≤ TEMP_QUEUE_SIZE
    ∧ p.produced = p.filtered ++ p.s_temps_queue ++ p.sample.toList
    ∧ p.averaged = p.shown ++ p.s_temps_to_display_queue ++ p.average.toList
    ∧ p.averaged.length = p.filtered.length
    ∧ p.average_temps_array
        = (List.replicate MAX_NUMBER_OF_SAMPLES 0 ++ p.filtered).drop p.filtered.length
    ∧ p.display_temps_array
        = (List.replicate LCD_COLUMNS_FOR_GRAPH 0 ++ p.shown.map (fun a => a / 10)).drop
            p.shown.length
    ∧ p.temp_decimals ≤ MAX_TEMP_DECIMALS
    ∧ (∀ x ∈ p.produced, x ≤ MAX_TEMP_DECIMALS)
    ∧ (∀ k, k < p.averaged.length → ∃ N, MIN_NUMBER_OF_SAMPLES ≤ N ∧ N ≤ MAX_NUMBER_OF_SAMPLES
        ∧ p.averaged[k]? = some (windowMean N (p.filtered.take (k + 1))))

/-- The number of blocking calls the items in flight still have to pass
before the display task has received them all. -/
def Pipeline.backlog (p : Pipeline) : Nat :=
  4 * p.sample.toList.length + 3 * p.s_temps_queue.length + 2 * p.average.toList.length
    + p.s_temps_to_display_queue.length

/-! ## Properties of the history buffers -/

theorem sum_le_of_bytes (l : List Nat) (h : ∀ x ∈ l, x < 256) :
    l.sum ≤ 255 * l.length := by
  induction l with
  | nil => simp
  | cons a t ih =>
    have ha : a < 256 := h a (List.mem_cons_self a t)
    have ht : t.sum ≤ 255 * t.length := ih (fun x hx => h x (List.mem_cons_of_mem a hx))
    simp only [List.sum_cons, List.length_cons]
    omega

theorem avgArrayLoop_eq (array : List Nat) (size : Nat) (hsz : size < 256)
    (hlen : size ≤ array.length) :
    ∀ (fuel i sum : Nat), i ≤ size → size - i < fuel →
      sum + ((array.take size).drop i).sum < 65536 →
      avgArrayLoop array size fuel i sum = some (sum + ((array.take size).drop i).sum) := by
  intro fuel
  induction fuel with
  | zero => intro i sum _ hf; omega
  | succ fuel ih =>
    intro i sum hi hf hs
    unfold avgArrayLoop
    by_cases hlt : i < size
    · have hi2 : i < array.length := by omega
      have hi3 : i < (array.take size).length := by simp; omega
      rw [List.drop_eq_getElem_cons hi3] at hs ⊢
      simp only [List.sum_cons, List.getElem_take] at hs ⊢
      rw [if_pos hlt, List.getElem?_eq_getElem hi2]
      simp only
      have h1 : (i + 1) % 256 = i + 1 := Nat.mod_eq_of_lt (by omega)
      have h2 : (sum + array[i]) % 65536 = sum + array[i] := Nat.mod_eq_of_lt (by omega)
      rw [h1, h2, ih (i + 1) (sum + array[i]) (by omega) (by omega) (by omega)]
      congr 1
      omega
    · have hnil : (array.take size).drop i = [] :=
        List.drop_eq_nil_of_le (by simp; omega)
      rw [if_neg hlt, hnil]
      simp

/-- C1. For every window size `N` in `[1,20]` and every 20-cell history of
8-bit samples, `avgArray(history, 20, N)` returns the floor of the sum of the
last `N` cells divided by `N`; the running sum stays below `2^16` and the
quotient below `2^8`, so neither reduction changes a value. -/
theorem avgArray_floor_mean (history : List Nat) (N : Nat)
    (hlen : history.length = 20) (hbytes : ∀ x ∈ history, x < 256)
    (h1 : 1 ≤ N) (h20 : N ≤ 20) :
    avgArray history 20 N = some ((history.drop (20 - N)).sum / N)
      ∧ (history.drop (20 - N)).sum < 65536
      ∧ (history.drop (20 - N)).sum / N < 256 := by
  have hdrop : ∀ x ∈ history.drop (20 - N), x < 256 :=
    fun x hx => hbytes x (List.mem_of_mem_drop hx)
  have hsum := sum_le_of_bytes _ hdrop
  have hl : (history.drop (20 - N)).length = N := by simp [hlen]; omega
  rw [hl] at hsum
  have hq : (history.drop (20 - N)).sum / N ≤ 255 := by
    apply Nat.div_le_of_le_mul
    rw [Nat.mul_comm]; exact hsum
  have htake : history.take 20 = history := by
    rw [← hlen]; exact List.take_length history
  have hstart : ((((20 : Nat) : Int) - (N : Int)) % 256).toNat = 20 - N := by omega
  have hloop := avgArrayLoop_eq history 20 (by omega) (by omega) 256 (20 - N) 0
    (by omega) (by omega) (by rw [htake]; omega)
  rw [htake] at hloop
  refine ⟨?_, by omega, by omega⟩
  unfold avgArray
  rw [hstart, hloop]
  simp only [Nat.zero_add]
  rw [if_neg (by omega), Nat.mod_eq_of_lt (by omega)]

/-- Witness of C1: a ramp history averaged over its last four cells. -/
theorem avgArray_floor_mean_witness :
    avgArray (List.range 20) 20 4 = some (((List.range 20).drop (20 - 4)).sum / 4)
      ∧ ((List.range 20).drop (20 - 4)).sum < 65536
      ∧ ((List.range 20).drop (20 - 4)).sum / 4 < 256 :=
  avgArray_floor_mean (List.range 20) 4 (by decide) (by decide) (by decide) (by decide)

theorem appendToArrayLoop_shift (size : Nat) (hsz : size ≤ 256) :
    ∀ (rest pre : List Nat) (x fuel : Nat),
      size = pre.length + 1 + rest.length → rest.length < fuel →
      ∃ y, appendToArrayLoop size fuel pre.length (pre ++ x :: rest)
        = some (pre ++ rest ++ [y]) := by
  intro rest
  induction rest with
  | nil =>
    intro pre x fuel hs hf
    obtain ⟨f, rfl⟩ : ∃ f, fuel = f + 1 := ⟨fuel - 1, by simp at hf; omega⟩
    refine ⟨x, ?_⟩
    unfold appendToArrayLoop
    rw [if_neg (by simp at hs; omega)]
    simp
  | cons y r ih =>
    intro pre x fuel hs hf
    obtain ⟨f, rfl⟩ : ∃ f, fuel = f + 1 := ⟨fuel - 1, by simp at hf; omega⟩
    simp only [List.length_cons] at hs hf
    obtain ⟨z, hz⟩ := ih (pre ++ [y]) y f (by simp; omega) (by omega)
    refine ⟨z, ?_⟩
    unfold appendToArrayLoop
    rw [if_pos (by omega)]
    have hget : (pre ++ x :: y :: r)[pre.length + 1]? = some y := by
      rw [List.getElem?_append_right (by omega)]
      simp
    have hset : (pre ++ x :: y :: r).set pre.length y = (pre ++ [y]) ++ y :: r := by
      rw [List.set_append_right _ _ (by omega)]
      simp
    have hmod : (pre.length + 1) % 256 = (pre ++ [y]).length := by
      rw [Nat.mod_eq_of_lt (by omega)]; simp
    rw [hget]
    simp only
    rw [if_pos (by simp), hset, hmod, hz]
    simp

theorem appendToArray_eq (array : List Nat) (v size : Nat)
    (h1 : 1 ≤ size) (hsz : size < 256) (hlen : array.length = size) :
    appendToArray array v size = some (array.drop 1 ++ [v]) := by
  cases array with
  | nil => simp at hlen; omega
  | cons x rest =>
    simp only [List.length_cons] at hlen
    obtain ⟨y, hy⟩ := appendToArrayLoop_shift size (by omega) rest [] x 256
      (by simp; omega) (by omega)
    simp only [List.length_nil, List.nil_append] at hy
    unfold appendToArray
    rw [hy]
    simp only
    rw [if_pos ⟨h1, by simp; omega⟩]
    have : size - 1 = rest.length := by omega
    rw [this]
    simp

theorem appendAll_eq (size : Nat) (h1 : 1 ≤ size) (hsz : size < 256) :
    ∀ (vs array : List Nat), array.length = size →
      appendAll size array vs = some ((array ++ vs).drop vs.length) := by
  intro vs
  induction vs with
  | nil => intro array _; simp [appendAll]
  | cons v vs ih =>
    intro array hlen
    have hstep := appendToArray_eq array v size h1 hsz hlen
    have hnext := ih (array.drop 1 ++ [v]) (by simp [hlen]; omega)
    unfold appendAll at hnext ⊢
    rw [List.foldlM_cons, hstep]
    simp only [Option.bind_eq_bind, Option.some_bind]
    rw [hnext]
    cases array with
    | nil => simp at hlen; omega
    | cons a t => simp

/-- C2. `appendToArray` is a fixed-capacity FIFO: for an array of `s ≥ 1`
cells (`s` fits the `uint8_t` size parameter) and any values `vs`, one call
per value leaves the last `s` elements of `old ++ vs`, the length is still
`s`, and after `s` appends of one value `v` every cell holds `v`. -/
theorem appendToArray_fifo (s : Nat) (array vs : List Nat) (v : Nat)
    (h1 : 1 ≤ s) (hsz : s < 256) (hlen : array.length = s) :
    appendAll s array vs = some ((array ++ vs).drop ((array ++ vs).length - s))
      ∧ ((array ++ vs).drop ((array ++ vs).length - s)).length = s
      ∧ appendAll s array (List.replicate s v) = some (List.replicate s v) := by
  have hk : (array ++ vs).length - s = vs.length := by simp [hlen]
  refine ⟨?_, ?_, ?_⟩
  · rw [hk]; exact appendAll_eq s h1 hsz vs array hlen
  · rw [hk]; simp [hlen]
  · rw [appendAll_eq s h1 hsz (List.replicate s v) array hlen]
    simp [hlen]

/-- Witness of C2: three appends into a two-cell buffer. -/
theorem appendToArray_fifo_witness :
    appendAll 2 [1, 2] [3, 4, 5]
        = some (([1, 2] ++ [3, 4, 5]).drop (([1, 2] ++ [3, 4, 5]).length - 2))
      ∧ (([1, 2] ++ [3, 4, 5]).drop (([1, 2] ++ [3, 4, 5]).length - 2)).length = 2
      ∧ appendAll 2 [1, 2] (List.replicate 2 9) = some (List.replicate 2 9) :=
  appendToArray_fifo 2 [1, 2] [3, 4, 5] 9 (by decide) (by decide) (by decide)

/-! ## Properties of the command console -/

theorem printString_eq (str : List Nat) : ∀ uart, printString str uart = uart ++ cString str := by
  induction str with
  | nil => intro uart; simp [printString, cString]
  | cons c rest ih =>
    intro uart
    unfold printString
    by_cases hc : c = 0
    · simp [hc, cString]
    · rw [if_neg hc, ih]
      simp [cString, List.takeWhile_cons, hc]

theorem print_invalid (uart : List Nat) :
    printString (bytes "\r\nInvalid command") uart
      = uart ++ ([13, 10] ++ bytes "Invalid command") := by
  rw [printString_eq]; congr 1

theorem print_invalid_line (uart : List Nat) :
    printString (bytes "\r\nInvalid command\r\n") uart
      = uart ++ ([13, 10] ++ bytes "Invalid command" ++ [13, 10]) := by
  rw [printString_eq]; congr 1

theorem print_invalid_number (uart : List Nat) :
    printString (bytes "\r\nInvalid command, N must be a number") uart
      = uart ++ ([13, 10] ++ bytes "Invalid command" ++ bytes ", N must be a number") := by
  rw [printString_eq]; congr 1

theorem print_stopped (uart : List Nat) :
    printString (bytes "Top Task was stopped\r\n") uart
      = uart ++ bytes "Top Task was stopped\r\n" := by
  rw [printString_eq]; congr 1

/-- C3. From Collecting state with an empty buffer, the bytes `'N'`, a digit,
an optional second digit and a terminator (`'\n'` or `'\r'`), delivered one
per interrupt or all in one interrupt, set `s_numberOfSamples` to
`min 20 (max 1 v)` for `v` the decimal value of the digits and leave
`s_is_top_running` as it was. -/
theorem console_N_sets_window (s : Console) (d1 : Nat) (d2 : Option Nat) (t : Nat)
    (hrun : s.s_is_top_running = false) (hempty : s.bufferEmpty)
    (hd1 : d1 ≤ 9) (hd2 : ∀ d ∈ d2, d ≤ 9) (ht : t = 10 ∨ t = 13) :
    (deliver s (commandN d1 d2 t)).s_numberOfSamples = min 20 (max 1 (digitsValue d1 d2))
      ∧ (deliver s (commandN d1 d2 t)).s_is_top_running = s.s_is_top_running
      ∧ (vUART_ISR (commandN d1 d2 t) s).1.s_numberOfSamples = min 20 (max 1 (digitsValue d1 d2))
      ∧ (vUART_ISR (commandN d1 d2 t) s).1.s_is_top_running = s.s_is_top_running := by
  obtain ⟨n, b0, b1, b2, idx, run, susp, tx⟩ := s
  simp only [Console.bufferEmpty] at hempty
  obtain ⟨hi, h0, h1, h2⟩ := hempty
  simp only at hrun hi h0 h1 h2
  subst hrun hi h0 h1 h2
  have e1 : 48 + d1 ≠ 10 := by omega
  have e2 : 48 + d1 ≠ 13 := by omega
  have e3 : ¬ (48 + d1 < 48) := by omega
  have e4 : ¬ (48 + d1 > 57) := by omega
  have e5 : d1 % 256 = d1 := Nat.mod_eq_of_lt (by omega)
  cases d2 with
  | none =>
    rcases ht with rfl | rfl <;>
    · simp [commandN, digitsValue, deliver, vUART_ISR, uartChar, storeChar, dispatchCommand,
        clearBuffer, e1, e2, e3, e4, e5, MAX_NUMBER_OF_SAMPLES, MIN_NUMBER_OF_SAMPLES]
      by_cases h1 : 20 < d1 <;> by_cases h2 : d1 = 0 <;> simp [h1, h2] <;> omega
  | some d =>
    have hd : d ≤ 9 := hd2 d rfl
    have f1 : 48 + d ≠ 10 := by omega
    have f2 : 48 + d ≠ 13 := by omega
    have f3 : ¬ (48 + d < 48) := by omega
    have f4 : ¬ (48 + d > 57) := by omega
    have f5 : (d1 * 10 + d) % 256 = d1 * 10 + d := Nat.mod_eq_of_lt (by omega)
    rcases ht with rfl | rfl <;>
    · simp [commandN, digitsValue, deliver, vUART_ISR, uartChar, storeChar, dispatchCommand,
        clearBuffer, e1, e2, e3, e4, e5, f1, f2, f3, f4, f5, MAX_NUMBER_OF_SAMPLES, MIN_NUMBER_OF_SAMPLES]
      by_cases h1 : 20 < d1 * 10 + d <;> by_cases h2 : d1 * 10 + d = 0 <;>
        simp [h1, h2] <;> omega

/-- Witness of C3: `N25` followed by a carriage return, from the initial state. -/
theorem console_N_sets_window_witness :
    (deliver Console.init (commandN 2 (some 5) 13)).s_numberOfSamples
        = min 20 (max 1 (digitsValue 2 (some 5)))
      ∧ (deliver Console.init (commandN 2 (some 5) 13)).s_is_top_running
        = Console.init.s_is_top_running
      ∧ (vUART_ISR (commandN 2 (some 5) 13) Console.init).1.s_numberOfSamples
        = min 20 (max 1 (digitsValue 2 (some 5)))
      ∧ (vUART_ISR (commandN 2 (some 5) 13) Console.init).1.s_is_top_running
        = Console.init.s_is_top_running :=
  console_N_sets_window Console.init 2 (some 5) 13 (by decide) (by decide) (by decide)
    (by decide) (by decide)

theorem dispatchCommand_window (s : Console)
    (h : 1 ≤ s.s_numberOfSamples ∧ s.s_numberOfSamples ≤ 20) :
    1 ≤ (dispatchCommand s).s_numberOfSamples ∧ (dispatchCommand s).s_numberOfSamples ≤ 20 := by
  unfold dispatchCommand
  simp only [MAX_NUMBER_OF_SAMPLES, MIN_NUMBER_OF_SAMPLES]
  split_ifs <;> simp only <;> omega

theorem uartChar_window (c : Nat) (s : Console)
    (h : 1 ≤ s.s_numberOfSamples ∧ s.s_numberOfSamples ≤ 20) :
    1 ≤ (uartChar c s).1.s_numberOfSamples ∧ (uartChar c s).1.s_numberOfSamples ≤ 20 := by
  have hd := dispatchCommand_window s h
  unfold uartChar
  simp only [storeChar, clearBuffer]
  split_ifs
  all_goals first
    | exact h
    | exact hd
    | (split <;> exact h)

theorem vUART_ISR_window : ∀ (rx : List Nat) (s : Console),
    1 ≤ s.s_numberOfSamples ∧ s.s_numberOfSamples ≤ 20 →
    1 ≤ (vUART_ISR rx s).1.s_numberOfSamples ∧ (vUART_ISR rx s).1.s_numberOfSamples ≤ 20 := by
  intro rx
  induction rx with
  | nil => intro s h; exact h
  | cons c rest ih =>
    intro s h
    have hc := uartChar_window c s h
    unfold vUART_ISR
    simp only
    split_ifs
    · exact ih _ hc
    · exact hc

theorem interrupts_window : ∀ (batches : List (List Nat)) (s : Console) (pending : List Nat),
    1 ≤ s.s_numberOfSamples ∧ s.s_numberOfSamples ≤ 20 →
    1 ≤ (interrupts s pending batches).1.s_numberOfSamples
      ∧ (interrupts s pending batches).1.s_numberOfSamples ≤ 20 := by
  intro batches
  induction batches with
  | nil => intro s pending h; exact h
  | cons b later ih =>
    intro s pending h
    unfold interrupts
    exact ih _ _ (vUART_ISR_window _ s h)

/-- C4. `s_numberOfSamples` is in `[1,20]` in the initial state (no interrupt
yet) and after any sequence of interrupts with any received bytes, so the
divisor `avgArray` receives is never 0. -/
theorem window_always_in_range (batches : List (List Nat)) :
    1 ≤ (interrupts Console.init [] batches).1.s_numberOfSamples
      ∧ (interrupts Console.init [] batches).1.s_numberOfSamples ≤ 20
      ∧ (interrupts Console.init [] batches).1.s_numberOfSamples ≠ 0 := by
  have h := interrupts_window batches Console.init [] (by decide)
  exact ⟨h.1, h.2, by omega⟩

/-- C5. From Collecting state with an empty buffer, `top` and a terminator set
`s_is_top_running` and empty the buffer; a single `'q'` then clears
`s_is_top_running`, after which `N5` and a newline set `s_numberOfSamples`
to 5. -/
theorem console_top_then_q (s : Console) (t : Nat)
    (hrun : s.s_is_top_running = false) (hempty : s.bufferEmpty) (ht : t = 10 ∨ t = 13) :
    (deliver s [116, 111, 112, t]).s_is_top_running = true
      ∧ (deliver s [116, 111, 112, t]).bufferEmpty
      ∧ (deliver (deliver s [116, 111, 112, t]) [113]).s_is_top_running = false
      ∧ (deliver (deliver (deliver s [116, 111, 112, t]) [113]) [78, 53, 10]).s_numberOfSamples = 5 := by
  obtain ⟨n, b0, b1, b2, idx, run, susp, tx⟩ := s
  simp only [Console.bufferEmpty] at hempty
  obtain ⟨hi, h0, h1, h2⟩ := hempty
  simp only at hrun hi h0 h1 h2
  subst hrun hi h0 h1 h2
  rcases ht with rfl | rfl <;>
    simp [deliver, vUART_ISR, uartChar, storeChar, dispatchCommand, clearBuffer,
      Console.bufferEmpty, MAX_NUMBER_OF_SAMPLES, MIN_NUMBER_OF_SAMPLES]

/-- Witness of C5: the initial state and a newline. -/
theorem console_top_then_q_witness :
    (deliver Console.init [116, 111, 112, 10]).s_is_top_running = true
      ∧ (deliver Console.init [116, 111, 112, 10]).bufferEmpty
      ∧ (deliver (deliver Console.init [116, 111, 112, 10]) [113]).s_is_top_running = false
      ∧ (deliver (deliver (deliver Console.init [116, 111, 112, 10]) [113])
          [78, 53, 10]).s_numberOfSamples = 5 :=
  console_top_then_q Console.init 10 (by decide) (by decide) (by decide)

/-- C6. While `s_is_top_running` is set, a byte other than `'q'` changes
nothing: the globals, the command buffer and its length are as before, no
byte is sent to the UART, and the handler goes on to the next byte. -/
theorem reporter_gate_discards (s : Console) (c : Nat)
    (hrun : s.s_is_top_running = true) (hc : c ≠ 113) :
    uartChar c s = (s, true) ∧ vUART_ISR [c] s = (s, []) := by
  have h : uartChar c s = (s, true) := by
    unfold uartChar
    rw [if_pos hrun, if_neg hc]
  refine ⟨h, ?_⟩
  simp [vUART_ISR, h]

/-- Witness of C6: the byte `'N'` while the reporter runs. -/
theorem reporter_gate_discards_witness :
    uartChar 78 { Console.init with s_is_top_running := true }
        = ({ Console.init with s_is_top_running := true }, true)
      ∧ vUART_ISR [78] { Console.init with s_is_top_running := true }
        = ({ Console.init with s_is_top_running := true }, []) :=
  reporter_gate_discards { Console.init with s_is_top_running := true } 78 (by decide) (by decide)

theorem deliver_append (s : Console) (l1 l2 : List Nat) :
    deliver s (l1 ++ l2) = deliver (deliver s l1) l2 := by
  simp [deliver, List.foldl_append]

theorem deliver_full : ∀ (rest : List Nat) (s : Console),
    s.s_is_top_running = false → s.s_uart_index = 3 →
    (∀ c ∈ rest, c ≠ 10 ∧ c ≠ 13) →
    deliver s rest = { s with uart := s.uart ++ rest } := by
  intro rest
  induction rest with
  | nil => intro s _ _ _; simp [deliver]
  | cons c rest ih =>
    intro s hrun hidx hnt
    have hc := hnt c (List.mem_cons_self c rest)
    have hstep : (vUART_ISR [c] s).1 = { s with uart := s.uart ++ [c] } := by
      simp [vUART_ISR, uartChar, hrun, hidx, hc.1, hc.2]
    have hrest := ih { s with uart := s.uart ++ [c] } hrun hidx
      (fun x hx => hnt x (List.mem_cons_of_mem c hx))
    have hunf : deliver s (c :: rest) = deliver (vUART_ISR [c] s).1 rest := by
      simp [deliver]
    rw [hunf, hstep, hrest]
    simp

theorem invalid_infix_line :
    bytes "Invalid command" <:+: [13, 10] ++ bytes "Invalid command" ++ [13, 10] :=
  ⟨[13, 10], [13, 10], rfl⟩

theorem invalid_infix_number :
    bytes "Invalid command"
      <:+: [13, 10] ++ bytes "Invalid command" ++ bytes ", N must be a number" ++ [13, 10] :=
  ⟨[13, 10], bytes ", N must be a number" ++ [13, 10], by simp⟩

/-- The terminator met with at least two bytes in the buffer that do not make
a command: a message is sent and the two globals keep their values. -/
theorem terminator_rejects (s : Console) (t : Nat)
    (hrun : s.s_is_top_running = false) (ht : t = 10 ∨ t = 13) (hidx : 2 ≤ s.s_uart_index)
    (htop : ¬ (s.buf0 = 116 ∧ s.buf1 = 111 ∧ s.buf2 = 112))
    (hN : ¬ (s.buf0 = 78 ∧ (48 ≤ s.buf1 ∧ s.buf1 ≤ 57)
        ∧ (s.s_uart_index = 3 → 48 ≤ s.buf2 ∧ s.buf2 ≤ 57))) :
    ∃ msg, (uartChar t s).1.uart = s.uart ++ msg ∧ bytes "Invalid command" <:+: msg
      ∧ (uartChar t s).1.s_numberOfSamples = s.s_numberOfSamples
      ∧ (uartChar t s).1.s_is_top_running = s.s_is_top_running := by
  obtain ⟨n, b0, b1, b2, idx, run, susp, tx⟩ := s
  simp only at hrun hidx htop hN
  subst hrun
  have h1 : ¬ (t ≠ 10 ∧ t ≠ 13) := by omega
  have h2 : ¬ (idx = 1) := by omega
  have h3 : (t = 10 ∨ t = 13) ∧ idx > 1 := ⟨ht, by omega⟩
  unfold uartChar
  simp only [Bool.false_eq_true, if_false, h1, h2]
  rw [if_pos h3]
  unfold dispatchCommand
  simp only
  by_cases a116 : b0 = 116
  · have hnot : ¬ (b1 = 111 ∧ b2 = 112) := fun h => htop ⟨a116, h⟩
    rw [if_pos a116, if_neg hnot]
    simp only [clearBuffer, print_invalid]
    exact ⟨[13, 10] ++ bytes "Invalid command" ++ [13, 10], by simp, invalid_infix_line,
      trivial, trivial⟩
  · rw [if_neg a116]
    by_cases a78 : b0 = 78
    · rw [if_pos a78]
      by_cases c2 : idx = 3 ∧ (b2 < 48 ∨ b2 > 57)
      · rw [if_pos c2]
        simp only [clearBuffer, print_invalid_number]
        exact ⟨[13, 10] ++ bytes "Invalid command" ++ bytes ", N must be a number" ++ [13, 10],
          by simp, invalid_infix_number, trivial, trivial⟩
      · by_cases c1 : idx ≥ 2 ∧ (b1 < 48 ∨ b1 > 57)
        · rw [if_neg c2, if_pos c1]
          simp only [clearBuffer, print_invalid_number]
          exact ⟨[13, 10] ++ bytes "Invalid command" ++ bytes ", N must be a number" ++ [13, 10],
            by simp, invalid_infix_number, trivial, trivial⟩
        · exfalso
          apply hN
          refine ⟨a78, by omega, ?_⟩
          intro h3
          omega
    · rw [if_neg a78]
      simp only [clearBuffer, print_invalid]
      exact ⟨[13, 10] ++ bytes "Invalid command" ++ [13, 10], by simp, invalid_infix_line,
        trivial, trivial⟩

/-- C7 as stated fails: the line `top5` is not `top` and not an `N` command,
yet with a newline it sets `s_is_top_running` and no "Invalid command" is
sent. -/
theorem long_line_accepted :
    bytes "top5" ≠ [] ∧ (∀ c ∈ bytes "top5", c ≠ 10 ∧ c ≠ 13)
      ∧ ¬ isCommandText (bytes "top5")
      ∧ (deliver Console.init (bytes "top5" ++ [10])).s_is_top_running
          ≠ Console.init.s_is_top_running
      ∧ ¬ (bytes "Invalid command" <:+: (deliver Console.init (bytes "top5" ++ [10])).uart) := by
  decide

/-- C7, amended. A non-empty line of non-terminator bytes, delivered one byte
per interrupt in Collecting state with an empty buffer and followed by a
terminator, is rejected when its first three bytes (the whole line when it is
shorter) are not `top`, not `N` with one digit and not `N` with two digits:
after the echo of the line a message containing "Invalid command" is sent and
`s_numberOfSamples` and `s_is_top_running` keep their values. -/
theorem line_rejected (s : Console) (line : List Nat) (t : Nat)
    (hrun : s.s_is_top_running = false) (hempty : s.bufferEmpty)
    (hne : line ≠ []) (hnt : ∀ c ∈ line, c ≠ 10 ∧ c ≠ 13) (ht : t = 10 ∨ t = 13)
    (hcmd : ¬ isCommandText (line.take 3)) :
    ∃ msg, (deliver s (line ++ [t])).uart = s.uart ++ line ++ msg
      ∧ bytes "Invalid command" <:+: msg
      ∧ (deliver s (line ++ [t])).s_numberOfSamples = s.s_numberOfSamples
      ∧ (deliver s (line ++ [t])).s_is_top_running = s.s_is_top_running := by
  obtain ⟨n, b0, b1, b2, idx, run, susp, tx⟩ := s
  simp only [Console.bufferEmpty] at hempty
  obtain ⟨hi, h0, h1, h2⟩ := hempty
  simp only at hrun hi h0 h1 h2
  subst hrun hi h0 h1 h2
  have hlast : ∀ st : Console, deliver st [t] = (uartChar t st).1 := by
    intro st
    simp only [deliver, List.foldl_cons, List.foldl_nil, vUART_ISR]
    split_ifs <;> rfl
  match line, hne, hnt, hcmd with
  | [a], _, hnt, _ =>
    have ha := hnt a (by simp)
    have h1 : ¬ (t ≠ 10 ∧ t ≠ 13) := by omega
    refine ⟨[13, 10] ++ bytes "Invalid command" ++ [13, 10], ?_, invalid_infix_line, ?_, ?_⟩ <;>
      simp [deliver, vUART_ISR, uartChar, storeChar, clearBuffer, ha.1, ha.2, h1,
        print_invalid_line]
  | [a, b], _, hnt, hcmd =>
    have ha := hnt a (by simp)
    have hb := hnt b (by simp)
    have hstate : deliver (Console.mk n 0 0 0 0 false susp tx) [a, b]
        = Console.mk n a b 0 2 false susp (tx ++ [a, b]) := by
      simp [deliver, vUART_ISR, uartChar, storeChar, ha.1, ha.2, hb.1, hb.2]
    obtain ⟨msg, hu, hinf, hn, hr⟩ := terminator_rejects
      (Console.mk n a b 0 2 false susp (tx ++ [a, b])) t rfl ht
      (by simp) (by simp)
      (by
        intro h
        apply hcmd
        simp only at h
        simp [isCommandText, h.1, h.2.1])
    have hsplit : [a, b] ++ [t] = [a, b] ++ [t] := rfl
    rw [deliver_append, hstate, hlast]
    exact ⟨msg, by rw [hu], hinf, hn, hr⟩
  | a :: b :: c :: rest, _, hnt, hcmd =>
    have ha := hnt a (by simp)
    have hb := hnt b (by simp)
    have hc := hnt c (by simp)
    have hrest : ∀ x ∈ rest, x ≠ 10 ∧ x ≠ 13 := fun x hx => hnt x (by simp [hx])
    have hstate : deliver (Console.mk n 0 0 0 0 false susp tx) [a, b, c]
        = Console.mk n a b c 3 false susp (tx ++ [a, b, c]) := by
      simp [deliver, vUART_ISR, uartChar, storeChar, ha.1, ha.2, hb.1, hb.2, hc.1, hc.2]
    have hsplit : a :: b :: c :: rest ++ [t] = [a, b, c] ++ (rest ++ [t]) := by simp
    obtain ⟨msg, hu, hinf, hn, hr⟩ := terminator_rejects
      (Console.mk n a b c 3 false susp (tx ++ [a, b, c] ++ rest)) t rfl ht
      (by simp)
      (by
        intro h
        apply hcmd
        simp only at h
        simp [isCommandText, h.1, h.2.1, h.2.2])
      (by
        intro h
        apply hcmd
        simp only at h
        simp [isCommandText, h.1, h.2.1, h.2.2])
    rw [hsplit, deliver_append, hstate, deliver_append, deliver_full rest _ rfl rfl hrest, hlast]
    exact ⟨msg, by rw [hu]; simp, hinf, hn, hr⟩

/-- Witness of C7: the line `Nx` and a newline, from the initial state. -/
theorem line_rejected_witness :
    ∃ msg, (deliver Console.init (bytes "Nx" ++ [10])).uart
        = Console.init.uart ++ bytes "Nx" ++ msg
      ∧ bytes "Invalid command" <:+: msg
      ∧ (deliver Console.init (bytes "Nx" ++ [10])).s_numberOfSamples
        = Console.init.s_numberOfSamples
      ∧ (deliver Console.init (bytes "Nx" ++ [10])).s_is_top_running
        = Console.init.s_is_top_running :=
  line_rejected Console.init (bytes "Nx") 10 (by decide) (by decide) (by decide) (by decide)
    (by decide) (by decide)

theorem no_invalid_in_short (e : List Nat) (h : e.length < 15) :
    ¬ (bytes "Invalid command" <:+: e) := by
  intro hinf
  have hl := hinf.length_le
  have : (bytes "Invalid command").length = 15 := by decide
  omega

/-- C8. Whenever the processing of a terminator sends bytes containing
"Invalid command", `s_numberOfSamples` and `s_is_top_running` have the values
they had before the terminator, and the command buffer is empty afterwards
(length 0 and the three bytes zero). -/
theorem rejection_atomic (s : Console) (c : Nat) (e : List Nat)
    (ht : c = 10 ∨ c = 13)
    (he : (uartChar c s).1.uart = s.uart ++ e)
    (hinv : bytes "Invalid command" <:+: e) :
    (uartChar c s).1.s_numberOfSamples = s.s_numberOfSamples
      ∧ (uartChar c s).1.s_is_top_running = s.s_is_top_running
      ∧ (uartChar c s).1.bufferEmpty := by
  obtain ⟨n, b0, b1, b2, idx, run, susp, tx⟩ := s
  have hq : c ≠ 113 := by omega
  have h1 : ¬ (c ≠ 10 ∧ c ≠ 13) := by omega
  have hnil : ¬ (bytes "Invalid command" <:+: ([] : List Nat)) :=
    no_invalid_in_short [] (by decide)
  have hcrlf : ¬ (bytes "Invalid command" <:+: [13, 10]) :=
    no_invalid_in_short [13, 10] (by decide)
  unfold uartChar at he ⊢
  simp only at he ⊢
  by_cases hrun : run = true
  · rw [if_pos hrun, if_neg hq] at he
    simp only at he
    have : e = [] := by simpa using he
    exact absurd (this ▸ hinv) hnil
  · rw [if_neg hrun, if_neg h1] at he ⊢
    by_cases hone : idx = 1
    · rw [if_pos hone]
      simp [clearBuffer, Console.bufferEmpty]
    · rw [if_neg hone] at he ⊢
      by_cases hgt : (c = 10 ∨ c = 13) ∧ idx > 1
      · rw [if_pos hgt] at he ⊢
        unfold dispatchCommand at he ⊢
        simp only at he ⊢
        by_cases a116 : b0 = 116
        · rw [if_pos a116] at he ⊢
          by_cases htop : b1 = 111 ∧ b2 = 112
          · rw [if_pos htop] at he
            simp only [clearBuffer] at he
            have : e = [13, 10] := by simpa using he.symm
            exact absurd (this ▸ hinv) hcrlf
          · rw [if_neg htop]
            simp [clearBuffer, Console.bufferEmpty]
        · rw [if_neg a116] at he ⊢
          by_cases a78 : b0 = 78
          · rw [if_pos a78] at he ⊢
            by_cases c2 : idx = 3 ∧ (b2 < 48 ∨ b2 > 57)
            · rw [if_pos c2]
              simp [clearBuffer, Console.bufferEmpty]
            · rw [if_neg c2] at he ⊢
              by_cases c1 : idx ≥ 2 ∧ (b1 < 48 ∨ b1 > 57)
              · rw [if_pos c1]
                simp [clearBuffer, Console.bufferEmpty]
              · rw [if_neg c1] at he
                simp only [clearBuffer] at he
                have : e = [13, 10] := by simpa using he.symm
                exact absurd (this ▸ hinv) hcrlf
          · rw [if_neg a78]
            simp [clearBuffer, Console.bufferEmpty]
      · rw [if_neg hgt] at he
        simp only at he
        have : e = [] := by simpa using he
        exact absurd (this ▸ hinv) hnil

/-- Witness of C8: a newline after the single byte `x`. -/
theorem rejection_atomic_witness :
    (uartChar 10 (deliver Console.init [120])).1.s_numberOfSamples
        = (deliver Console.init [120]).s_numberOfSamples
      ∧ (uartChar 10 (deliver Console.init [120])).1.s_is_top_running
        = (deliver Console.init [120]).s_is_top_running
      ∧ (uartChar 10 (deliver Console.init [120])).1.bufferEmpty :=
  rejection_atomic (deliver Console.init [120]) 10
    ([13, 10] ++ bytes "Invalid command" ++ [13, 10]) (by decide) (by decide)
    invalid_infix_line

/-! ## Properties of the formatter -/

theorem lenStrLoop_eq : ∀ (str : List Nat) (len : Nat), len < 256 →
    lenStrLoop str len = (len + (cString str).length) % 256 := by
  intro str
  induction str with
  | nil => intro len h; simp [lenStrLoop, cString, Nat.mod_eq_of_lt h]
  | cons c rest ih =>
    intro len h
    unfold lenStrLoop
    by_cases hc : c = 0
    · simp [hc, cString, Nat.mod_eq_of_lt h]
    · rw [if_neg hc, ih _ (Nat.mod_lt _ (by decide))]
      have : cString (c :: rest) = c :: cString rest := by
        simp [cString, List.takeWhile_cons, hc]
      rw [this, List.length_cons]
      omega

theorem lenStr_eq (str : List Nat) (h : (cString str).length < 256) :
    lenStr str = (cString str).length := by
  unfold lenStr
  rw [lenStrLoop_eq str 0 (by decide)]
  omega

theorem emitField_eq (spaces : Nat) (left : Bool) (str uart : List Nat)
    (h : (cString str).length < 256) :
    emitField spaces left str uart
      = uart ++ (if left then List.replicate (spaces - (cString str).length) 32 ++ cString str
          else cString str ++ List.replicate (spaces - (cString str).length) 32) := by
  have hsp : (if spaces ≥ (cString str).length then spaces - (cString str).length else 0)
      = spaces - (cString str).length := by
    split_ifs <;> omega
  unfold emitField
  simp only [lenStr_eq str h, hsp, printString_eq]
  cases left <;> simp

theorem scanDirective_stop (d : Nat) (rest : List Nat)
    (hd : d = 100 ∨ d = 104 ∨ d = 99 ∨ d = 115 ∨ d = 0 ∨ d = 37) :
    ∀ (spec pre : List Nat) (count : Nat), count < 256 →
    (∀ c ∈ spec, ¬ (c = 100 ∨ c = 104 ∨ c = 99 ∨ c = 115 ∨ c = 0 ∨ c = 37)) →
    scanDirective pre (spec ++ d :: rest) count
      = (spec.reverse ++ pre, d :: rest, (count + spec.length) % 256) := by
  intro spec
  induction spec with
  | nil =>
    intro pre count hcount _
    simp only [List.nil_append, List.reverse_nil, List.length_nil, Nat.add_zero]
    rw [scanDirective, if_pos hd, Nat.mod_eq_of_lt hcount]
  | cons c spec ih =>
    intro pre count hcount h
    have hc := h c (List.mem_cons_self c spec)
    have hrest := ih (c :: pre) ((count + 1) % 256) (Nat.mod_lt _ (by decide))
      (fun x hx => h x (List.mem_cons_of_mem c hx))
    simp only [List.cons_append]
    rw [scanDirective, if_neg hc, hrest]
    simp only [List.reverse_cons, List.append_assoc, List.singleton_append, List.length_cons]
    congr 2
    omega

set_option maxRecDepth 100000 in
theorem decimalText_cases : ∀ w, w < 256 → decimalText w =
    if w < 10 then [48 + w]
    else if w < 100 then [48 + w / 10, 48 + w % 10]
    else [48 + w / 100, 48 + w / 10 % 10, 48 + w % 10] := by
  decide

theorem widthLoop_step (pre : List Nat) (count fuel i sp m : Nat) (h : i ≤ count) :
    widthLoop pre count (fuel + 1) i sp m
      = widthLoop pre count fuel ((i + 1) % 256)
          ((((sp : Int) + ((pre.getD (i - 1) 0 : Nat) - 48 : Int) * (m : Int)) % 256).toNat)
          ((m * 10) % 256) := by
  rw [widthLoop, if_pos h]

theorem widthLoop_done (pre : List Nat) (count fuel i sp m : Nat) (h : ¬ i ≤ count) :
    widthLoop pre count (fuel + 1) i sp m = some sp := by
  rw [widthLoop, if_neg h]

theorem widthLoop_one (pre : List Nat) (u : Nat) (hu : u ≤ 9) :
    widthLoop ((48 + u) :: pre) 1 256 1 0 1 = some u := by
  rw [widthLoop_step _ 1 255 1 0 1 (by decide), widthLoop_done _ 1 254 _ _ _ (by decide)]
  simp only [List.getD_cons_zero, Nat.sub_self]
  congr 1
  omega

theorem widthLoop_two (pre : List Nat) (u t : Nat) (hu : u ≤ 9) (ht : t ≤ 9) :
    widthLoop ((48 + u) :: (48 + t) :: pre) 2 256 1 0 1 = some (10 * t + u) := by
  rw [widthLoop_step _ 2 255 1 0 1 (by decide), widthLoop_step _ 2 254 _ _ _ (by decide),
    widthLoop_done _ 2 253 _ _ _ (by decide)]
  simp
  omega

theorem widthLoop_three (pre : List Nat) (u t h : Nat) (hu : u ≤ 9) (ht : t ≤ 9)
    (hw : 100 * h + 10 * t + u ≤ 255) :
    widthLoop ((48 + u) :: (48 + t) :: (48 + h) :: pre) 3 256 1 0 1
      = some (100 * h + 10 * t + u) := by
  rw [widthLoop_step _ 3 255 1 0 1 (by decide), widthLoop_step _ 3 254 _ _ _ (by decide),
    widthLoop_step _ 3 253 _ _ _ (by decide), widthLoop_done _ 3 252 _ _ _ (by decide)]
  simp
  omega

/-- The digits of a width below 256, units first, as they lie before `format`. -/
theorem widthLoop_decimal (w : Nat) (hw : w ≤ 255) (rest : List Nat) :
    widthLoop ((decimalText w).reverse ++ rest) (decimalText w).length 256 1 0 1 = some w := by
  rw [decimalText_cases w (by omega)]
  by_cases h1 : w < 10
  · simp only [h1, if_true, List.reverse_cons, List.reverse_nil, List.nil_append,
      List.singleton_append, List.length_singleton]
    exact widthLoop_one rest w (by omega)
  · by_cases h2 : w < 100
    · simp only [h1, h2, if_true, if_false, List.reverse_cons, List.reverse_nil,
        List.nil_append, List.singleton_append, List.length_cons, List.length_nil,
        List.cons_append]
      have := widthLoop_two rest (w % 10) (w / 10) (by omega) (by omega)
      rw [this]
      congr 1
      omega
    · simp only [h1, h2, if_false, List.reverse_cons, List.reverse_nil,
        List.nil_append, List.singleton_append, List.length_cons, List.length_nil,
        List.cons_append]
      have := widthLoop_three rest (w % 10) (w / 10 % 10) (w / 100) (by omega) (by omega)
        (by omega)
      rw [this]
      congr 1
      omega

theorem decimalText_head (w : Nat) (hw : w ≤ 255) :
    ∃ c cs, decimalText w = c :: cs ∧ 48 ≤ c ∧ cs.length ≤ 2
      ∧ ∀ x ∈ decimalText w, 48 ≤ x ∧ x ≤ 57 := by
  rw [decimalText_cases w (by omega)]
  by_cases h1 : w < 10
  · refine ⟨48 + w, [], by simp [h1], by omega, by simp, ?_⟩
    simp only [h1, if_true, List.mem_singleton]
    intro x hx; omega
  · by_cases h2 : w < 100
    · refine ⟨48 + w / 10, [48 + w % 10], by simp [h1, h2], by omega, by simp, ?_⟩
      simp only [h1, h2, if_true, if_false, List.mem_cons, List.mem_singleton]
      intro x hx
      simp only [List.not_mem_nil, or_false] at hx
      omega
    · refine ⟨48 + w / 100, [48 + w / 10 % 10, 48 + w % 10], by simp [h1, h2], by omega,
        by simp, ?_⟩
      simp only [h1, h2, if_false, List.mem_cons, List.mem_singleton]
      intro x hx
      simp only [List.not_mem_nil, or_false] at hx
      omega

theorem getD_reverse_append (l rest : List Nat) (x : Nat) :
    (l.reverse ++ x :: rest).getD l.length 0 = x := by
  rw [List.getD_eq_getElem?_getD, List.getElem?_append_right (by simp)]
  simp

theorem parseWidth_decimal (w : Nat) (hw : w ≤ 255) (rest : List Nat) :
    parseWidth ((decimalText w).reverse ++ rest) (decimalText w).length = some (w, false) := by
  obtain ⟨c, cs, hc, h48, hlen, _⟩ := decimalText_head w hw
  have hloop := widthLoop_decimal w hw rest
  have hne : (decimalText w).length ≠ 0 := by rw [hc]; simp
  have hget : ((decimalText w).reverse ++ rest).getD ((decimalText w).length - 1) 0 = c := by
    rw [hc]
    simp only [List.reverse_cons, List.append_assoc, List.singleton_append, List.length_cons,
      Nat.add_sub_cancel]
    exact getD_reverse_append cs rest c
  unfold parseWidth
  rw [if_pos hne]
  simp only [hget]
  have h45 : ¬ (c = 45) := by omega
  simp only [h45, decide_False, Bool.false_eq_true, if_false, hloop]

theorem parseWidth_minus_decimal (w : Nat) (hw : w ≤ 255) (rest : List Nat) :
    parseWidth ((decimalText w).reverse ++ 45 :: rest) ((decimalText w).length + 1)
      = some (w, true) := by
  have hloop := widthLoop_decimal w hw (45 :: rest)
  have hget : ((decimalText w).reverse ++ 45 :: rest).getD (decimalText w).length 0 = 45 :=
    getD_reverse_append (decimalText w) rest 45
  unfold parseWidth
  rw [if_pos (by omega)]
  simp only [Nat.add_sub_cancel, hget, decide_True, if_true, hloop]

/-- A template made of one directive with an argument: `%`, the bytes `spec`
between `%` and the directive letter, and the letter `d`. -/
theorem printFormat_single (malloc : Nat → Bool) (spec : List Nat) (d : Nat) (arg : Arg)
    (uart : List Nat) (sp : Nat) (left : Bool) (str : Option (List Nat))
    (hd : d = 99 ∨ d = 104 ∨ d = 100 ∨ d = 115)
    (hspec : ∀ c ∈ spec, ¬ (c = 100 ∨ c = 104 ∨ c = 99 ∨ c = 115 ∨ c = 0 ∨ c = 37))
    (hlen : spec.length < 256)
    (hw : parseWidth (spec.reverse ++ [37]) spec.length = some (sp, left))
    (hs : directiveString (malloc 0) d arg = some str) :
    printFormat malloc (37 :: (spec ++ [d])) [arg] uart
      = some (str.elim uart (fun text => emitField sp left text uart)) := by
  have hstop : d = 100 ∨ d = 104 ∨ d = 99 ∨ d = 115 ∨ d = 0 ∨ d = 37 := by omega
  have hscan := scanDirective_stop d [] hstop spec [37] 0 (by decide) hspec
  rw [Nat.zero_add, Nat.mod_eq_of_lt hlen] at hscan
  have hd0 : ¬ (d = 0) := by omega
  have hd37 : ¬ (d = 37) := by omega
  have hfuel : (37 :: (spec ++ [d])).length + 1 = (spec.length + 1) + 1 + 1 := by
    simp
  unfold printFormat
  rw [hfuel, printFormatLoop]
  simp only [if_false, hscan, hw, hd0, hd37, List.getElem?_cons_zero, hs,
    Nat.succ_ne_zero, not_true_eq_false, ne_eq, if_true, OfNat.ofNat_ne_zero]
  rw [printFormatLoop]
  cases str <;> simp

theorem tmod_ten_bounds (a : Int) : -10 < a.tmod 10 ∧ a.tmod 10 < 10 := by
  cases a with
  | ofNat n =>
    have h : Int.tmod (Int.ofNat n) 10 = ((n % 10 : Nat) : Int) := rfl
    rw [h]
    omega
  | negSucc n =>
    have h : Int.tmod (Int.negSucc n) 10 = -(((n + 1) % 10 : Nat) : Int) := rfl
    rw [h]
    omega

theorem fillDigits_ne_zero : ∀ (k : Nat) (num : Int) (acc : List Nat),
    (∀ b ∈ acc, b ≠ 0) → ∀ b ∈ fillDigits k num acc, b ≠ 0 := by
  intro k
  induction k with
  | zero => intro num acc h b hb; exact h b hb
  | succ k ih =>
    intro num acc h b hb
    unfold fillDigits at hb
    refine ih _ _ ?_ b hb
    intro x hx
    rcases List.mem_cons.mp hx with rfl | hx
    · have := tmod_ten_bounds num
      omega
    · exact h x hx

theorem intToString_cString (ok : Bool) (num : Int) (t : List Nat)
    (h : intToString ok num = some t) : cString t = t := by
  have hne : ∀ b ∈ t, b ≠ 0 := by
    unfold intToString at h
    cases ok with
    | false => simp at h
    | true =>
      by_cases h0 : num = 0
      · simp [h0] at h
        subst h
        simp
      · simp only [if_true, h0, if_false, Option.some.injEq] at h
        subst h
        exact fillDigits_ne_zero _ _ _ (by simp)
  unfold cString
  rw [List.takeWhile_eq_self_iff]
  intro x hx
  simpa using hne x hx

theorem spec_decimal_ok (w : Nat) (hw : w ≤ 255) (minus : Bool) :
    (∀ c ∈ (if minus then [45] else []) ++ decimalText w,
        ¬ (c = 100 ∨ c = 104 ∨ c = 99 ∨ c = 115 ∨ c = 0 ∨ c = 37))
      ∧ ((if minus then [45] else []) ++ decimalText w).length < 256 := by
  obtain ⟨c, cs, hc, h48, hlen, hall⟩ := decimalText_head w hw
  constructor
  · intro x hx
    rcases List.mem_append.mp hx with hx | hx
    · cases minus <;> simp at hx
      omega
    · have := hall x hx
      omega
  · rw [List.length_append, hc]
    cases minus <;> simp <;> omega

theorem parseWidth_spec (w : Nat) (hw : w ≤ 255) (minus : Bool) :
    parseWidth (((if minus then [45] else []) ++ decimalText w).reverse ++ [37])
      ((if minus then [45] else []) ++ decimalText w).length = some (w, minus) := by
  cases minus with
  | false =>
    simpa using parseWidth_decimal w hw [37]
  | true =>
    have := parseWidth_minus_decimal w hw [37]
    simpa [Nat.add_comm] using this

/-- C10. A directive `%c`, `%h`, `%d` or `%s` with a decimal width `w ≤ 255`,
with or without `-`, whose text `t` is shorter than 256 bytes: `printFormat`
sends the whole of `t` and `w - |t|` blanks (none when `w ≤ |t|`), so the
field is `max w |t|` bytes long; without a width it sends exactly `t`, and
`%s` applied to `hi` sends `hi`. -/
theorem padding_never_truncates (malloc : Nat → Bool) (d : Nat) (arg : Arg)
    (str uart : List Nat) (w : Nat) (minus : Bool)
    (hd : d = 99 ∨ d = 104 ∨ d = 100 ∨ d = 115)
    (hs : directiveString (malloc 0) d arg = some (some str))
    (hlen : (cString str).length < 256) (hw : w ≤ 255) :
    printFormat malloc (37 :: ((if minus then [45] else []) ++ decimalText w ++ [d])) [arg] uart
        = some (uart ++
            (if minus then List.replicate (w - (cString str).length) 32 ++ cString str
              else cString str ++ List.replicate (w - (cString str).length) 32))
      ∧ (if minus then List.replicate (w - (cString str).length) 32 ++ cString str
              else cString str ++ List.replicate (w - (cString str).length) 32).length
          = max w (cString str).length
      ∧ printFormat malloc [37, d] [arg] uart = some (uart ++ cString str)
      ∧ printFormat (fun _ => true) (bytes "%s") [Arg.str (bytes "hi")] []
          = some (bytes "hi") := by
  obtain ⟨hspec, hslen⟩ := spec_decimal_ok w hw minus
  refine ⟨?_, ?_, ?_, by decide⟩
  · have h := printFormat_single malloc ((if minus then [45] else []) ++ decimalText w) d arg
      uart w minus (some str) hd hspec hslen (parseWidth_spec w hw minus) hs
    rw [h]
    simp only [Option.elim, emitField_eq w minus str uart hlen]
  · cases minus <;> simp <;> omega
  · have h := printFormat_single malloc [] d arg uart 0 false (some str) hd (by simp)
      (by simp) (by simp [parseWidth]) hs
    simp only [List.nil_append] at h
    rw [h]
    simp [Option.elim, emitField_eq 0 false str uart hlen]

/-- Witness of C10: `%-5s` applied to `hi`. -/
theorem padding_never_truncates_witness :
    printFormat (fun _ => true)
        (37 :: ((if true then [45] else []) ++ decimalText 5 ++ [115])) [Arg.str (bytes "hi")] []
        = some ([] ++
            (if true then List.replicate (5 - (cString (bytes "hi")).length) 32
                ++ cString (bytes "hi")
              else cString (bytes "hi")
                ++ List.replicate (5 - (cString (bytes "hi")).length) 32))
      ∧ (if true then List.replicate (5 - (cString (bytes "hi")).length) 32
                ++ cString (bytes "hi")
              else cString (bytes "hi")
                ++ List.replicate (5 - (cString (bytes "hi")).length) 32).length
          = max 5 (cString (bytes "hi")).length
      ∧ printFormat (fun _ => true) [37, 115] [Arg.str (bytes "hi")] []
          = some ([] ++ cString (bytes "hi"))
      ∧ printFormat (fun _ => true) (bytes "%s") [Arg.str (bytes "hi")] []
          = some (bytes "hi") :=
  padding_never_truncates (fun _ => true) 115 (Arg.str (bytes "hi")) (bytes "hi") [] 5 true
    (by decide) (by decide) (by decide) (by decide)

/-- C9 as stated fails: with `%-4c,` the value 7 is sent after three blanks,
not before them (and without `-` before them); and a width above 255 is
reduced modulo 256, `%260c` giving three blanks, not 259. -/
theorem minus_pads_on_the_left :
    printFormat (fun _ => true) (bytes "%-4c,") [Arg.int 7] [] = some (bytes "   7,")
      ∧ printFormat (fun _ => true) (bytes "%-4c,") [Arg.int 7] [] ≠ some (bytes "7   ,")
      ∧ printFormat (fun _ => true) (bytes "%4c") [Arg.int 7] [] = some (bytes "7   ")
      ∧ printFormat (fun _ => true) ([37] ++ decimalText 260 ++ [99]) [Arg.int 7] []
          = some (bytes "7   ") := by
  decide

/-- C9, amended. For an 8-bit value whose decimal text `t` is shorter than
the width `w ≤ 255`, `%-<w>c` sends `w - |t|` blanks followed by `t`, and
`%<w>c` sends `t` followed by `w - |t|` blanks; the value 7 with the template
`%-4c,` gives three blanks, `7` and the comma. -/
theorem width_justification (malloc : Nat → Bool) (v w : Nat) (t uart : List Nat)
    (hm : malloc 0 = true) (hv : v < 256)
    (ht : intToString true (v : Int) = some t) (hlt : t.length < w) (hw : w ≤ 255) :
    printFormat malloc ([37, 45] ++ decimalText w ++ [99]) [Arg.int v] uart
        = some (uart ++ (List.replicate (w - t.length) 32 ++ t))
      ∧ printFormat malloc ([37] ++ decimalText w ++ [99]) [Arg.int v] uart
        = some (uart ++ (t ++ List.replicate (w - t.length) 32))
      ∧ printFormat (fun _ => true) (bytes "%-4c,") [Arg.int 7] [] = some (bytes "   7,") := by
  have hc : cString t = t := intToString_cString true _ t ht
  have hs : directiveString (malloc 0) 99 (Arg.int v) = some (some t) := by
    simp [directiveString, hm, Nat.mod_eq_of_lt hv, ht]
  have hl : (cString t).length < 256 := by rw [hc]; omega
  refine ⟨?_, ?_, by decide⟩
  · obtain ⟨hspec, hslen⟩ := spec_decimal_ok w hw true
    have h := printFormat_single malloc ((if true then [45] else []) ++ decimalText w) 99
      (Arg.int v) uart w true (some t) (by decide) hspec hslen (parseWidth_spec w hw true) hs
    simp only [if_true, List.singleton_append, List.cons_append, List.nil_append] at h
    simp only [List.cons_append, List.nil_append]
    rw [h]
    simp [Option.elim, emitField_eq w true t uart hl, hc]
  · obtain ⟨hspec, hslen⟩ := spec_decimal_ok w hw false
    have h := printFormat_single malloc ((if false then [45] else []) ++ decimalText w) 99
      (Arg.int v) uart w false (some t) (by decide) hspec hslen (parseWidth_spec w hw false) hs
    simp only [Bool.false_eq_true, if_false, List.nil_append] at h
    simp only [List.cons_append, List.nil_append]
    rw [h]
    simp [Option.elim, emitField_eq w false t uart hl, hc]

/-- Witness of C9: the value 7 in a field of width 4. -/
theorem width_justification_witness :
    printFormat (fun _ => true) ([37, 45] ++ decimalText 4 ++ [99]) [Arg.int 7] []
        = some ([] ++ (List.replicate (4 - [55].length) 32 ++ [55]))
      ∧ printFormat (fun _ => true) ([37] ++ decimalText 4 ++ [99]) [Arg.int 7] []
        = some ([] ++ ([55] ++ List.replicate (4 - [55].length) 32))
      ∧ printFormat (fun _ => true) (bytes "%-4c,") [Arg.int 7] [] = some (bytes "   7,") :=
  width_justification (fun _ => true) 7 4 [55] [] rfl (by decide) (by decide) (by decide)
    (by decide)

/-! ## Properties of the display columns -/

theorem testBit_small (m i : Nat) (hm : m < 65536) (hi : 16 ≤ i) : m.testBit i = false := by
  apply Nat.testBit_lt_two_pow
  calc m < 2 ^ 16 := hm
    _ ≤ 2 ^ i := Nat.pow_le_pow_right (by decide) hi

theorem testBit_5555 (i : Nat) : Nat.testBit 0x5555 i = decide (i < 16 ∧ i % 2 = 0) := by
  by_cases h : i < 16
  · interval_cases i <;> decide
  · rw [testBit_small _ i (by decide) (by omega)]; simp [h]

theorem testBit_AAAA (i : Nat) : Nat.testBit 0xAAAA i = decide (i < 16 ∧ i % 2 = 1) := by
  by_cases h : i < 16
  · interval_cases i <;> decide
  · rw [testBit_small _ i (by decide) (by omega)]; simp [h]

theorem testBit_3333 (i : Nat) : Nat.testBit 0x3333 i = decide (i < 16 ∧ i % 4 < 2) := by
  by_cases h : i < 16
  · interval_cases i <;> decide
  · rw [testBit_small _ i (by decide) (by omega)]; simp [h]

theorem testBit_CCCC (i : Nat) : Nat.testBit 0xCCCC i = decide (i < 16 ∧ 2 ≤ i % 4) := by
  by_cases h : i < 16
  · interval_cases i <;> decide
  · rw [testBit_small _ i (by decide) (by omega)]; simp [h]

theorem testBit_0F0F (i : Nat) : Nat.testBit 0x0F0F i = decide (i < 16 ∧ i % 8 < 4) := by
  by_cases h : i < 16
  · interval_cases i <;> decide
  · rw [testBit_small _ i (by decide) (by omega)]; simp [h]

theorem testBit_F0F0 (i : Nat) : Nat.testBit 0xF0F0 i = decide (i < 16 ∧ 4 ≤ i % 8) := by
  by_cases h : i < 16
  · interval_cases i <;> decide
  · rw [testBit_small _ i (by decide) (by omega)]; simp [h]

theorem testBit_00FF (i : Nat) : Nat.testBit 0x00FF i = decide (i < 8) := by
  by_cases h : i < 16
  · interval_cases i <;> decide
  · rw [testBit_small _ i (by decide) (by omega)]
    have : ¬ i < 8 := by omega
    simp [this]

theorem testBit_FF00 (i : Nat) : Nat.testBit 0xFF00 i = decide (8 ≤ i ∧ i < 16) := by
  by_cases h : i < 16
  · interval_cases i <;> decide
  · rw [testBit_small _ i (by decide) (by omega)]; simp [h]

theorem reverseBits_testBit (x k : Nat) (hk : k < 16) :
    (reverseBits x).testBit k = x.testBit (15 - k) := by
  interval_cases k <;>
    simp [reverseBits, Nat.testBit_or, Nat.testBit_and, Nat.testBit_shiftRight,
      Nat.testBit_shiftLeft, testBit_5555, testBit_AAAA, testBit_3333, testBit_CCCC,
      testBit_0F0F, testBit_F0F0, testBit_00FF, testBit_FF00]

theorem reverseBits_lt (x : Nat) : reverseBits x < 65536 := by
  unfold reverseBits
  exact Nat.or_lt_two_pow (n := 16) (Nat.and_lt_two_pow _ (by decide))
    (Nat.and_lt_two_pow _ (by decide))

theorem reverseBits_reverseBits (x : Nat) (hx : x < 65536) :
    reverseBits (reverseBits x) = x := by
  apply Nat.eq_of_testBit_eq
  intro i
  by_cases hi : i < 16
  · rw [reverseBits_testBit _ i hi, reverseBits_testBit _ (15 - i) (by omega)]
    congr 1
    omega
  · rw [testBit_small _ i (reverseBits_lt _) (by omega), testBit_small _ i hx (by omega)]

theorem setBits_eq_sum (x : Nat) :
    setBits x = (if x.testBit 0 then 1 else 0) + (if x.testBit 1 then 1 else 0)
      + (if x.testBit 2 then 1 else 0) + (if x.testBit 3 then 1 else 0)
      + (if x.testBit 4 then 1 else 0) + (if x.testBit 5 then 1 else 0)
      + (if x.testBit 6 then 1 else 0) + (if x.testBit 7 then 1 else 0)
      + (if x.testBit 8 then 1 else 0) + (if x.testBit 9 then 1 else 0)
      + (if x.testBit 10 then 1 else 0) + (if x.testBit 11 then 1 else 0)
      + (if x.testBit 12 then 1 else 0) + (if x.testBit 13 then 1 else 0)
      + (if x.testBit 14 then 1 else 0) + (if x.testBit 15 then 1 else 0) := by
  have hr : List.range 16 = [0, 1, 2, 3, 4, 5, 6, 7, 8, 9, 10, 11, 12, 13, 14, 15] := by decide
  unfold setBits
  rw [← List.countP_eq_length_filter, hr]
  simp only [List.countP_cons, List.countP_nil]
  omega

theorem setBits_reverseBits (x : Nat) : setBits (reverseBits x) = setBits x := by
  rw [setBits_eq_sum, setBits_eq_sum]
  rw [reverseBits_testBit x 0 (by decide), reverseBits_testBit x 1 (by decide),
    reverseBits_testBit x 2 (by decide), reverseBits_testBit x 3 (by decide),
    reverseBits_testBit x 4 (by decide), reverseBits_testBit x 5 (by decide),
    reverseBits_testBit x 6 (by decide), reverseBits_testBit x 7 (by decide),
    reverseBits_testBit x 8 (by decide), reverseBits_testBit x 9 (by decide),
    reverseBits_testBit x 10 (by decide), reverseBits_testBit x 11 (by decide),
    reverseBits_testBit x 12 (by decide), reverseBits_testBit x 13 (by decide),
    reverseBits_testBit x 14 (by decide), reverseBits_testBit x 15 (by decide)]
  simp only [Nat.reduceSub]
  omega

/-- C18. The four mask-and-shift statements reverse the order of the 16 bits:
bit `k` of the result is bit `15 - k` of `x` for every 16-bit `x` and
`k ≤ 15`; hence the step undoes itself and keeps the number of set bits. -/
theorem reverseBits_is_reversal (x k : Nat) (hx : x < 65536) (hk : k < 16) :
    (reverseBits x).testBit k = x.testBit (15 - k)
      ∧ reverseBits (reverseBits x) = x
      ∧ setBits (reverseBits x) = setBits x :=
  ⟨reverseBits_testBit x k hk, reverseBits_reverseBits x hx, setBits_reverseBits x⟩

/-- Witness of C18: the column with bits 3 to 6 set, at bit 12. -/
theorem reverseBits_is_reversal_witness :
    (reverseBits 120).testBit 12 = (120 : Nat).testBit (15 - 12)
      ∧ reverseBits (reverseBits 120) = 120
      ∧ setBits (reverseBits 120) = setBits 120 :=
  reverseBits_is_reversal 120 12 (by decide) (by decide)

theorem columnBits_lt (i prev cur : Nat) : columnBits i prev cur < 65536 := by
  unfold columnBits
  simp only
  split_ifs <;> exact Nat.mod_lt _ (by decide)

theorem columnBits_pos (i prev cur : Nat) (hi : 0 < i) :
    columnBits i prev cur = columnBits 1 prev cur := by
  have h : i ≠ 0 := by omega
  simp [columnBits, h]

set_option maxRecDepth 100000 in
theorem columnBits_run_table : ∀ a, a ≤ 16 → ∀ b, b ≤ 16 → a ≠ b → ∀ k, k < 16 →
    (columnBits 1 a b).testBit k = decide (min a b ≤ k ∧ k < max a b) := by
  decide

set_option maxRecDepth 100000 in
theorem columnBits_run_count : ∀ a, a ≤ 16 → ∀ b, b ≤ 16 → a ≠ b →
    setBits (columnBits 1 a b) = max a b - min a b := by
  decide

/-- C16. At a position `i > 0` whose bar height `b` differs from the height
`a` before it, both in `[0,16]`, the column before the bit reversal has
exactly the bits `min a b` to `max a b - 1` set, a run of `|b - a|` bits; so in
a strictly increasing sequence of heights the column sent for `i > 0` has
`height[i] - height[i-1]` set bits. -/
theorem connecting_run (i a b k : Nat) (heights : List Nat) (j : Nat)
    (hi : 0 < i) (ha : a ≤ 16) (hb : b ≤ 16) (hab : a ≠ b)
    (hrange : ∀ h ∈ heights, h ≤ 16)
    (hinc : ∀ n, n + 1 < heights.length → heights.getD n 0 < heights.getD (n + 1) 0)
    (hj : j + 1 < heights.length) :
    (columnBits i a b).testBit k = decide (min a b ≤ k ∧ k < max a b)
      ∧ setBits (columnBits i a b) = max a b - min a b
      ∧ setBits (displayColumn (j + 1) (heights.getD j 0) (heights.getD (j + 1) 0))
          = heights.getD (j + 1) 0 - heights.getD j 0 := by
  refine ⟨?_, ?_, ?_⟩
  · rw [columnBits_pos i a b hi]
    by_cases hk : k < 16
    · exact columnBits_run_table a ha b hb hab k hk
    · rw [testBit_small _ k (columnBits_lt _ _ _) (by omega)]
      have : ¬ (min a b ≤ k ∧ k < max a b) := by omega
      exact (decide_eq_false this).symm
  · rw [columnBits_pos i a b hi]
    exact columnBits_run_count a ha b hb hab
  · have hlt := hinc j hj
    have h1 : heights.getD j 0 ≤ 16 := by
      rw [List.getD_eq_getElem _ _ (by omega)]
      exact hrange _ (List.getElem_mem _)
    have h2 : heights.getD (j + 1) 0 ≤ 16 := by
      rw [List.getD_eq_getElem _ _ hj]
      exact hrange _ (List.getElem_mem _)
    unfold displayColumn
    rw [setBits_reverseBits, columnBits_pos (j + 1) _ _ (by omega),
      columnBits_run_count _ h1 _ h2 (by omega)]
    omega

/-- Witness of C16: a step from height 3 to height 7, and the heights
2, 5, 9 at their second position. -/
theorem connecting_run_witness :
    (columnBits 1 3 7).testBit 4 = decide (min 3 7 ≤ 4 ∧ 4 < max 3 7)
      ∧ setBits (columnBits 1 3 7) = max 3 7 - min 3 7
      ∧ setBits (displayColumn (1 + 1) ([2, 5, 9].getD 1 0) ([2, 5, 9].getD (1 + 1) 0))
          = [2, 5, 9].getD (1 + 1) 0 - [2, 5, 9].getD 1 0 :=
  connecting_run 1 3 7 4 [2, 5, 9] 1 (by decide) (by decide) (by decide) (by decide)
    (by decide)
    (by
      intro n hn
      have h2 : n < 2 := by
        simp only [List.length_cons, List.length_nil] at hn
        omega
      interval_cases n <;> decide)
    (by decide)

/-- C17 as stated fails: at height 16 the dot `1 << 16` does not fit the
`uint16_t` column, which is left without any set bit. -/
theorem dot_at_sixteen_is_blank :
    columnBits 0 0 16 = 0 ∧ columnBits 1 16 16 = 0
      ∧ setBits (columnBits 0 0 16) = 0 ∧ setBits (displayColumn 0 0 16) = 0 := by
  decide

theorem one_shiftLeft_mod (h : Nat) (hh : h ≤ 15) : (1 <<< h) % 65536 = 2 ^ h := by
  rw [Nat.one_shiftLeft]
  apply Nat.mod_eq_of_lt
  calc 2 ^ h ≤ 2 ^ 15 := Nat.pow_le_pow_right (by decide) hh
    _ < 65536 := by decide

theorem columnBits_dot (i prev h : Nat) (hh : h ≤ 15) (hdot : i = 0 ∨ prev = h) :
    columnBits i prev h = 2 ^ h := by
  unfold columnBits
  simp only [one_shiftLeft_mod h hh]
  by_cases hi : i = 0
  · simp [hi]
  · have hp : prev = h := by omega
    subst hp
    simp [toInt8]

/-- C17, amended. For a bar height `h` in `[0,15]`, the column at position 0,
and the column at a position `i > 0` whose height equals the one before it,
has exactly one set bit: bit `h` before the bit reversal, bit `15 - h`
after. -/
theorem dot_column (i prev h k : Nat) (hh : h ≤ 15) (hdot : i = 0 ∨ prev = h) :
    (columnBits i prev h).testBit k = decide (k = h)
      ∧ (displayColumn i prev h).testBit k = decide (k = 15 - h)
      ∧ setBits (columnBits i prev h) = 1
      ∧ setBits (displayColumn i prev h) = 1 := by
  have hcol := columnBits_dot i prev h hh hdot
  have hbit : ∀ n, (columnBits i prev h).testBit n = decide (n = h) := by
    intro n
    rw [hcol, Nat.testBit_two_pow]
    by_cases hn : n = h
    · rw [decide_eq_true hn, decide_eq_true hn.symm]
    · have h1 : ¬ h = n := fun e => hn e.symm
      rw [decide_eq_false hn, decide_eq_false h1]
  have hcount : setBits (columnBits i prev h) = 1 := by
    rw [hcol]
    interval_cases h <;> decide
  refine ⟨hbit k, ?_, hcount, ?_⟩
  · unfold displayColumn
    by_cases hk : k < 16
    · rw [reverseBits_testBit _ k hk, hbit]
      by_cases e : k = 15 - h
      · have h1 : 15 - k = h := by omega
        rw [decide_eq_true h1, decide_eq_true e]
      · have h1 : ¬ 15 - k = h := by omega
        rw [decide_eq_false h1, decide_eq_false e]
    · rw [testBit_small _ k (reverseBits_lt _) (by omega)]
      have h1 : ¬ k = 15 - h := by omega
      exact (decide_eq_false h1).symm
  · unfold displayColumn
    rw [setBits_reverseBits, hcount]

/-- Witness of C17: height 5 repeated at position 3, looked at bit 10. -/
theorem dot_column_witness :
    (columnBits 3 5 5).testBit 10 = decide (10 = 5)
      ∧ (displayColumn 3 5 5).testBit 10 = decide (10 = 15 - 5)
      ∧ setBits (columnBits 3 5 5) = 1
      ∧ setBits (displayColumn 3 5 5) = 1 :=
  dot_column 3 5 5 10 (by decide) (by decide)

/-! ## Properties of the sensor -/

theorem sensorCycle_bounded (c state : Nat) (hc : c ≤ 150) :
    ∃ s x, sensorCycle c state = some (s, x) ∧ x = xorshift state
      ∧ s ≤ 150 ∧ s ≤ c + 30 ∧ c ≤ s + 30 := by
  unfold sensorCycle
  simp only [TEMP_DECIMALS_STEP, MIN_TEMP_DECIMALS, MAX_TEMP_DECIMALS]
  by_cases h1 : c < 30
  · have hl : ((c : Int) - ((30 : Nat) : Int) < ((0 : Nat) : Int)) := by omega
    have hu : ¬ ((c : Int) + ((30 : Nat) : Int) > ((150 : Nat) : Int)) := by omega
    rw [if_pos hl, if_neg hu]
    have hm : ((((c : Int) + ((30 : Nat) : Int)) - ((0 : Nat) : Int) + 1) % 4294967296).toNat
        = c + 31 := by omega
    have hr := Nat.mod_lt (xorshift state) (show c + 31 > 0 by omega)
    rw [hm, if_neg (by omega)]
    refine ⟨_, _, rfl, rfl, ?_, ?_, ?_⟩ <;> omega
  · by_cases h2 : c > 120
    · have hl : ¬ ((c : Int) - ((30 : Nat) : Int) < ((0 : Nat) : Int)) := by omega
      have hu : ((c : Int) + ((30 : Nat) : Int) > ((150 : Nat) : Int)) := by omega
      rw [if_neg hl, if_pos hu]
      have hm : ((((150 : Nat) : Int) - ((c : Int) - ((30 : Nat) : Int)) + 1) % 4294967296).toNat
          = 181 - c := by omega
      have hr := Nat.mod_lt (xorshift state) (show 181 - c > 0 by omega)
      rw [hm, if_neg (by omega)]
      refine ⟨_, _, rfl, rfl, ?_, ?_, ?_⟩ <;> omega
    · have hl : ¬ ((c : Int) - ((30 : Nat) : Int) < ((0 : Nat) : Int)) := by omega
      have hu : ¬ ((c : Int) + ((30 : Nat) : Int) > ((150 : Nat) : Int)) := by omega
      rw [if_neg hl, if_neg hu]
      have hm : ((((c : Int) + ((30 : Nat) : Int)) - ((c : Int) - ((30 : Nat) : Int)) + 1)
          % 4294967296).toNat = 61 := by omega
      have hr := Nat.mod_lt (xorshift state) (show 61 > 0 by omega)
      rw [hm, if_neg (by omega)]
      refine ⟨_, _, rfl, rfl, ?_, ?_, ?_⟩ <;> omega

theorem sensorCycles_succ (n c state : Nat) (r : Nat × Nat)
    (h : sensorCycle c state = some r) :
    sensorCycles (n + 1) c state = (sensorCycles n r.1 r.2).map (fun later => r :: later) := by
  rw [sensorCycles, h]
  rfl

theorem sensorCycles_bounded : ∀ (n c state : Nat), c ≤ 150 →
    ∃ run, sensorCycles n c state = some run ∧ run.length = n
      ∧ List.Chain (fun p q => q ≤ 150 ∧ q ≤ p + 30 ∧ p ≤ q + 30) c (run.map Prod.fst) := by
  intro n
  induction n with
  | zero => intro c state _; exact ⟨[], rfl, rfl, List.Chain.nil⟩
  | succ n ih =>
    intro c state hc
    obtain ⟨s, x, hstep, _, hs, h1, h2⟩ := sensorCycle_bounded c state hc
    obtain ⟨run, hrun, hlen, hchain⟩ := ih s x hs
    refine ⟨(s, x) :: run, ?_, ?_, ?_⟩
    · rw [sensorCycles_succ n c state (s, x) hstep, hrun]
      rfl
    · simp [hlen]
    · exact List.Chain.cons ⟨hs, h1, h2⟩ hchain

/-- C19. From a sample `c` in `[0,150]` and any generator state one sensor
cycle gives a sample `s` with `s ≤ 150` and `|s - c| ≤ 30`; the first sample
being 75, every sample of a run of any length from any seed is in `[0,150]`
and within 30 of the one before it. -/
theorem bounded_random_walk (c state seed n : Nat) (hc : c ≤ 150) :
    (∃ s x, sensorCycle c state = some (s, x) ∧ 0 ≤ s ∧ s ≤ 150 ∧ s ≤ c + 30 ∧ c ≤ s + 30)
      ∧ INITIAL_TEMP_DECIMALS = 75
      ∧ ∃ run, vSensorTask seed n = some run ∧ run.length = n
          ∧ List.Chain (fun p q => 0 ≤ q ∧ q ≤ 150 ∧ q ≤ p + 30 ∧ p ≤ q + 30) 75
              (run.map Prod.fst) := by
  refine ⟨?_, by decide, ?_⟩
  · obtain ⟨s, x, hstep, _, hs, h1, h2⟩ := sensorCycle_bounded c state hc
    exact ⟨s, x, hstep, Nat.zero_le s, hs, h1, h2⟩
  · obtain ⟨run, hrun, hlen, hchain⟩ :=
      sensorCycles_bounded n INITIAL_TEMP_DECIMALS (seedState seed) (by decide)
    refine ⟨run, hrun, hlen, ?_⟩
    have h75 : INITIAL_TEMP_DECIMALS = 75 := by decide
    rw [h75] at hchain
    exact hchain.imp (fun p q h => ⟨Nat.zero_le q, h⟩)

/-- Witness of C19: the sample 10, and three cycles from the seed 12345. -/
theorem bounded_random_walk_witness :
    (∃ s x, sensorCycle 10 7 = some (s, x) ∧ 0 ≤ s ∧ s ≤ 150 ∧ s ≤ 10 + 30 ∧ 10 ≤ s + 30)
      ∧ INITIAL_TEMP_DECIMALS = 75
      ∧ ∃ run, vSensorTask 12345 3 = some run ∧ run.length = 3
          ∧ List.Chain (fun p q => 0 ≤ q ∧ q ≤ 150 ∧ q ≤ p + 30 ∧ p ≤ q + 30) 75
              (run.map Prod.fst) :=
  bounded_random_walk 10 7 12345 3 (by decide)

theorem testBit_ge_32 (x i : Nat) (hx : x < 4294967296) (hi : 32 ≤ i) : x.testBit i = false := by
  apply Nat.testBit_lt_two_pow
  calc x < 2 ^ 32 := hx
    _ ≤ 2 ^ i := Nat.pow_le_pow_right (by decide) hi

theorem ne_zero_of_testBit (y j : Nat) (h : y.testBit j = true) : y ≠ 0 := by
  intro hy
  rw [hy, Nat.zero_testBit] at h
  exact Bool.false_ne_true h

/-- The statement `x ^= x << k` keeps a non-zero 32-bit value non-zero: its
lowest set bit survives. -/
theorem xor_shiftLeft_ne_zero (x k : Nat) (hx : x ≠ 0) (hx32 : x < 4294967296) (hk : 0 < k) :
    x ^^^ ((x <<< k) % 4294967296) ≠ 0 ∧ x ^^^ ((x <<< k) % 4294967296) < 4294967296 := by
  have hex : ∃ i, x.testBit i = true := Nat.ne_zero_implies_bit_true hx
  have hj : x.testBit (Nat.find hex) = true := Nat.find_spec hex
  have hmin : ∀ m, m < Nat.find hex → ¬ x.testBit m = true := fun m hm => Nat.find_min hex hm
  have h32 : (4294967296 : Nat) = 2 ^ 32 := by norm_num
  constructor
  · apply ne_zero_of_testBit _ (Nat.find hex)
    rw [Nat.testBit_xor, hj, h32, Nat.testBit_mod_two_pow, Nat.testBit_shiftLeft]
    by_cases hge : Nat.find hex ≥ k
    · have hlow : x.testBit (Nat.find hex - k) = false := by
        have := hmin (Nat.find hex - k) (by omega)
        simpa using this
      simp [hlow]
    · simp [hge]
  · rw [h32]
    exact Nat.xor_lt_two_pow (by rw [← h32]; exact hx32) (Nat.mod_lt _ (by positivity))

/-- The statement `x ^= x >> k` keeps a non-zero 32-bit value non-zero: its
highest set bit survives. -/
theorem xor_shiftRight_ne_zero (x k : Nat) (hx : x ≠ 0) (hx32 : x < 4294967296) (hk : 0 < k) :
    x ^^^ (x >>> k) ≠ 0 ∧ x ^^^ (x >>> k) < 4294967296 := by
  obtain ⟨i, hi⟩ := Nat.ne_zero_implies_bit_true hx
  have hi31 : i ≤ 31 := by
    by_contra hcon
    rw [testBit_ge_32 x i hx32 (by omega)] at hi
    exact Bool.false_ne_true hi
  have hj : x.testBit (Nat.findGreatest (fun m => x.testBit m = true) 31) = true :=
    Nat.findGreatest_spec (P := fun m => x.testBit m = true) hi31 hi
  have hle : Nat.findGreatest (fun m => x.testBit m = true) 31 ≤ 31 := Nat.findGreatest_le 31
  have h32 : (4294967296 : Nat) = 2 ^ 32 := by norm_num
  constructor
  · apply ne_zero_of_testBit _ (Nat.findGreatest (fun m => x.testBit m = true) 31)
    rw [Nat.testBit_xor, hj, Nat.testBit_shiftRight]
    have hhigh : x.testBit (k + Nat.findGreatest (fun m => x.testBit m = true) 31) = false := by
      by_cases hb : k + Nat.findGreatest (fun m => x.testBit m = true) 31 ≤ 31
      · have := Nat.findGreatest_is_greatest (P := fun m => x.testBit m = true)
          (show Nat.findGreatest (fun m => x.testBit m = true) 31
            < k + Nat.findGreatest (fun m => x.testBit m = true) 31 by omega) hb
        simpa using this
      · exact testBit_ge_32 x _ hx32 (by omega)
    simp [hhigh]
  · rw [h32]
    refine Nat.xor_lt_two_pow (by rw [← h32]; exact hx32) ?_
    rw [← h32, Nat.shiftRight_eq_div_pow]
    exact lt_of_le_of_lt (Nat.div_le_self _ _) hx32

theorem xorshift_ne_zero (x : Nat) (hx : x ≠ 0) (hx32 : x < 4294967296) :
    xorshift x ≠ 0 ∧ xorshift x < 4294967296 := by
  obtain ⟨a1, a2⟩ := xor_shiftLeft_ne_zero x 13 hx hx32 (by decide)
  obtain ⟨b1, b2⟩ := xor_shiftRight_ne_zero _ 17 a1 a2 (by decide)
  exact xor_shiftLeft_ne_zero _ 5 b1 b2 (by decide)

theorem seedState_ne_zero (seed : Nat) (hseed : seed < 4294967296) :
    seedState seed ≠ 0 ∧ seedState seed < 4294967296 := by
  unfold seedState
  split_ifs with h
  · exact ⟨by decide, by decide⟩
  · exact ⟨h, hseed⟩

theorem sensorCycles_state : ∀ (n c state : Nat), c ≤ 150 → state ≠ 0 → state < 4294967296 →
    ∃ run, sensorCycles n c state = some run ∧ run.length = n
      ∧ ∀ p ∈ run, p.2 ≠ 0 ∧ p.2 < 4294967296 := by
  intro n
  induction n with
  | zero => intro c state _ _ _; exact ⟨[], rfl, rfl, by simp⟩
  | succ n ih =>
    intro c state hc h0 h32
    obtain ⟨s, x, hstep, hx, hs, _, _⟩ := sensorCycle_bounded c state hc
    have hnz := xorshift_ne_zero state h0 h32
    rw [← hx] at hnz
    obtain ⟨run, hrun, hlen, hall⟩ := ih s x hs hnz.1 hnz.2
    refine ⟨(s, x) :: run, ?_, ?_, ?_⟩
    · rw [sensorCycles_succ n c state (s, x) hstep, hrun]
      rfl
    · simp [hlen]
    · intro p hp
      rcases List.mem_cons.mp hp with rfl | hp
      · exact hnz
      · exact hall p hp

/-- C20. The generator state is never zero: a zero seed is replaced by 1, the
xorshift step maps every non-zero 32-bit state to a non-zero 32-bit state, and
so the state is non-zero at the start and after every cycle of a run. -/
theorem generator_never_zero (x seed n : Nat) (hx : x ≠ 0) (hx32 : x < 4294967296)
    (hseed : seed < 4294967296) :
    seedState 0 = 1
      ∧ seedState seed ≠ 0
      ∧ xorshift x ≠ 0
      ∧ xorshift x < 4294967296
      ∧ ∃ run, vSensorTask seed n = some run ∧ run.length = n ∧ ∀ p ∈ run, p.2 ≠ 0 := by
  have hs := seedState_ne_zero seed hseed
  have hstep := xorshift_ne_zero x hx hx32
  obtain ⟨run, hrun, hlen, hall⟩ :=
    sensorCycles_state n INITIAL_TEMP_DECIMALS (seedState seed) (by decide) hs.1 hs.2
  exact ⟨by decide, hs.1, hstep.1, hstep.2, run, hrun, hlen, fun p hp => (hall p hp).1⟩

/-- Witness of C20: the state 1, and four cycles from the seed 0. -/
theorem generator_never_zero_witness :
    seedState 0 = 1
      ∧ seedState 0 ≠ 0
      ∧ xorshift 1 ≠ 0
      ∧ xorshift 1 < 4294967296
      ∧ ∃ run, vSensorTask 0 4 = some run ∧ run.length = 4 ∧ ∀ p ∈ run, p.2 ≠ 0 :=
  generator_never_zero 1 0 4 (by decide) (by decide) (by decide)

/-! ## Properties of the reporter -/

/-- When the counter is below the mark, the divisor the reporter uses is one
less than the number of ticks elapsed modulo `2^32`. -/
theorem tickDelta_wrap (current previousMark : Nat) (hlt : current < previousMark)
    (hp : previousMark < 4294967296) :
    tickDelta current previousMark + 1 = (current + 4294967296 - previousMark) % 4294967296 := by
  unfold tickDelta
  rw [if_neg (by omega)]
  omega

/-- C13 fails on the code: with the mark at `0xFFFFFFFE`, the counter at 2 and
a run-time delta of 1, the reporter divides by 3 and gets 333, while the
interval is 4 ticks long and `1000 / 4` is 250. -/
theorem wrap_divisor_off_by_one :
    tickDelta 2 4294967294 = 3
      ∧ (2 + 4294967296 - 4294967294) % 4294967296 = 4
      ∧ cpuStat 1 0 2 4294967294 = some 333
      ∧ cpuStat 1 0 2 4294967294 ≠ some (1 * 1000 / ((2 + 4294967296 - 4294967294) % 4294967296))
      ∧ cpuStat 1 0 4 0 = some 250 := by
  decide

set_option maxRecDepth 100000 in
/-- The cells of the heap bar for every percentage up to 100: one `|` per
started step of 5 below the percentage, one blank per started step of 5 from
the percentage to 100. -/
theorem heapBarCells_table : ∀ p, p ≤ 100 →
    heapBarCells p = some (List.replicate ((p + 4) / 5) 124
      ++ List.replicate ((100 - p + 4) / 5) 32) := by
  decide

theorem heapBarCells_length (p : Nat) (hp : p ≤ 100) :
    (heapBarCells p).map List.length = some (if p % 5 = 0 then 20 else 21) := by
  rw [heapBarCells_table p hp]
  simp only [Option.map_some', List.length_append, List.length_replicate]
  congr 1
  split_ifs <;> omega

/-- C14 fails on the code: for a percentage of 3 the first loop sends one `|`
and the second 20 blanks, 21 cells in all (as for every percentage that is not
a multiple of 5). -/
theorem heap_bar_has_21_cells :
    heapBarCells 3 = some ([124] ++ List.replicate 20 32)
      ∧ (heapBarCells 3).map List.length = some 21
      ∧ (heapBarCells 3).map List.length ≠ some 20 := by
  decide

/-! ## Decimal rendering by `intToString` -/

theorem digitChar_toNat : ∀ k, k < 10 → (Nat.digitChar k).toNat = 48 + k := by
  decide

theorem countDigits_zero (fuel c : Nat) : countDigits fuel 0 c = c := by
  cases fuel <;> simp [countDigits]

theorem countDigits_succ (fuel n c : Nat) (hn : 0 < n) :
    countDigits (fuel + 1) (n : Int) c = countDigits fuel ((n / 10 : Nat) : Int) (c + 1) := by
  have h : ((n : Int) ≠ 0) := by omega
  rw [countDigits, if_pos h]
  rfl

theorem fillDigits_succ (k n : Nat) (acc : List Nat) :
    fillDigits (k + 1) (n : Int) acc
      = fillDigits k ((n / 10 : Nat) : Int) ((48 + n % 10) :: acc) := by
  rw [fillDigits]
  have h1 : (n : Int).tdiv 10 = ((n / 10 : Nat) : Int) := rfl
  have h2 : (n : Int).tmod 10 = ((n % 10 : Nat) : Int) := rfl
  rw [h1, h2]
  congr 2
  omega

/-- The two loops of `intToString` on a natural number against the digits of
the library function `Nat.toDigits`. -/
theorem digits_loops (n : Nat) : ∀ (fuelC c : Nat), n ≤ fuelC →
    ∃ k, countDigits fuelC (n : Int) c = c + k
      ∧ ∀ (fuelT : Nat) (accC : List Char), 0 < n → n < fuelT →
        fillDigits k (n : Int) (accC.map Char.toNat)
          = (Nat.toDigitsCore 10 fuelT n accC).map Char.toNat := by
  induction n using Nat.strong_induction_on with
  | _ n ih =>
    intro fuelC c hfuel
    by_cases hn : n = 0
    · subst hn
      exact ⟨0, by simp [countDigits_zero], fun _ _ h => absurd h (by decide)⟩
    · have hpos : 0 < n := Nat.pos_of_ne_zero hn
      obtain ⟨f, rfl⟩ : ∃ f, fuelC = f + 1 := ⟨fuelC - 1, by omega⟩
      have hdiv : n / 10 < n := Nat.div_lt_self hpos (by decide)
      obtain ⟨k, hk, hfill⟩ := ih (n / 10) hdiv f (c + 1) (by omega)
      refine ⟨k + 1, ?_, ?_⟩
      · rw [countDigits_succ f n c hpos, hk]
        omega
      · intro fuelT accC _ hT
        obtain ⟨g, rfl⟩ : ∃ g, fuelT = g + 1 := ⟨fuelT - 1, by omega⟩
        have hd : (Nat.digitChar (n % 10)).toNat = 48 + n % 10 :=
          digitChar_toNat _ (Nat.mod_lt _ (by decide))
        rw [fillDigits_succ, Nat.toDigitsCore]
        by_cases h0 : n / 10 = 0
        · have hk0 : k = 0 := by
            rw [h0] at hk
            have := countDigits_zero f (c + 1)
            simp only [Nat.cast_zero] at hk
            omega
          simp only [h0, if_true, hk0, fillDigits, List.map_cons, hd]
        · simp only [h0, if_false]
          have := hfill g (Nat.digitChar (n % 10) :: accC) (Nat.pos_of_ne_zero h0) (by omega)
          simp only [List.map_cons, hd] at this
          exact this

/-- On a natural number `intToString` gives the decimal text. -/
theorem intToString_nat (n : Nat) : intToString true (n : Int) = some (decimalText n) := by
  by_cases hn : n = 0
  · subst hn
    decide
  · have hpos : 0 < n := Nat.pos_of_ne_zero hn
    obtain ⟨k, hk, hfill⟩ := digits_loops n n 0 (Nat.le_refl n)
    have h := hfill (n + 1) [] hpos (by omega)
    have hne : ((n : Int) ≠ 0) := by omega
    unfold intToString
    simp only [if_true, hne, if_false, Int.natAbs_ofNat, hk, Nat.zero_add]
    rw [show ([] : List Nat) = List.map Char.toNat [] from rfl, h]
    rfl

theorem toLong_small (v : Nat) (hv : v < 2147483648) : toLong v = (v : Int) := by
  unfold toLong
  have h1 : v % 4294967296 = v := Nat.mod_eq_of_lt (by omega)
  rw [h1, if_pos hv]

theorem decimalText_length (v : Nat) (hv : v < 4294967296) : (decimalText v).length ≤ 10 := by
  unfold decimalText Nat.toDigits
  rw [List.length_map]
  exact Nat.toDigitsCore_length 10 (by decide) (v + 1) v 10
    (lt_of_lt_of_le hv (by norm_num)) (by decide)

theorem directiveString_nat (d v : Nat)
    (hd : (d = 99 ∧ v < 256) ∨ (d = 104 ∧ v < 65536) ∨ (d = 100 ∧ v < 2147483648)) :
    directiveString true d (Arg.int v) = some (some (decimalText v)) := by
  rcases hd with ⟨rfl, hv⟩ | ⟨rfl, hv⟩ | ⟨rfl, hv⟩
  · simp [directiveString, Nat.mod_eq_of_lt hv, intToString_nat]
  · simp [directiveString, Nat.mod_eq_of_lt hv, intToString_nat]
  · simp [directiveString, toLong_small v hv, intToString_nat]

theorem toDigitsCore_append (n : Nat) : ∀ (fuel : Nat) (ds : List Char), n < fuel →
    Nat.toDigitsCore 10 fuel n ds = Nat.toDigits 10 n ++ ds := by
  induction n using Nat.strong_induction_on with
  | _ n ih =>
    intro fuel ds hfuel
    obtain ⟨f, rfl⟩ : ∃ f, fuel = f + 1 := ⟨fuel - 1, by omega⟩
    unfold Nat.toDigits
    rw [Nat.toDigitsCore, Nat.toDigitsCore]
    by_cases h0 : n / 10 = 0
    · simp only [h0, if_true, List.singleton_append]
    · simp only [h0, if_false]
      have hlt : n / 10 < n := by omega
      rw [ih (n / 10) hlt f _ (by omega), ih (n / 10) hlt n [Nat.digitChar (n % 10)] hlt]
      simp

theorem decimalText_small (v : Nat) (hv : v < 10) : decimalText v = [48 + v] := by
  unfold decimalText Nat.toDigits
  rw [Nat.toDigitsCore]
  have h0 : v / 10 = 0 := by omega
  have hm : v % 10 = v := by omega
  simp only [h0, if_true, List.map_cons, List.map_nil, hm, digitChar_toNat v hv]

theorem decimalText_step (v : Nat) (hv : 10 ≤ v) :
    decimalText v = decimalText (v / 10) ++ [48 + v % 10] := by
  unfold decimalText
  conv => lhs; unfold Nat.toDigits
  rw [Nat.toDigitsCore]
  have h0 : ¬ (v / 10 = 0) := by omega
  simp only [h0, if_false]
  rw [toDigitsCore_append (v / 10) v _ (by omega)]
  simp only [List.map_append, List.map_cons, List.map_nil,
    digitChar_toNat (v % 10) (Nat.mod_lt _ (by decide))]

theorem decimalText_digits (v : Nat) : ∀ c ∈ decimalText v, 48 ≤ c ∧ c ≤ 57 := by
  induction v using Nat.strong_induction_on with
  | _ v ih =>
    intro c hc
    by_cases hv : v < 10
    · rw [decimalText_small v hv] at hc
      simp only [List.mem_singleton] at hc
      omega
    · rw [decimalText_step v (by omega)] at hc
      rcases List.mem_append.1 hc with hc | hc
      · exact ih (v / 10) (by omega) c hc
      · simp only [List.mem_singleton] at hc
        omega

theorem decimalText_no_leading_zero (v : Nat) (h : v ≠ 0) :
    (decimalText v).head? ≠ some 48 := by
  induction v using Nat.strong_induction_on with
  | _ v ih =>
    by_cases hv : v < 10
    · rw [decimalText_small v hv]
      simp only [List.head?_cons, ne_eq, Option.some.injEq]
      omega
    · rw [decimalText_step v (by omega), List.head?_append]
      have := ih (v / 10) (by omega) (by omega)
      cases hh : (decimalText (v / 10)).head? with
      | none =>
        exfalso
        have hnil : decimalText (v / 10) = [] := by
          cases hd : decimalText (v / 10) with
          | nil => rfl
          | cons a l => rw [hd] at hh; simp at hh
        by_cases hs : v / 10 < 10
        · rw [decimalText_small _ hs] at hnil; simp at hnil
        · rw [decimalText_step _ (by omega)] at hnil; simp at hnil
      | some a =>
        rw [hh] at this
        simpa using this

theorem parseDecimal_decimalText (v : Nat) : parseDecimal (decimalText v) = v := by
  induction v using Nat.strong_induction_on with
  | _ v ih =>
    by_cases hv : v < 10
    · rw [decimalText_small v hv]
      simp [parseDecimal]
    · rw [decimalText_step v (by omega)]
      have := ih (v / 10) (by omega)
      unfold parseDecimal at this ⊢
      rw [List.foldl_append, this]
      simp only [List.foldl_cons, List.foldl_nil]
      omega

/-- C11, amended. The numeric directives render decimal for `%c` of an 8-bit
value, `%h` of a 16-bit value and `%d` of a value below `2^31`: the string
built through `intToString` is the decimal text of the value, the bare
directive sends exactly that text, the text holds digits only, it is `0` for
the value 0 and has no leading zero otherwise, and read as a decimal number it
gives the value back. -/
theorem numeric_directive_decimal (malloc : Nat → Bool) (d v : Nat) (uart : List Nat)
    (hm : malloc 0 = true)
    (hd : (d = 99 ∧ v < 256) ∨ (d = 104 ∧ v < 65536) ∨ (d = 100 ∧ v < 2147483648)) :
    directiveString (malloc 0) d (Arg.int v) = some (some (decimalText v))
      ∧ printFormat malloc [37, d] [Arg.int v] uart = some (uart ++ decimalText v)
      ∧ (∀ c ∈ decimalText v, 48 ≤ c ∧ c ≤ 57)
      ∧ (v = 0 → decimalText v = [48])
      ∧ (v ≠ 0 → (decimalText v).head? ≠ some 48)
      ∧ parseDecimal (decimalText v) = v := by
  have hs : directiveString (malloc 0) d (Arg.int v) = some (some (decimalText v)) := by
    rw [hm]; exact directiveString_nat d v hd
  have hc : cString (decimalText v) = decimalText v :=
    intToString_cString true _ _ (intToString_nat v)
  have hv32 : v < 4294967296 := by omega
  have hlen : (cString (decimalText v)).length < 256 := by
    rw [hc]
    exact lt_of_le_of_lt (decimalText_length v hv32) (by decide)
  have h := printFormat_single malloc [] d (Arg.int v) uart 0 false (some (decimalText v))
    (by omega) (by simp) (by simp) (by simp [parseWidth]) hs
  simp only [List.nil_append] at h
  refine ⟨hs, ?_, decimalText_digits v, ?_, decimalText_no_leading_zero v,
    parseDecimal_decimalText v⟩
  · rw [h]
    simp [Option.elim, emitField_eq 0 false _ uart hlen, hc]
  · intro h0
    subst h0
    rfl

theorem numeric_directive_decimal_witness :
    directiveString ((fun _ => true) 0) 100 (Arg.int 2147483647)
        = some (some (decimalText 2147483647))
      ∧ printFormat (fun _ => true) [37, 100] [Arg.int 2147483647] []
          = some ([] ++ decimalText 2147483647)
      ∧ (∀ c ∈ decimalText 2147483647, 48 ≤ c ∧ c ≤ 57)
      ∧ (2147483647 = 0 → decimalText 2147483647 = [48])
      ∧ (2147483647 ≠ 0 → (decimalText 2147483647).head? ≠ some 48)
      ∧ parseDecimal (decimalText 2147483647) = 2147483647 :=
  numeric_directive_decimal (fun _ => true) 100 2147483647 [] rfl
    (Or.inr (Or.inr ⟨rfl, by decide⟩))

/-- C11 as stated fails: `%d` of 4294967295 reaches `intToString` as the
`long int` -1 and is sent as the single byte 47 (`/`); 2147483648 gives ten
bytes below `'0'`.  Neither is the decimal text of the value, while
2147483647 is sent as its decimal text. -/
theorem wide_value_not_decimal :
    printFormat (fun _ => true) (bytes "%d") [Arg.int 4294967295] [] = some [47]
      ∧ printFormat (fun _ => true) (bytes "%d") [Arg.int 4294967295] []
          ≠ some (decimalText 4294967295)
      ∧ printFormat (fun _ => true) (bytes "%d") [Arg.int 2147483648] []
          = some (bytes "./,),(-*,(")
      ∧ printFormat (fun _ => true) (bytes "%d") [Arg.int 2147483647] []
          = some (bytes "2147483647") := by
  decide

/-! ## One iteration of `printFormat` at a time -/

theorem printFormatLoop_end (malloc : Nat → Bool) (args : List Arg) (fuel : Nat)
    (pre : List Nat) (ai al : Nat) (u : List Nat) :
    printFormatLoop malloc args (fuel + 1) (FormatState.mk pre [] ai al u)
      = some (FormatState.mk pre [] ai al u) := by
  rw [printFormatLoop]

theorem printFormatLoop_literal (malloc : Nat → Bool) (args : List Arg) (fuel : Nat)
    (pre : List Nat) (c : Nat) (rest : List Nat) (ai al : Nat) (u : List Nat)
    (h0 : c ≠ 0) (h37 : c ≠ 37) :
    printFormatLoop malloc args (fuel + 1) (FormatState.mk pre (c :: rest) ai al u)
      = printFormatLoop malloc args fuel (FormatState.mk (c :: pre) rest ai al (u ++ [c])) := by
  rw [printFormatLoop]
  simp only [if_neg h0, h37, ne_eq, not_false_eq_true, if_true]

theorem printFormatLoop_percent (malloc : Nat → Bool) (args : List Arg) (fuel : Nat)
    (pre spec rest : List Nat) (ai al : Nat) (u : List Nat) (w : Nat × Bool)
    (hspec : ∀ c ∈ spec, ¬ (c = 100 ∨ c = 104 ∨ c = 99 ∨ c = 115 ∨ c = 0 ∨ c = 37))
    (hlen : spec.length < 256)
    (hw : parseWidth (spec.reverse ++ 37 :: pre) spec.length = some w) :
    printFormatLoop malloc args (fuel + 1)
        (FormatState.mk pre (37 :: (spec ++ 37 :: rest)) ai al u)
      = printFormatLoop malloc args fuel
          (FormatState.mk (37 :: (spec.reverse ++ 37 :: pre)) rest ai al (u ++ [37])) := by
  have hscan := scanDirective_stop 37 rest (by decide) spec (37 :: pre) 0 (by decide) hspec
  rw [Nat.zero_add, Nat.mod_eq_of_lt hlen] at hscan
  rw [printFormatLoop]
  simp [hscan, hw]

theorem printFormatLoop_directive (malloc : Nat → Bool) (args : List Arg) (fuel : Nat)
    (pre spec : List Nat) (d : Nat) (rest : List Nat) (ai al : Nat) (u : List Nat)
    (sp : Nat) (left : Bool) (arg : Arg) (str : Option (List Nat))
    (hd : d = 99 ∨ d = 104 ∨ d = 100 ∨ d = 115)
    (hspec : ∀ c ∈ spec, ¬ (c = 100 ∨ c = 104 ∨ c = 99 ∨ c = 115 ∨ c = 0 ∨ c = 37))
    (hlen : spec.length < 256)
    (hw : parseWidth (spec.reverse ++ 37 :: pre) spec.length = some (sp, left))
    (harg : args[ai]? = some arg)
    (hs : directiveString (malloc al) d arg = some str) :
    printFormatLoop malloc args (fuel + 1)
        (FormatState.mk pre (37 :: (spec ++ d :: rest)) ai al u)
      = printFormatLoop malloc args fuel
          (FormatState.mk (d :: (spec.reverse ++ 37 :: pre)) rest ((ai + 1) % 256)
            (if d = 115 then al else al + 1)
            (str.elim u (fun text => emitField sp left text u))) := by
  have hstop : d = 100 ∨ d = 104 ∨ d = 99 ∨ d = 115 ∨ d = 0 ∨ d = 37 := by omega
  have hscan := scanDirective_stop d rest hstop spec (37 :: pre) 0 (by decide) hspec
  rw [Nat.zero_add, Nat.mod_eq_of_lt hlen] at hscan
  have hd0 : ¬ (d = 0) := by omega
  have hd37 : ¬ (d = 37) := by omega
  rw [printFormatLoop]
  simp only [if_false, hscan, hw, hd0, hd37, harg, hs, Nat.succ_ne_zero, not_true_eq_false,
    ne_eq, if_true, OfNat.ofNat_ne_zero]
  cases str <;> rfl

/-- The bytes `emitField` adds do not depend on what was sent before. -/
theorem emitField_append (sp : Nat) (left : Bool) (text u : List Nat) :
    emitField sp left text u = u ++ emitField sp left text [] := by
  unfold emitField
  simp only [printString_eq]
  cases left <;> simp

/-- What the loop sends does not depend on what was sent before. -/
theorem printFormatLoop_uart (malloc : Nat → Bool) (args : List Arg) :
    ∀ (fuel : Nat) (pre suf : List Nat) (ai al : Nat) (u : List Nat),
      (printFormatLoop malloc args fuel (FormatState.mk pre suf ai al u)).map (fun r => r.uart)
        = (printFormatLoop malloc args fuel (FormatState.mk pre suf ai al [])).map
            (fun r => u ++ r.uart) := by
  intro fuel
  induction fuel with
  | zero => intro pre suf ai al u; simp [printFormatLoop]
  | succ fuel ih =>
    intro pre suf ai al u
    have step : ∀ (p s : List Nat) (a l : Nat) (x : List Nat),
        (printFormatLoop malloc args fuel (FormatState.mk p s a l (u ++ x))).map
            (fun r => r.uart)
          = (printFormatLoop malloc args fuel (FormatState.mk p s a l x)).map
            (fun r => u ++ r.uart) := by
      intro p s a l x
      have h1 := ih p s a l (u ++ x)
      have h2 := ih p s a l x
      rw [h1]
      have h3 : (printFormatLoop malloc args fuel (FormatState.mk p s a l x)).map
            (fun r => u ++ r.uart)
          = ((printFormatLoop malloc args fuel (FormatState.mk p s a l x)).map
            (fun r => r.uart)).map (fun t => u ++ t) := by
        rw [Option.map_map]; rfl
      rw [h3, h2, Option.map_map]
      congr 1
      funext r
      simp
    cases suf with
    | nil => simp [printFormatLoop]
    | cons c rest =>
      by_cases h0 : c = 0
      · simp [printFormatLoop, h0]
      · by_cases h37 : c = 37
        · subst h37
          simp only [printFormatLoop, if_neg h0, ne_eq, not_true_eq_false, if_false]
          rcases hscan : scanDirective (37 :: pre) rest 0 with ⟨pre1, suf1, count⟩
          simp only
          cases hw : parseWidth pre1 count with
          | none => simp
          | some w =>
            obtain ⟨sp, left⟩ := w
            simp only
            cases suf1 with
            | nil => simp
            | cons d rest1 =>
              simp only
              by_cases hd0 : d = 0
              · simp [hd0]
              · simp only [if_neg hd0]
                by_cases hd37 : d = 37
                · simp only [hd37, if_true]
                  have := step (37 :: pre1) rest1 ai al [37]
                  simpa using this
                · simp only [if_neg hd37]
                  cases harg : args[ai]? with
                  | none => simp
                  | some arg =>
                    simp only
                    cases hs : directiveString (malloc al) d arg with
                    | none => simp
                    | some str =>
                      simp only
                      cases str with
                      | none =>
                        have := step (d :: pre1) rest1 ((ai + 1) % 256)
                          (if d = 115 then al else al + 1) []
                        simpa using this
                      | some text =>
                        have := step (d :: pre1) rest1 ((ai + 1) % 256)
                          (if d = 115 then al else al + 1) (emitField sp left text [])
                        rw [← emitField_append] at this
                        simpa using this
        · simp only [printFormatLoop, if_neg h0, ne_eq, h37, not_false_eq_true, if_true]
          have := step (c :: pre) rest ai al [c]
          simpa using this

/-- The loop consults the allocation oracle only from the current allocation
count on. -/
theorem printFormatLoop_oracle (m1 m2 : Nat → Bool) (args : List Arg) :
    ∀ (fuel : Nat) (pre suf : List Nat) (ai al : Nat) (u : List Nat),
      (∀ k, al ≤ k → m1 k = m2 k) →
      printFormatLoop m1 args fuel (FormatState.mk pre suf ai al u)
        = printFormatLoop m2 args fuel (FormatState.mk pre suf ai al u) := by
  intro fuel
  induction fuel with
  | zero => intro pre suf ai al u _; simp [printFormatLoop]
  | succ fuel ih =>
    intro pre suf ai al u hagree
    cases suf with
    | nil => simp [printFormatLoop]
    | cons c rest =>
      by_cases h0 : c = 0
      · simp [printFormatLoop, h0]
      · by_cases h37 : c = 37
        · subst h37
          simp only [printFormatLoop, if_neg h0, ne_eq, not_true_eq_false, if_false]
          rcases hscan : scanDirective (37 :: pre) rest 0 with ⟨pre1, suf1, count⟩
          simp only
          cases hw : parseWidth pre1 count with
          | none => simp
          | some w =>
            obtain ⟨sp, left⟩ := w
            simp only
            cases suf1 with
            | nil => simp
            | cons d rest1 =>
              simp only
              by_cases hd0 : d = 0
              · simp [hd0]
              · simp only [if_neg hd0]
                by_cases hd37 : d = 37
                · simp only [hd37, if_true]
                  exact ih _ _ _ _ _ hagree
                · simp only [if_neg hd37]
                  cases harg : args[ai]? with
                  | none => simp
                  | some arg =>
                    simp only
                    rw [hagree al (Nat.le_refl al)]
                    cases hs : directiveString (m2 al) d arg with
                    | none => simp
                    | some str =>
                      simp only
                      apply ih
                      intro k hk
                      apply hagree
                      split_ifs at hk <;> omega
        · simp only [printFormatLoop, if_neg h0, ne_eq, h37, not_false_eq_true, if_true]
          exact ih _ _ _ _ _ hagree

theorem directiveString_fail (d : Nat) (arg : Arg) (text : List Nat)
    (hd : d = 99 ∨ d = 104 ∨ d = 100)
    (hs : directiveString true d arg = some (some text)) :
    directiveString false d arg = some none := by
  unfold directiveString at hs ⊢
  rcases hd with rfl | rfl | rfl <;> cases arg <;> simp_all [intToString]

theorem directiveString_str (b : Bool) (arg : Arg) (text : List Nat)
    (hs : directiveString true 115 arg = some (some text)) :
    directiveString b 115 arg = some (some text) := by
  unfold directiveString at hs ⊢
  cases arg <;> simp_all

/-- C12. At a numeric directive (`%c`, `%h`, `%d`) whose conversion fails
(oracle `m1`), `printFormat` sends nothing for the field, advances
`arg_index` all the same, and goes on with the rest of the template; where the
conversion succeeds (oracle `m2`, equal to `m1` afterwards) it sends the field
and then the very same rest.  A `%s` directive sends its field under both
oracles.  So with the first allocation failing `a%-4c,%c%% |` on 12 and 3
gives `a,3% |` instead of `a  12,3% |`. -/
theorem alloc_failure_skips_field (m1 m2 : Nat → Bool) (args : List Arg) (fuel : Nat)
    (pre spec : List Nat) (d : Nat) (rest : List Nat) (ai al : Nat) (u : List Nat)
    (sp : Nat) (left : Bool) (arg : Arg) (text : List Nat)
    (hd : d = 99 ∨ d = 104 ∨ d = 100 ∨ d = 115)
    (hspec : ∀ c ∈ spec, ¬ (c = 100 ∨ c = 104 ∨ c = 99 ∨ c = 115 ∨ c = 0 ∨ c = 37))
    (hlen : spec.length < 256)
    (hw : parseWidth (spec.reverse ++ 37 :: pre) spec.length = some (sp, left))
    (harg : args[ai]? = some arg)
    (hs : directiveString true d arg = some (some text))
    (hfail : m1 al = false) (hok : m2 al = true) (hagree : ∀ k, al < k → m1 k = m2 k) :
    (d ≠ 115 →
        (printFormatLoop m1 args (fuel + 1)
            (FormatState.mk pre (37 :: (spec ++ d :: rest)) ai al u)).map (fun r => r.uart)
          = (printFormatLoop m1 args fuel
              (FormatState.mk (d :: (spec.reverse ++ 37 :: pre)) rest ((ai + 1) % 256)
                (al + 1) [])).map (fun r => u ++ r.uart)
        ∧ (printFormatLoop m2 args (fuel + 1)
            (FormatState.mk pre (37 :: (spec ++ d :: rest)) ai al u)).map (fun r => r.uart)
          = (printFormatLoop m1 args fuel
              (FormatState.mk (d :: (spec.reverse ++ 37 :: pre)) rest ((ai + 1) % 256)
                (al + 1) [])).map (fun r => emitField sp left text u ++ r.uart))
      ∧ (d = 115 →
        (printFormatLoop m1 args (fuel + 1)
            (FormatState.mk pre (37 :: (spec ++ d :: rest)) ai al u)).map (fun r => r.uart)
          = (printFormatLoop m1 args fuel
              (FormatState.mk (d :: (spec.reverse ++ 37 :: pre)) rest ((ai + 1) % 256)
                al [])).map (fun r => emitField sp left text u ++ r.uart)
        ∧ (printFormatLoop m2 args (fuel + 1)
            (FormatState.mk pre (37 :: (spec ++ d :: rest)) ai al u)).map (fun r => r.uart)
          = (printFormatLoop m2 args fuel
              (FormatState.mk (d :: (spec.reverse ++ 37 :: pre)) rest ((ai + 1) % 256)
                al [])).map (fun r => emitField sp left text u ++ r.uart))
      ∧ printFormat (fun k => k != 0) (bytes "a%-4c,%c%% |") [Arg.int 12, Arg.int 3] []
          = some (bytes "a,3% |")
      ∧ printFormat (fun _ => true) (bytes "a%-4c,%c%% |") [Arg.int 12, Arg.int 3] []
          = some (bytes "a  12,3% |") := by
  refine ⟨?_, ?_, by decide, by decide⟩
  · intro hne
    have hnum : d = 99 ∨ d = 104 ∨ d = 100 := by omega
    have hs1 : directiveString (m1 al) d arg = some none := by
      rw [hfail]; exact directiveString_fail d arg text hnum hs
    have hs2 : directiveString (m2 al) d arg = some (some text) := by
      rw [hok]; exact hs
    constructor
    · rw [printFormatLoop_directive m1 args fuel pre spec d rest ai al u sp left arg none
        hd hspec hlen hw harg hs1, if_neg hne]
      simp only [Option.elim]
      exact printFormatLoop_uart m1 args fuel _ _ _ _ u
    · rw [printFormatLoop_directive m2 args fuel pre spec d rest ai al u sp left arg
        (some text) hd hspec hlen hw harg hs2, if_neg hne]
      simp only [Option.elim]
      rw [printFormatLoop_uart m2 args fuel _ _ _ _ (emitField sp left text u)]
      rw [printFormatLoop_oracle m2 m1 args fuel _ _ _ (al + 1) []
        (fun k hk => (hagree k (by omega)).symm)]
  · intro he
    subst he
    have hs1 : directiveString (m1 al) 115 arg = some (some text) :=
      directiveString_str _ arg text hs
    have hs2 : directiveString (m2 al) 115 arg = some (some text) :=
      directiveString_str _ arg text hs
    constructor
    · rw [printFormatLoop_directive m1 args fuel pre spec 115 rest ai al u sp left arg
        (some text) hd hspec hlen hw harg hs1, if_pos rfl]
      simp only [Option.elim]
      exact printFormatLoop_uart m1 args fuel _ _ _ _ (emitField sp left text u)
    · rw [printFormatLoop_directive m2 args fuel pre spec 115 rest ai al u sp left arg
        (some text) hd hspec hlen hw harg hs2, if_pos rfl]
      simp only [Option.elim]
      exact printFormatLoop_uart m2 args fuel _ _ _ _ (emitField sp left text u)

/-- Witness of C12: the template `%-4c,%c%% |` on 12 and 3 with the first
allocation failing. -/
theorem alloc_failure_skips_field_witness :
    ((99 : Nat) ≠ 115 →
        (printFormatLoop (fun k => k != 0) [Arg.int 12, Arg.int 3] (11 + 1)
            (FormatState.mk [] (37 :: ([45, 52] ++ 99 :: [44, 37, 99, 37, 37, 32, 124])) 0 0
              [])).map (fun r => r.uart)
          = (printFormatLoop (fun k => k != 0) [Arg.int 12, Arg.int 3] 11
              (FormatState.mk (99 :: ([45, 52].reverse ++ 37 :: []))
                [44, 37, 99, 37, 37, 32, 124] ((0 + 1) % 256)
                (0 + 1) [])).map (fun r => [] ++ r.uart)
        ∧ (printFormatLoop (fun _ => true) [Arg.int 12, Arg.int 3] (11 + 1)
            (FormatState.mk [] (37 :: ([45, 52] ++ 99 :: [44, 37, 99, 37, 37, 32, 124])) 0 0
              [])).map (fun r => r.uart)
          = (printFormatLoop (fun k => k != 0) [Arg.int 12, Arg.int 3] 11
              (FormatState.mk (99 :: ([45, 52].reverse ++ 37 :: []))
                [44, 37, 99, 37, 37, 32, 124] ((0 + 1) % 256)
                (0 + 1) [])).map (fun r => emitField 4 true [49, 50] [] ++ r.uart))
      ∧ ((99 : Nat) = 115 →
        (printFormatLoop (fun k => k != 0) [Arg.int 12, Arg.int 3] (11 + 1)
            (FormatState.mk [] (37 :: ([45, 52] ++ 99 :: [44, 37, 99, 37, 37, 32, 124])) 0 0
              [])).map (fun r => r.uart)
          = (printFormatLoop (fun k => k != 0) [Arg.int 12, Arg.int 3] 11
              (FormatState.mk (99 :: ([45, 52].reverse ++ 37 :: []))
                [44, 37, 99, 37, 37, 32, 124] ((0 + 1) % 256)
                0 [])).map (fun r => emitField 4 true [49, 50] [] ++ r.uart)
        ∧ (printFormatLoop (fun _ => true) [Arg.int 12, Arg.int 3] (11 + 1)
            (FormatState.mk [] (37 :: ([45, 52] ++ 99 :: [44, 37, 99, 37, 37, 32, 124])) 0 0
              [])).map (fun r => r.uart)
          = (printFormatLoop (fun _ => true) [Arg.int 12, Arg.int 3] 11
              (FormatState.mk (99 :: ([45, 52].reverse ++ 37 :: []))
                [44, 37, 99, 37, 37, 32, 124] ((0 + 1) % 256)
                0 [])).map (fun r => emitField 4 true [49, 50] [] ++ r.uart))
      ∧ printFormat (fun k => k != 0) (bytes "a%-4c,%c%% |") [Arg.int 12, Arg.int 3] []
          = some (bytes "a,3% |")
      ∧ printFormat (fun _ => true) (bytes "a%-4c,%c%% |") [Arg.int 12, Arg.int 3] []
          = some (bytes "a  12,3% |") :=
  alloc_failure_skips_field (fun k => k != 0) (fun _ => true) [Arg.int 12, Arg.int 3] 11
    [] [45, 52] 99 [44, 37, 99, 37, 37, 32, 124] 0 0 [] 4 true (Arg.int 12) [49, 50]
    (by decide) (by decide) (by decide) (by decide) (by decide) (by decide) (by decide)
    (by decide) (by intro k hk; simp; omega)

/-! ## The CPU cell -/

theorem emitField_text (sp : Nat) (left : Bool) (t u : List Nat)
    (hc : cString t = t) (hlen : t.length < 256) :
    emitField sp left t u
      = u ++ (if left then List.replicate (sp - t.length) 32 ++ t
          else t ++ List.replicate (sp - t.length) 32) := by
  have h := emitField_eq sp left t u (by rw [hc]; exact hlen)
  rw [hc] at h
  exact h

theorem cpuCell_digits (malloc : Nat → Bool) (v : Nat) (uart : List Nat)
    (hm0 : malloc 0 = true) (hm1 : malloc 1 = true) (h10 : 10 ≤ v) (hv : v < 2560) :
    cpuCell malloc v uart
      = some (uart ++ List.replicate (4 - (decimalText (v / 10)).length) 32
          ++ decimalText (v / 10) ++ [44] ++ decimalText (v % 10) ++ bytes "% |") := by
  have hip : v / 10 % 256 = v / 10 := Nat.mod_eq_of_lt (by omega)
  have hs1 : directiveString (malloc 0) 99 (Arg.int (v / 10)) = some (some (decimalText (v / 10))) := by
    rw [hm0]; exact directiveString_nat 99 _ (Or.inl ⟨rfl, by omega⟩)
  have hs2 : directiveString (malloc 1) 99 (Arg.int (v % 10))
      = some (some (decimalText (v % 10))) := by
    rw [hm1]; exact directiveString_nat 99 _ (Or.inl ⟨rfl, by omega⟩)
  have hc1 : cString (decimalText (v / 10)) = decimalText (v / 10) :=
    intToString_cString true _ _ (intToString_nat _)
  have hc2 : cString (decimalText (v % 10)) = decimalText (v % 10) :=
    intToString_cString true _ _ (intToString_nat _)
  have hl1 : (decimalText (v / 10)).length < 256 :=
    lt_of_le_of_lt (decimalText_length _ (by omega)) (by decide)
  have hl2 : (decimalText (v % 10)).length < 256 :=
    lt_of_le_of_lt (decimalText_length _ (by omega)) (by decide)
  have hfmt : bytes "%-4c,%c%% |" = [37, 45, 52, 99, 44, 37, 99, 37, 37, 32, 124] := by decide
  have hloop : printFormatLoop malloc [Arg.int (v / 10), Arg.int (v % 10)] 12
      (FormatState.mk [] [37, 45, 52, 99, 44, 37, 99, 37, 37, 32, 124] 0 0 uart)
      = some (FormatState.mk [124, 32, 37, 37, 99, 37, 44, 99, 52, 45, 37] [] 2 2
          (emitField 0 false (decimalText (v % 10))
            (emitField 4 true (decimalText (v / 10)) uart ++ [44]) ++ [37] ++ [32] ++ [124])) :=
    calc printFormatLoop malloc [Arg.int (v / 10), Arg.int (v % 10)] 12
          (FormatState.mk [] [37, 45, 52, 99, 44, 37, 99, 37, 37, 32, 124] 0 0 uart)
        = printFormatLoop malloc [Arg.int (v / 10), Arg.int (v % 10)] 11
          (FormatState.mk [99, 52, 45, 37] [44, 37, 99, 37, 37, 32, 124] 1 1
            (emitField 4 true (decimalText (v / 10)) uart)) :=
          printFormatLoop_directive malloc _ 11 [] [45, 52] 99 [44, 37, 99, 37, 37, 32, 124]
            0 0 uart 4 true (Arg.int (v / 10)) (some (decimalText (v / 10)))
            (by decide) (by decide) (by decide) (by decide) rfl hs1
      _ = printFormatLoop malloc [Arg.int (v / 10), Arg.int (v % 10)] 10
          (FormatState.mk [44, 99, 52, 45, 37] [37, 99, 37, 37, 32, 124] 1 1
            (emitField 4 true (decimalText (v / 10)) uart ++ [44])) :=
          printFormatLoop_literal malloc _ 10 _ 44 _ 1 1 _ (by decide) (by decide)
      _ = printFormatLoop malloc [Arg.int (v / 10), Arg.int (v % 10)] 9
          (FormatState.mk [99, 37, 44, 99, 52, 45, 37] [37, 37, 32, 124] 2 2
            (emitField 0 false (decimalText (v % 10))
              (emitField 4 true (decimalText (v / 10)) uart ++ [44]))) :=
          printFormatLoop_directive malloc _ 9 [44, 99, 52, 45, 37] [] 99 [37, 37, 32, 124]
            1 1 _ 0 false (Arg.int (v % 10)) (some (decimalText (v % 10)))
            (by decide) (by decide) (by decide) (by decide) rfl hs2
      _ = printFormatLoop malloc [Arg.int (v / 10), Arg.int (v % 10)] 8
          (FormatState.mk [37, 37, 99, 37, 44, 99, 52, 45, 37] [32, 124] 2 2
            (emitField 0 false (decimalText (v % 10))
              (emitField 4 true (decimalText (v / 10)) uart ++ [44]) ++ [37])) :=
          printFormatLoop_percent malloc _ 8 [99, 37, 44, 99, 52, 45, 37] [] [32, 124] 2 2 _
            (0, false) (by decide) (by decide) (by decide)
      _ = printFormatLoop malloc [Arg.int (v / 10), Arg.int (v % 10)] 7
          (FormatState.mk [32, 37, 37, 99, 37, 44, 99, 52, 45, 37] [124] 2 2
            (emitField 0 false (decimalText (v % 10))
              (emitField 4 true (decimalText (v / 10)) uart ++ [44]) ++ [37] ++ [32])) :=
          printFormatLoop_literal malloc _ 7 _ 32 _ 2 2 _ (by decide) (by decide)
      _ = printFormatLoop malloc [Arg.int (v / 10), Arg.int (v % 10)] 6
          (FormatState.mk [124, 32, 37, 37, 99, 37, 44, 99, 52, 45, 37] [] 2 2
            (emitField 0 false (decimalText (v % 10))
              (emitField 4 true (decimalText (v / 10)) uart ++ [44]) ++ [37] ++ [32]
              ++ [124])) :=
          printFormatLoop_literal malloc _ 6 _ 124 _ 2 2 _ (by decide) (by decide)
      _ = _ := printFormatLoop_end malloc _ 5 _ 2 2 _
  unfold cpuCell
  rw [if_pos (show v ≥ 10 from h10)]
  simp only [hip]
  unfold printFormat
  rw [hfmt]
  show (printFormatLoop malloc [Arg.int (v / 10), Arg.int (v % 10)] 12
      (FormatState.mk [] [37, 45, 52, 99, 44, 37, 99, 37, 37, 32, 124] 0 0 uart)).map
        (fun st => st.uart) = _
  rw [hloop]
  have hb : bytes "% |" = [37, 32, 124] := by decide
  simp [emitField_text _ _ _ _ hc1 hl1, emitField_text _ _ _ _ hc2 hl2, hb]

/-- C15 as stated fails: the integer part and the decimal are separated by a
comma, after padding the integer part to four characters: the figure 123
gives `  12,3% |`, which does not contain `12.3%`. -/
theorem cpu_cell_uses_comma :
    cpuCell (fun _ => true) 123 [] = some (bytes "  12,3% |")
      ∧ ¬ (bytes "12.3%" <:+: bytes "  12,3% |")
      ∧ 46 ∉ bytes "  12,3% |" := by
  decide

/-- C15, amended. For a scaled CPU figure `v ≤ 1000`: when `v ≥ 10` the
reporter sends the decimal text of `v / 10` after enough blanks to fill four
characters, a comma, the single digit `v mod 10` and `% |`; when `v < 10` it
sends the literal `   < 1% |`, whatever `v` is. -/
theorem cpu_cell_rendering (malloc : Nat → Bool) (v : Nat) (uart : List Nat)
    (hm0 : malloc 0 = true) (hm1 : malloc 1 = true) (hv : v ≤ 1000) :
    (10 ≤ v → cpuCell malloc v uart
        = some (uart ++ List.replicate (4 - (decimalText (v / 10)).length) 32
            ++ decimalText (v / 10) ++ [44] ++ [48 + v % 10] ++ bytes "% |"))
      ∧ (v < 10 → cpuCell malloc v uart = some (uart ++ bytes "   < 1% |")) := by
  constructor
  · intro h10
    rw [cpuCell_digits malloc v uart hm0 hm1 h10 (by omega)]
    have hd : decimalText (v % 10) = [48 + v % 10] := by
      rw [decimalText_cases _ (by omega), if_pos (Nat.mod_lt _ (by decide))]
    rw [hd]
  · intro hlt
    unfold cpuCell
    rw [if_neg (by omega), printString_eq]
    rfl

/-- Witness of C15: the figure 123. -/
theorem cpu_cell_rendering_witness :
    (10 ≤ 123 → cpuCell (fun _ => true) 123 []
        = some ([] ++ List.replicate (4 - (decimalText (123 / 10)).length) 32
            ++ decimalText (123 / 10) ++ [44] ++ [48 + 123 % 10] ++ bytes "% |"))
      ∧ (123 < 10 → cpuCell (fun _ => true) 123 [] = some ([] ++ bytes "   < 1% |")) :=
  cpu_cell_rendering (fun _ => true) 123 [] rfl rfl (by decide)

/-! ## Bounds of the command buffer -/

theorem uartChar_bufferInv (c : Nat) (s : Console) (h : bufferInv s) :
    bufferInv (uartChar c s).1 := by
  obtain ⟨n, b0, b1, b2, idx, run, susp, tx⟩ := s
  unfold bufferInv at h ⊢
  simp only at h
  unfold uartChar
  simp only
  split_ifs
  · exact h
  · exact h
  · exact h
  · unfold storeChar
    simp only
    split <;> simp_all
  · simp [clearBuffer]
  · simp [clearBuffer]
  · exact h

theorem vUART_ISR_bufferInv : ∀ (rx : List Nat) (s : Console), bufferInv s →
    bufferInv (vUART_ISR rx s).1 := by
  intro rx
  induction rx with
  | nil => intro s h; exact h
  | cons c rest ih =>
    intro s h
    have hc := uartChar_bufferInv c s h
    unfold vUART_ISR
    simp only
    split_ifs
    · exact ih _ hc
    · exact hc

theorem interrupts_bufferInv : ∀ (batches : List (List Nat)) (s : Console) (pending : List Nat),
    bufferInv s → bufferInv (interrupts s pending batches).1 := by
  intro batches
  induction batches with
  | nil => intro s pending h; exact h
  | cons b later ih =>
    intro s pending h
    unfold interrupts
    exact ih _ _ (vUART_ISR_bufferInv _ s h)

theorem cell_zero_of_bufferInv (s : Console) (h : bufferInv s) (k : Nat)
    (hk : s.s_uart_index ≤ k) : s.cell k = 0 := by
  obtain ⟨h3, h2, h1, h0⟩ := h
  unfold Console.cell
  split
  · exact h0 (by omega)
  · exact h1 (by omega)
  · exact h2 (by omega)
  · rfl

theorem uartChar_store (c : Nat) (s : Console) (hrun : s.s_is_top_running = false)
    (h10 : c ≠ 10) (h13 : c ≠ 13) (hidx : s.s_uart_index < 3) (j : Nat) :
    (uartChar c s).2 = true
      ∧ (uartChar c s).1.cell s.s_uart_index = c
      ∧ (uartChar c s).1.s_uart_index = s.s_uart_index + 1
      ∧ (j ≠ s.s_uart_index → (uartChar c s).1.cell j = s.cell j) := by
  obtain ⟨n, b0, b1, b2, idx, run, susp, tx⟩ := s
  simp only at hrun hidx
  subst hrun
  have hnt : c ≠ 10 ∧ c ≠ 13 := ⟨h10, h13⟩
  have hstep : uartChar c (Console.mk n b0 b1 b2 idx false susp tx)
      = (storeChar c (Console.mk n b0 b1 b2 idx false susp (tx ++ [c])), true) := by
    unfold uartChar
    rw [if_neg (by simp), if_pos hnt]
    simp only
    rw [if_neg (by omega)]
  rw [hstep]
  interval_cases idx
  · refine ⟨rfl, rfl, rfl, ?_⟩
    intro hj
    simp only at hj
    unfold Console.cell storeChar
    simp only
    split <;> first | rfl | omega
  · refine ⟨rfl, rfl, rfl, ?_⟩
    intro hj
    simp only at hj
    unfold Console.cell storeChar
    simp only
    split <;> first | rfl | omega
  · refine ⟨rfl, rfl, rfl, ?_⟩
    intro hj
    simp only at hj
    unfold Console.cell storeChar
    simp only
    split <;> first | rfl | omega

theorem uartChar_drop (c : Nat) (s : Console) (hrun : s.s_is_top_running = false)
    (h10 : c ≠ 10) (h13 : c ≠ 13) (hidx : 2 < s.s_uart_index) :
    uartChar c s = ({ s with uart := s.uart ++ [c] }, false) := by
  obtain ⟨n, b0, b1, b2, idx, run, susp, tx⟩ := s
  simp only at hrun hidx
  subst hrun
  have hnt : c ≠ 10 ∧ c ≠ 13 := ⟨h10, h13⟩
  unfold uartChar
  rw [if_neg (by simp), if_pos hnt]
  simp only
  rw [if_pos hidx]

/-- C23. After any sequence of interrupts from the initial state the length
`s_uart_index` is at most 3 and every cell from the length on is zero; a
non-terminator byte met in Collecting state is stored at the index
`s_uart_index`, which is then below 3, and nowhere else; when the length is
already 3 the byte is echoed and dropped, the cells and the length keeping
their values, and the handler leaves its loop. -/
theorem command_buffer_bound (batches : List (List Nat)) (c k j : Nat) :
    (interrupts Console.init [] batches).1.s_uart_index ≤ 3
      ∧ ((interrupts Console.init [] batches).1.s_uart_index ≤ k →
          (interrupts Console.init [] batches).1.cell k = 0)
      ∧ ((interrupts Console.init [] batches).1.s_is_top_running = false → c ≠ 10 → c ≠ 13 →
          (interrupts Console.init [] batches).1.s_uart_index < 3 →
          (uartChar c (interrupts Console.init [] batches).1).1.cell
              (interrupts Console.init [] batches).1.s_uart_index = c
            ∧ (uartChar c (interrupts Console.init [] batches).1).1.s_uart_index
              = (interrupts Console.init [] batches).1.s_uart_index + 1
            ∧ (j ≠ (interrupts Console.init [] batches).1.s_uart_index →
              (uartChar c (interrupts Console.init [] batches).1).1.cell j
                = (interrupts Console.init [] batches).1.cell j))
      ∧ ((interrupts Console.init [] batches).1.s_is_top_running = false → c ≠ 10 → c ≠ 13 →
          (interrupts Console.init [] batches).1.s_uart_index = 3 →
          uartChar c (interrupts Console.init [] batches).1
            = ({ (interrupts Console.init [] batches).1 with
                  uart := (interrupts Console.init [] batches).1.uart ++ [c] }, false)) := by
  have hinv := interrupts_bufferInv batches Console.init []
    (by unfold bufferInv; decide)
  refine ⟨hinv.1, cell_zero_of_bufferInv _ hinv k, ?_, ?_⟩
  · intro hrun h10 h13 hidx
    exact (uartChar_store c _ hrun h10 h13 hidx j).2
  · intro hrun h10 h13 hidx
    exact uartChar_drop c _ hrun h10 h13 (by omega)

/-- Witness of C23: the byte `5` after the batches `N1` and `23` (a full
buffer), looked at the cells 2 and 0. -/
theorem command_buffer_bound_witness :
    (interrupts Console.init [] [[78, 49], [50, 51]]).1.s_uart_index ≤ 3
      ∧ ((interrupts Console.init [] [[78, 49], [50, 51]]).1.s_uart_index ≤ 2 →
          (interrupts Console.init [] [[78, 49], [50, 51]]).1.cell 2 = 0)
      ∧ ((interrupts Console.init [] [[78, 49], [50, 51]]).1.s_is_top_running = false →
          53 ≠ 10 → 53 ≠ 13 →
          (interrupts Console.init [] [[78, 49], [50, 51]]).1.s_uart_index < 3 →
          (uartChar 53 (interrupts Console.init [] [[78, 49], [50, 51]]).1).1.cell
              (interrupts Console.init [] [[78, 49], [50, 51]]).1.s_uart_index = 53
            ∧ (uartChar 53 (interrupts Console.init [] [[78, 49], [50, 51]]).1).1.s_uart_index
              = (interrupts Console.init [] [[78, 49], [50, 51]]).1.s_uart_index + 1
            ∧ (0 ≠ (interrupts Console.init [] [[78, 49], [50, 51]]).1.s_uart_index →
              (uartChar 53 (interrupts Console.init [] [[78, 49], [50, 51]]).1).1.cell 0
                = (interrupts Console.init [] [[78, 49], [50, 51]]).1.cell 0))
      ∧ ((interrupts Console.init [] [[78, 49], [50, 51]]).1.s_is_top_running = false →
          53 ≠ 10 → 53 ≠ 13 →
          (interrupts Console.init [] [[78, 49], [50, 51]]).1.s_uart_index = 3 →
          uartChar 53 (interrupts Console.init [] [[78, 49], [50, 51]]).1
            = ({ (interrupts Console.init [] [[78, 49], [50, 51]]).1 with
                  uart := (interrupts Console.init [] [[78, 49], [50, 51]]).1.uart ++ [53] },
                false)) :=
  command_buffer_bound [[78, 49], [50, 51]] 53 2 0

/-! ## Start-up values and the range of the pipeline -/

/-- C21 as stated fails: `s_numberOfSamples` is not 75 at start-up, and 75 is
not even a window size `MAX_NUMBER_OF_SAMPLES` allows; 75 is the first
sample of the sensor. -/
theorem window_is_not_75_at_startup :
    Console.init.s_numberOfSamples ≠ 75
      ∧ ¬ (75 ≤ MAX_NUMBER_OF_SAMPLES)
      ∧ INITIAL_TEMP_DECIMALS = 75 := by
  decide

/-- C21, amended. At start-up `s_numberOfSamples` is 10 and
`s_is_top_running` is false (the reporter task is suspended). -/
theorem startup_configuration :
    Console.init.s_numberOfSamples = 10
      ∧ Console.init.s_is_top_running = false
      ∧ Console.init.topSuspended = true := by
  decide

theorem sum_le_of_le (bound : Nat) (l : List Nat) (h : ∀ x ∈ l, x ≤ bound) :
    l.sum ≤ bound * l.length := by
  induction l with
  | nil => simp
  | cons a t ih =>
    have ha : a ≤ bound := h a (List.mem_cons_self a t)
    have ht : t.sum ≤ bound * t.length := ih (fun x hx => h x (List.mem_cons_of_mem a hx))
    simp only [List.sum_cons, List.length_cons, Nat.mul_succ]
    omega

/-- The value `avgArray` returns on a 20-cell history of bytes. -/
theorem avgArray_eq_mean (history : List Nat) (N : Nat)
    (hlen : history.length = 20) (hbytes : ∀ x ∈ history, x < 256)
    (h1 : 1 ≤ N) (h20 : N ≤ 20) :
    avgArray history 20 N = some ((history.drop (20 - N)).sum / N) := by
  have hdrop : ∀ x ∈ history.drop (20 - N), x < 256 :=
    fun x hx => hbytes x (List.mem_of_mem_drop hx)
  have hsum := sum_le_of_bytes _ hdrop
  have hl : (history.drop (20 - N)).length = N := by simp [hlen]; omega
  rw [hl] at hsum
  have hq : (history.drop (20 - N)).sum / N ≤ 255 := by
    apply Nat.div_le_of_le_mul
    rw [Nat.mul_comm]; exact hsum
  have htake : history.take 20 = history := by
    rw [← hlen]; exact List.take_length history
  have hstart : ((((20 : Nat) : Int) - (N : Int)) % 256).toNat = 20 - N := by omega
  have hloop := avgArrayLoop_eq history 20 (by omega) (by omega) 256 (20 - N) 0
    (by omega) (by omega) (by rw [htake]; omega)
  rw [htake] at hloop
  unfold avgArray
  rw [hstart, hloop]
  simp only [Nat.zero_add]
  rw [if_neg (by omega), Nat.mod_eq_of_lt (by omega)]

/-- C24. On a 20-cell history with entries in `[0,150]` and a window size in
`[1,20]`, `avgArray` returns a value in `[0,150]`; the bar height
`average / 10` is then at most 15, and the dot `1 << height` is non-zero and
fits the 16 bits of the column. -/
theorem pipeline_range (history : List Nat) (N : Nat)
    (hlen : history.length = 20) (hrange : ∀ x ∈ history, x ≤ 150)
    (h1 : 1 ≤ N) (h20 : N ≤ 20) :
    ∃ average, avgArray history 20 N = some average
      ∧ 0 ≤ average ∧ average ≤ 150
      ∧ average / 10 ≤ 15
      ∧ 1 <<< (average / 10) < 65536
      ∧ 1 <<< (average / 10) ≠ 0
      ∧ columnBits 0 0 (average / 10) = 1 <<< (average / 10) := by
  have hbytes : ∀ x ∈ history, x < 256 := fun x hx => by
    have := hrange x hx
    omega
  have hdrop : ∀ x ∈ history.drop (20 - N), x ≤ 150 :=
    fun x hx => hrange x (List.mem_of_mem_drop hx)
  have hsum := sum_le_of_le 150 _ hdrop
  have hl : (history.drop (20 - N)).length = N := by simp [hlen]; omega
  rw [hl] at hsum
  have hq : (history.drop (20 - N)).sum / N ≤ 150 := by
    apply Nat.div_le_of_le_mul
    rw [Nat.mul_comm]; exact hsum
  have hh : (history.drop (20 - N)).sum / N / 10 ≤ 15 := by omega
  have hpow := one_shiftLeft_mod _ hh
  have hlt : 1 <<< ((history.drop (20 - N)).sum / N / 10) < 65536 := by
    rw [Nat.one_shiftLeft]
    calc 2 ^ ((history.drop (20 - N)).sum / N / 10) ≤ 2 ^ 15 :=
          Nat.pow_le_pow_right (by decide) hh
      _ < 65536 := by decide
  refine ⟨_, avgArray_eq_mean history N hlen hbytes h1 h20, Nat.zero_le _, hq, hh, hlt, ?_, ?_⟩
  · rw [Nat.one_shiftLeft]
    exact Nat.pos_iff_ne_zero.mp (Nat.pow_pos (by decide))
  · rw [columnBits_dot 0 0 _ hh (Or.inl rfl), Nat.one_shiftLeft]

/-- Witness of C24: a history of twenty samples 150 averaged over all of
them. -/
theorem pipeline_range_witness :
    ∃ average, avgArray (List.replicate 20 150) 20 20 = some average
      ∧ 0 ≤ average ∧ average ≤ 150
      ∧ average / 10 ≤ 15
      ∧ 1 <<< (average / 10) < 65536
      ∧ 1 <<< (average / 10) ≠ 0
      ∧ columnBits 0 0 (average / 10) = 1 <<< (average / 10) :=
  pipeline_range (List.replicate 20 150) 20 (by decide) (by decide) (by decide) (by decide)

/-! ## The pipeline: order and backpressure -/

theorem drop_succ_append (l : List Nat) (n v : Nat) (h : n + 1 ≤ l.length) :
    (l.drop n).drop 1 ++ [v] = (l ++ [v]).drop (n + 1) := by
  rw [List.drop_drop, List.drop_append_of_le_length h]

theorem pipelineInv_init (seed : Nat) : pipelineInv (Pipeline.init seed) := by
  unfold pipelineInv Pipeline.init
  simp [TEMP_QUEUE_SIZE, INITIAL_TEMP_DECIMALS, MAX_TEMP_DECIMALS, MIN_TEMP_DECIMALS]

theorem sensorCompute_inv (p : Pipeline) (h : pipelineInv p) :
    ∃ q, sensorCompute p = some q ∧ pipelineInv q ∧ q.shown = p.shown
      ∧ q.filtered = p.filtered := by
  obtain ⟨h1, h2, h3, h4, h5, h6, h7, h8, h9, h10⟩ := h
  unfold sensorCompute
  cases hs : p.sample with
  | some x => exact ⟨p, rfl, ⟨h1, h2, h3, h4, h5, h6, h7, h8, h9, h10⟩, rfl, rfl⟩
  | none =>
    obtain ⟨s, x, hc, -, hs150, -, -⟩ :=
      sensorCycle_bounded p.temp_decimals p.xorshift_state h8
    simp only [hc, Option.some_bind]
    refine ⟨_, rfl, ?_, rfl, rfl⟩
    unfold pipelineInv
    simp only
    refine ⟨h1, h2, ?_, h4, h5, h6, h7, hs150, ?_, h10⟩
    · rw [h3, hs]; simp
    · intro y hy
      rcases List.mem_append.1 hy with hy | hy
      · exact h9 y hy
      · simp at hy; subst hy; exact hs150

theorem sensorSend_inv (p : Pipeline) (h : pipelineInv p) :
    ∃ q, sensorSend p = some q ∧ pipelineInv q ∧ q.shown = p.shown
      ∧ q.filtered = p.filtered := by
  obtain ⟨h1, h2, h3, h4, h5, h6, h7, h8, h9, h10⟩ := h
  unfold sensorSend
  cases hs : p.sample with
  | none => exact ⟨p, rfl, ⟨h1, h2, h3, h4, h5, h6, h7, h8, h9, h10⟩, rfl, rfl⟩
  | some x =>
    simp only
    unfold xQueueSend
    by_cases hfull : p.s_temps_queue.length < TEMP_QUEUE_SIZE
    · rw [if_pos hfull]
      refine ⟨_, rfl, ?_, rfl, rfl⟩
      unfold pipelineInv
      simp only
      refine ⟨?_, h2, ?_, h4, h5, h6, h7, h8, h9, h10⟩
      · simp; omega
      · rw [h3, hs]; simp
    · rw [if_neg hfull]
      exact ⟨p, rfl, ⟨h1, h2, h3, h4, h5, h6, h7, h8, h9, h10⟩, rfl, rfl⟩

theorem averageSend_inv (p : Pipeline) (h : pipelineInv p) :
    ∃ q, averageSend p = some q ∧ pipelineInv q ∧ q.shown = p.shown
      ∧ q.filtered = p.filtered := by
  obtain ⟨h1, h2, h3, h4, h5, h6, h7, h8, h9, h10⟩ := h
  unfold averageSend
  cases hs : p.average with
  | none => exact ⟨p, rfl, ⟨h1, h2, h3, h4, h5, h6, h7, h8, h9, h10⟩, rfl, rfl⟩
  | some x =>
    simp only
    unfold xQueueSend
    by_cases hfull : p.s_temps_to_display_queue.length < TEMP_QUEUE_SIZE
    · rw [if_pos hfull]
      refine ⟨_, rfl, ?_, rfl, rfl⟩
      unfold pipelineInv
      simp only
      refine ⟨h1, ?_, h3, ?_, h5, h6, h7, h8, h9, h10⟩
      · simp; omega
      · rw [h4, hs]; simp
    · rw [if_neg hfull]
      exact ⟨p, rfl, ⟨h1, h2, h3, h4, h5, h6, h7, h8, h9, h10⟩, rfl, rfl⟩

theorem displayReceive_inv (p : Pipeline) (h : pipelineInv p) :
    ∃ q, displayReceive p = some q ∧ pipelineInv q ∧ q.filtered = p.filtered := by
  obtain ⟨h1, h2, h3, h4, h5, h6, h7, h8, h9, h10⟩ := h
  unfold displayReceive
  cases hq : p.s_temps_to_display_queue with
  | nil => exact ⟨p, rfl, ⟨h1, h2, h3, h4, h5, h6, h7, h8, h9, h10⟩, rfl⟩
  | cons a rest =>
    have hlen : p.display_temps_array.length = LCD_COLUMNS_FOR_GRAPH := by
      rw [h7]; simp
    have happ := appendToArray_eq p.display_temps_array (a / 10) LCD_COLUMNS_FOR_GRAPH
      (by decide) (by decide) hlen
    simp only [xQueueReceive, happ, Option.some_bind]
    refine ⟨_, rfl, ?_, rfl⟩
    unfold pipelineInv
    simp only
    refine ⟨h1, ?_, h3, ?_, h5, h6, ?_, h8, h9, h10⟩
    · rw [hq] at h2; simp at h2 ⊢; omega
    · rw [h4, hq]; simp
    · rw [h7, drop_succ_append _ _ _ (by simp [LCD_COLUMNS_FOR_GRAPH])]
      simp

theorem averageReceive_inv (N : Nat) (p : Pipeline) (hN1 : MIN_NUMBER_OF_SAMPLES ≤ N)
    (hN20 : N ≤ MAX_NUMBER_OF_SAMPLES) (h : pipelineInv p) :
    ∃ q, averageReceive N p = some q ∧ pipelineInv q ∧ q.shown = p.shown := by
  obtain ⟨h1, h2, h3, h4, h5, h6, h7, h8, h9, h10⟩ := h
  unfold averageReceive
  cases ha : p.average with
  | some x => exact ⟨p, rfl, ⟨h1, h2, h3, h4, h5, h6, h7, h8, h9, h10⟩, rfl⟩
  | none =>
    cases hq : p.s_temps_queue with
    | nil => exact ⟨p, rfl, ⟨h1, h2, h3, h4, h5, h6, h7, h8, h9, h10⟩, rfl⟩
    | cons v rest =>
      have hlen : p.average_temps_array.length = MAX_NUMBER_OF_SAMPLES := by
        rw [h6]; simp
      have happ := appendToArray_eq p.average_temps_array v MAX_NUMBER_OF_SAMPLES
        (by decide) (by decide) hlen
      have harr : p.average_temps_array.drop 1 ++ [v]
          = (List.replicate MAX_NUMBER_OF_SAMPLES 0 ++ (p.filtered ++ [v])).drop
              (p.filtered ++ [v]).length := by
        rw [h6, drop_succ_append _ _ _ (by simp [MAX_NUMBER_OF_SAMPLES])]
        simp
      have hv : v ≤ MAX_TEMP_DECIMALS := by
        apply h9; rw [h3, hq]; simp
      have hbytes : ∀ x ∈ p.average_temps_array.drop 1 ++ [v], x < 256 := by
        intro x hx
        rw [harr] at hx
        have hx2 := List.mem_of_mem_drop hx
        rcases List.mem_append.1 hx2 with hx3 | hx3
        · rw [List.mem_replicate] at hx3; omega
        · rcases List.mem_append.1 hx3 with hx4 | hx4
          · have := h9 x (by rw [h3]; simp [hx4])
            simp only [MAX_TEMP_DECIMALS] at this; omega
          · simp at hx4; subst hx4
            simp only [MAX_TEMP_DECIMALS] at hv; omega
      have havg := avgArray_eq_mean (p.average_temps_array.drop 1 ++ [v]) N
        (by simp; rw [hlen]; simp [MAX_NUMBER_OF_SAMPLES]) hbytes hN1 hN20
      simp only [xQueueReceive, happ, Option.some_bind]
      have havg2 : avgArray (p.average_temps_array.drop 1 ++ [v]) MAX_NUMBER_OF_SAMPLES N
          = some (windowMean N (p.filtered ++ [v])) := by
        unfold windowMean
        rw [← harr]
        exact havg
      simp only [havg2, Option.some_bind]
      refine ⟨_, rfl, ?_, rfl⟩
      unfold pipelineInv
      simp only
      refine ⟨?_, h2, ?_, ?_, ?_, harr, h7, h8, h9, ?_⟩
      · rw [hq] at h1; simp at h1 ⊢; omega
      · rw [h3, hq]; simp
      · rw [h4, ha]; simp
      · simp [h5]
      · intro k hk
        by_cases hlt : k < p.averaged.length
        · obtain ⟨M, hM1, hM20, hM⟩ := h10 k hlt
          refine ⟨M, hM1, hM20, ?_⟩
          rw [List.getElem?_append_left hlt, hM, List.take_append_of_le_length (by omega)]
        · have hk2 : k = p.averaged.length := by simp at hk; omega
          refine ⟨N, hN1, hN20, ?_⟩
          subst hk2
          rw [List.take_of_length_le (by simp [h5])]
          simp

theorem pipelineStep_inv (a : Action) (p : Pipeline) (ha : a.valid) (h : pipelineInv p) :
    ∃ q, pipelineStep a p = some q ∧ pipelineInv q
      ∧ (a ≠ Action.displayReceive → q.shown = p.shown)
      ∧ ((∀ n, a ≠ Action.averageReceive n) → q.filtered = p.filtered) := by
  cases a with
  | sensorCompute =>
    obtain ⟨q, hq, hinv, hs, hf⟩ := sensorCompute_inv p h
    exact ⟨q, hq, hinv, fun _ => hs, fun _ => hf⟩
  | sensorSend =>
    obtain ⟨q, hq, hinv, hs, hf⟩ := sensorSend_inv p h
    exact ⟨q, hq, hinv, fun _ => hs, fun _ => hf⟩
  | averageReceive n =>
    obtain ⟨q, hq, hinv, hs⟩ := averageReceive_inv n p ha.1 ha.2 h
    exact ⟨q, hq, hinv, fun _ => hs, fun hne => absurd rfl (hne n)⟩
  | averageSend =>
    obtain ⟨q, hq, hinv, hs, hf⟩ := averageSend_inv p h
    exact ⟨q, hq, hinv, fun _ => hs, fun _ => hf⟩
  | displayReceive =>
    obtain ⟨q, hq, hinv, hf⟩ := displayReceive_inv p h
    exact ⟨q, hq, hinv, fun hne => absurd rfl hne, fun _ => hf⟩

theorem pipelineRun_cons (a : Action) (schedule : List Action) (p : Pipeline) :
    pipelineRun (a :: schedule) p = (pipelineStep a p).bind (pipelineRun schedule) := by
  unfold pipelineRun
  rw [List.foldlM_cons]
  rfl

theorem pipelineRun_inv (schedule : List Action) :
    ∀ p : Pipeline, (∀ a ∈ schedule, a.valid) → pipelineInv p →
      ∃ q, pipelineRun schedule p = some q ∧ pipelineInv q
        ∧ (Action.displayReceive ∉ schedule → q.shown = p.shown)
        ∧ ((∀ n, Action.averageReceive n ∉ schedule) → q.filtered = p.filtered) := by
  induction schedule with
  | nil =>
    intro p _ h
    exact ⟨p, rfl, h, fun _ => rfl, fun _ => rfl⟩
  | cons a rest ih =>
    intro p hvalid h
    obtain ⟨q, hq, hinv, hs, hf⟩ :=
      pipelineStep_inv a p (hvalid a (List.mem_cons_self a rest)) h
    obtain ⟨r, hr, hinv2, hs2, hf2⟩ :=
      ih q (fun b hb => hvalid b (List.mem_cons_of_mem a hb)) hinv
    refine ⟨r, ?_, hinv2, ?_, ?_⟩
    · rw [pipelineRun_cons, hq]
      exact hr
    · intro hno
      rw [hs2 (fun hmem => hno (List.mem_cons_of_mem a hmem)),
        hs (fun heq => hno (by rw [heq]; exact List.mem_cons_self _ _))]
    · intro hno
      rw [hf2 (fun n hmem => hno n (List.mem_cons_of_mem a hmem)),
        hf (fun n heq => hno n (by rw [heq]; exact List.mem_cons_self _ _))]

theorem sensorSend_blocked (p : Pipeline) (h : p.s_temps_queue.length = TEMP_QUEUE_SIZE) :
    sensorSend p = some p := by
  unfold sensorSend xQueueSend
  cases p.sample with
  | none => rfl
  | some x => simp only [h, lt_irrefl, if_false]

theorem averageSend_blocked (p : Pipeline)
    (h : p.s_temps_to_display_queue.length = TEMP_QUEUE_SIZE) : averageSend p = some p := by
  unfold averageSend xQueueSend
  cases p.average with
  | none => rfl
  | some x => simp only [h, lt_irrefl, if_false]

theorem sensorCompute_blocked (p : Pipeline) (h : p.sample.isSome = true) :
    sensorCompute p = some p := by
  unfold sensorCompute
  cases hs : p.sample with
  | none => rw [hs] at h; cases h
  | some x => rfl

theorem averageReceive_blocked (N : Nat) (p : Pipeline) (h : p.average.isSome = true) :
    averageReceive N p = some p := by
  unfold averageReceive
  cases hs : p.average with
  | none => rw [hs] at h; cases h
  | some x => rfl

theorem sensorCompute_effect (p : Pipeline) (h : pipelineInv p) (hs : p.sample = none) :
    ∃ s, sensorCycle p.temp_decimals p.xorshift_state = some (s, xorshift p.xorshift_state)
      ∧ s ≤ 150
      ∧ sensorCompute p = some { p with temp_decimals := s,
                                        xorshift_state := xorshift p.xorshift_state,
                                        sample := some s, produced := p.produced ++ [s] } := by
  obtain ⟨-, -, -, -, -, -, -, h8, -, -⟩ := h
  obtain ⟨s, x, hc, hx, hs150, -, -⟩ :=
    sensorCycle_bounded p.temp_decimals p.xorshift_state h8
  subst hx
  refine ⟨s, hc, hs150, ?_⟩
  unfold sensorCompute
  simp only [hs, hc, Option.some_bind]

theorem sensorSend_effect (p : Pipeline) (hroom : p.s_temps_queue.length < TEMP_QUEUE_SIZE) :
    sensorSend p = some { p with s_temps_queue := p.s_temps_queue ++ p.sample.toList,
                                 sample := none } := by
  obtain ⟨q1, q2, td, xs, smp, arr, avg, darr, prod, filt, avgd, shown⟩ := p
  simp only at hroom
  unfold sensorSend xQueueSend
  cases smp with
  | none => simp
  | some x => simp [hroom]

theorem averageSend_effect (p : Pipeline)
    (hroom : p.s_temps_to_display_queue.length < TEMP_QUEUE_SIZE) :
    averageSend p
      = some { p with s_temps_to_display_queue := p.s_temps_to_display_queue ++ p.average.toList,
                      average := none } := by
  obtain ⟨q1, q2, td, xs, smp, arr, avg, darr, prod, filt, avgd, shown⟩ := p
  simp only at hroom
  unfold averageSend xQueueSend
  cases avg with
  | none => simp
  | some x => simp [hroom]

theorem averageReceive_effect (N : Nat) (p : Pipeline) (hN1 : MIN_NUMBER_OF_SAMPLES ≤ N)
    (hN20 : N ≤ MAX_NUMBER_OF_SAMPLES) (h : pipelineInv p) (ha : p.average = none)
    (hne : p.s_temps_queue ≠ []) :
    averageReceive N p
      = some { p with s_temps_queue := p.s_temps_queue.drop 1,
                      average_temps_array :=
                        p.average_temps_array.drop 1 ++ p.s_temps_queue.take 1,
                      average := some (windowMean N (p.filtered ++ p.s_temps_queue.take 1)),
                      filtered := p.filtered ++ p.s_temps_queue.take 1,
                      averaged :=
                        p.averaged ++ [windowMean N (p.filtered ++ p.s_temps_queue.take 1)] } := by
  obtain ⟨h1, h2, h3, h4, h5, h6, h7, h8, h9, h10⟩ := h
  cases hq : p.s_temps_queue with
  | nil => exact absurd hq hne
  | cons v rest =>
    have hlen : p.average_temps_array.length = MAX_NUMBER_OF_SAMPLES := by
      rw [h6]; simp
    have happ := appendToArray_eq p.average_temps_array v MAX_NUMBER_OF_SAMPLES
      (by decide) (by decide) hlen
    have harr : p.average_temps_array.drop 1 ++ [v]
        = (List.replicate MAX_NUMBER_OF_SAMPLES 0 ++ (p.filtered ++ [v])).drop
            (p.filtered ++ [v]).length := by
      rw [h6, drop_succ_append _ _ _ (by simp [MAX_NUMBER_OF_SAMPLES])]
      simp
    have hv : v ≤ MAX_TEMP_DECIMALS := by
      apply h9; rw [h3, hq]; simp
    have hbytes : ∀ x ∈ p.average_temps_array.drop 1 ++ [v], x < 256 := by
      intro x hx
      rw [harr] at hx
      have hx2 := List.mem_of_mem_drop hx
      rcases List.mem_append.1 hx2 with hx3 | hx3
      · rw [List.mem_replicate] at hx3; omega
      · rcases List.mem_append.1 hx3 with hx4 | hx4
        · have := h9 x (by rw [h3]; simp [hx4])
          simp only [MAX_TEMP_DECIMALS] at this; omega
        · simp at hx4; subst hx4
          simp only [MAX_TEMP_DECIMALS] at hv; omega
    have havg := avgArray_eq_mean (p.average_temps_array.drop 1 ++ [v]) N
      (by simp; rw [hlen]; simp [MAX_NUMBER_OF_SAMPLES]) hbytes hN1 hN20
    have havg2 : avgArray (p.average_temps_array.drop 1 ++ [v]) MAX_NUMBER_OF_SAMPLES N
        = some (windowMean N (p.filtered ++ [v])) := by
      unfold windowMean
      rw [← harr]
      exact havg
    unfold averageReceive
    simp only [ha, hq, xQueueReceive, happ, Option.some_bind, havg2, List.drop_succ_cons,
      List.drop_zero, List.take_succ_cons, List.take_zero]

theorem displayReceive_effect (p : Pipeline) (h : pipelineInv p)
    (hne : p.s_temps_to_display_queue ≠ []) :
    displayReceive p
      = some { p with s_temps_to_display_queue := p.s_temps_to_display_queue.drop 1,
                      display_temps_array :=
                        p.display_temps_array.drop 1
                          ++ (p.s_temps_to_display_queue.take 1).map (fun a => a / 10),
                      shown := p.shown ++ p.s_temps_to_display_queue.take 1 } := by
  obtain ⟨h1, h2, h3, h4, h5, h6, h7, h8, h9, h10⟩ := h
  cases hq : p.s_temps_to_display_queue with
  | nil => exact absurd hq hne
  | cons a rest =>
    have hlen : p.display_temps_array.length = LCD_COLUMNS_FOR_GRAPH := by
      rw [h7]; simp
    have happ := appendToArray_eq p.display_temps_array (a / 10) LCD_COLUMNS_FOR_GRAPH
      (by decide) (by decide) hlen
    unfold displayReceive
    simp only [hq, xQueueReceive, happ, Option.some_bind, List.drop_succ_cons,
      List.drop_zero, List.take_succ_cons, List.take_zero, List.map_cons, List.map_nil]

theorem averageReceive_idle (N : Nat) (p : Pipeline) (h : p.s_temps_queue = []) :
    averageReceive N p = some p := by
  unfold averageReceive
  cases p.average with
  | some x => rfl
  | none => simp only [h, xQueueReceive]

theorem displayReceive_idle (p : Pipeline) (h : p.s_temps_to_display_queue = []) :
    displayReceive p = some p := by
  unfold displayReceive
  simp only [h, xQueueReceive]

theorem averageSend_idle (p : Pipeline) (h : p.average = none) : averageSend p = some p := by
  unfold averageSend
  simp only [h]

theorem sensorSend_idle (p : Pipeline) (h : p.sample = none) : sensorSend p = some p := by
  unfold sensorSend
  simp only [h]

theorem displayReceive_drain (p : Pipeline) (h : pipelineInv p) :
    ∃ q, displayReceive p = some q ∧ pipelineInv q ∧ q.produced = p.produced
      ∧ ((p.s_temps_to_display_queue = [] ∧ q = p) ∨ q.backlog + 1 ≤ p.backlog) := by
  obtain ⟨q, hq, hinv, -⟩ := displayReceive_inv p h
  by_cases hne : p.s_temps_to_display_queue = []
  · exact ⟨p, displayReceive_idle p hne, h, rfl, Or.inl ⟨hne, rfl⟩⟩
  · have he := displayReceive_effect p h hne
    rw [he] at hq
    have hq2 := Option.some.inj hq
    subst hq2
    refine ⟨_, he, hinv, rfl, Or.inr ?_⟩
    have hpos : 0 < p.s_temps_to_display_queue.length := List.length_pos.2 hne
    unfold Pipeline.backlog
    simp only [List.length_drop]
    omega

theorem averageSend_drain (p : Pipeline) (h : pipelineInv p) :
    ∃ q, averageSend p = some q ∧ pipelineInv q ∧ q.produced = p.produced
      ∧ q.backlog ≤ p.backlog
      ∧ (p.s_temps_to_display_queue = [] →
          (p.average = none ∧ q = p) ∨ q.backlog + 1 ≤ p.backlog) := by
  obtain ⟨q, hq, hinv, -, -⟩ := averageSend_inv p h
  cases ha : p.average with
  | none =>
    exact ⟨p, averageSend_idle p ha, h, rfl, Nat.le_refl _, fun _ => Or.inl ⟨rfl, rfl⟩⟩
  | some x =>
    by_cases hroom : p.s_temps_to_display_queue.length < TEMP_QUEUE_SIZE
    · have he := averageSend_effect p hroom
      rw [he] at hq
      have hq2 := Option.some.inj hq
      subst hq2
      have hdec : Pipeline.backlog { p with
          s_temps_to_display_queue := p.s_temps_to_display_queue ++ p.average.toList,
          average := none } + 1 ≤ p.backlog := by
        unfold Pipeline.backlog
        simp only [ha, Option.toList_some, Option.toList_none, List.length_append,
          List.length_cons, List.length_nil]
        omega
      exact ⟨_, he, hinv, rfl, by omega, fun _ => Or.inr hdec⟩
    · have hfull : p.s_temps_to_display_queue.length = TEMP_QUEUE_SIZE := by
        have := h.2.1
        omega
      refine ⟨p, averageSend_blocked p hfull, h, rfl, Nat.le_refl _, ?_⟩
      intro hnil
      rw [hnil] at hfull
      exact absurd hfull (by decide)

theorem averageReceive_drain (N : Nat) (p : Pipeline) (hN1 : MIN_NUMBER_OF_SAMPLES ≤ N)
    (hN20 : N ≤ MAX_NUMBER_OF_SAMPLES) (h : pipelineInv p) :
    ∃ q, averageReceive N p = some q ∧ pipelineInv q ∧ q.produced = p.produced
      ∧ q.backlog ≤ p.backlog
      ∧ (p.average = none → (p.s_temps_queue = [] ∧ q = p) ∨ q.backlog + 1 ≤ p.backlog) := by
  obtain ⟨q, hq, hinv, -⟩ := averageReceive_inv N p hN1 hN20 h
  cases ha : p.average with
  | some x =>
    refine ⟨p, averageReceive_blocked N p (by rw [ha]; rfl), h, rfl, Nat.le_refl _, ?_⟩
    intro hnone
    cases hnone
  | none =>
    by_cases hne : p.s_temps_queue = []
    · exact ⟨p, averageReceive_idle N p hne, h, rfl, Nat.le_refl _,
        fun _ => Or.inl ⟨hne, rfl⟩⟩
    · have he := averageReceive_effect N p hN1 hN20 h ha hne
      rw [he] at hq
      have hq2 := Option.some.inj hq
      subst hq2
      have hpos : 0 < p.s_temps_queue.length := List.length_pos.2 hne
      have hdec : Pipeline.backlog { p with
          s_temps_queue := p.s_temps_queue.drop 1,
          average_temps_array := p.average_temps_array.drop 1 ++ p.s_temps_queue.take 1,
          average := some (windowMean N (p.filtered ++ p.s_temps_queue.take 1)),
          filtered := p.filtered ++ p.s_temps_queue.take 1,
          averaged := p.averaged ++ [windowMean N (p.filtered ++ p.s_temps_queue.take 1)] }
            + 1 ≤ p.backlog := by
        unfold Pipeline.backlog
        simp only [ha, Option.toList_some, Option.toList_none, List.length_drop,
          List.length_cons, List.length_nil]
        omega
      exact ⟨_, he, hinv, rfl, by omega, fun _ => Or.inr hdec⟩

theorem sensorSend_drain (p : Pipeline) (h : pipelineInv p) :
    ∃ q, sensorSend p = some q ∧ pipelineInv q ∧ q.produced = p.produced
      ∧ q.backlog ≤ p.backlog
      ∧ (p.s_temps_queue = [] → (p.sample = none ∧ q = p) ∨ q.backlog + 1 ≤ p.backlog) := by
  obtain ⟨q, hq, hinv, -, -⟩ := sensorSend_inv p h
  cases hs : p.sample with
  | none =>
    exact ⟨p, sensorSend_idle p hs, h, rfl, Nat.le_refl _, fun _ => Or.inl ⟨rfl, rfl⟩⟩
  | some x =>
    by_cases hroom : p.s_temps_queue.length < TEMP_QUEUE_SIZE
    · have he := sensorSend_effect p hroom
      rw [he] at hq
      have hq2 := Option.some.inj hq
      subst hq2
      have hdec : Pipeline.backlog { p with
          s_temps_queue := p.s_temps_queue ++ p.sample.toList, sample := none } + 1
            ≤ p.backlog := by
        unfold Pipeline.backlog
        simp only [hs, Option.toList_some, Option.toList_none, List.length_append,
          List.length_cons, List.length_nil]
        omega
      exact ⟨_, he, hinv, rfl, by omega, fun _ => Or.inr hdec⟩
    · have hfull : p.s_temps_queue.length = TEMP_QUEUE_SIZE := by
        have := h.1
        omega
      refine ⟨p, sensorSend_blocked p hfull, h, rfl, Nat.le_refl _, ?_⟩
      intro hnil
      rw [hnil] at hfull
      exact absurd hfull (by decide)

theorem pipelineRun_append (s t : List Action) (p : Pipeline) :
    pipelineRun (s ++ t) p = (pipelineRun s p).bind (pipelineRun t) := by
  unfold pipelineRun
  rw [List.foldlM_append]
  rfl

theorem backlog_zero (p : Pipeline) (h : pipelineInv p) (h0 : p.backlog = 0) :
    p.sample = none ∧ p.s_temps_queue = [] ∧ p.average = none
      ∧ p.s_temps_to_display_queue = [] ∧ p.filtered = p.produced ∧ p.shown = p.averaged := by
  obtain ⟨-, -, h3, h4, -, -, -, -, -, -⟩ := h
  unfold Pipeline.backlog at h0
  have hs : p.sample = none := by
    cases hsm : p.sample with
    | none => rfl
    | some x => rw [hsm] at h0; simp at h0
  have ha : p.average = none := by
    cases hav : p.average with
    | none => rfl
    | some x => rw [hav] at h0; simp at h0
  have hq1 : p.s_temps_queue = [] := List.length_eq_zero.1 (by omega)
  have hq2 : p.s_temps_to_display_queue = [] := List.length_eq_zero.1 (by omega)
  refine ⟨hs, hq1, ha, hq2, ?_, ?_⟩
  · rw [h3, hq1, hs]; simp
  · rw [h4, hq2, ha]; simp

theorem backlog_le (p : Pipeline) (h : pipelineInv p) : p.backlog ≤ 18 := by
  obtain ⟨h1, h2, -, -, -, -, -, -, -, -⟩ := h
  simp only [TEMP_QUEUE_SIZE] at h1 h2
  have hs : p.sample.toList.length ≤ 1 := by cases p.sample <;> simp
  have ha : p.average.toList.length ≤ 1 := by cases p.average <;> simp
  unfold Pipeline.backlog
  omega

theorem drainRound (N : Nat) (p : Pipeline) (hN1 : MIN_NUMBER_OF_SAMPLES ≤ N)
    (hN20 : N ≤ MAX_NUMBER_OF_SAMPLES) (h : pipelineInv p) :
    ∃ q, pipelineRun [Action.displayReceive, Action.averageSend, Action.averageReceive N,
          Action.sensorSend] p = some q
      ∧ pipelineInv q ∧ q.produced = p.produced ∧ q.backlog ≤ p.backlog - 1 := by
  obtain ⟨p1, e1, i1, r1, d1⟩ := displayReceive_drain p h
  obtain ⟨p2, e2, i2, r2, m2, d2⟩ := averageSend_drain p1 i1
  obtain ⟨p3, e3, i3, r3, m3, d3⟩ := averageReceive_drain N p2 hN1 hN20 i2
  obtain ⟨p4, e4, i4, r4, m4, d4⟩ := sensorSend_drain p3 i3
  have hrun : pipelineRun [Action.displayReceive, Action.averageSend,
      Action.averageReceive N, Action.sensorSend] p = some p4 := by
    rw [pipelineRun_cons, pipelineStep, e1, Option.some_bind,
      pipelineRun_cons, pipelineStep, e2, Option.some_bind,
      pipelineRun_cons, pipelineStep, e3, Option.some_bind,
      pipelineRun_cons, pipelineStep, e4, Option.some_bind]
    rfl
  refine ⟨p4, hrun, i4, by rw [r4, r3, r2, r1], ?_⟩
  rcases d1 with ⟨hq2, rfl⟩ | hdec
  · rcases d2 hq2 with ⟨hav, rfl⟩ | hdec
    · rcases d3 hav with ⟨hq1, rfl⟩ | hdec
      · rcases d4 hq1 with ⟨hsm, rfl⟩ | hdec
        · have : p4.backlog = 0 := by
            unfold Pipeline.backlog
            rw [hq2, hav, hq1, hsm]
            rfl
          omega
        · omega
      · omega
    · omega
  · omega

theorem drainRounds (N : Nat) (hN1 : MIN_NUMBER_OF_SAMPLES ≤ N)
    (hN20 : N ≤ MAX_NUMBER_OF_SAMPLES) : ∀ (m : Nat) (p : Pipeline), pipelineInv p →
    p.backlog ≤ m →
    ∃ q, pipelineRun (List.replicate m [Action.displayReceive, Action.averageSend,
          Action.averageReceive N, Action.sensorSend]).flatten p = some q
      ∧ pipelineInv q ∧ q.produced = p.produced ∧ q.backlog = 0 := by
  intro m
  induction m with
  | zero =>
    intro p h hm
    exact ⟨p, rfl, h, rfl, by omega⟩
  | succ m ih =>
    intro p h hm
    obtain ⟨q, hq, hinv, hprod, hdec⟩ := drainRound N p hN1 hN20 h
    obtain ⟨r, hr, hinv2, hprod2, hzero⟩ := ih q hinv (by omega)
    refine ⟨r, ?_, hinv2, by rw [hprod2, hprod], hzero⟩
    rw [List.replicate_succ, List.flatten_cons, pipelineRun_append, hq]
    exact hr

/-- C22. Under every schedule of the three tasks, with the queue calls modelled
as blocking calls on first-in first-out queues of capacity 3, the run is
defined and: the samples the sensor has computed are, in order, those the
filter has received, then those waiting in `s_temps_queue`, then the one the
sensor is blocked with; the averages the filter has computed, one per sample
received and each the mean of the last `M` cells after that sample, are, in
order, those the display task has received, then those waiting in
`s_temps_to_display_queue`, then the one the filter is blocked with; the two
arrays hold the last 20 samples and the last 69 heights received; no queue
holds more than 3 items; a task whose queue is full, or that is in its send,
leaves the state as it is; and a consumer that never runs stops the sensor
after 8 samples (display task) or 4 samples (filter).  Each task that is not
blocked does its work: the sensor computes the next sample of `sensorCycle`,
a send into a queue with room puts the item at the end of the queue, a
receive from a queue that is not empty takes the first item, which the filter
appends to its array and averages and the display task appends, divided by
10, to its own.  And once the consumers run, at most 18 rounds of them bring
every sample computed to the filter and the average of every sample to the
display task, in the order of the samples, with nothing left in a queue. -/
theorem backpressure_in_order (seed N k : Nat) (schedule : List Action)
    (hvalid : ∀ a ∈ schedule, a.valid) :
    ∃ p, pipelineRun schedule (Pipeline.init seed) = some p
      ∧ p.produced = p.filtered ++ p.s_temps_queue ++ p.sample.toList
      ∧ p.averaged = p.shown ++ p.s_temps_to_display_queue ++ p.average.toList
      ∧ p.averaged.length = p.filtered.length
      ∧ (k < p.averaged.length → ∃ M, 1 ≤ M ∧ M ≤ 20
          ∧ p.averaged[k]? = some (windowMean M (p.filtered.take (k + 1))))
      ∧ p.average_temps_array = (List.replicate 20 0 ++ p.filtered).drop p.filtered.length
      ∧ p.display_temps_array
          = (List.replicate 69 0 ++ p.shown.map (fun a => a / 10)).drop p.shown.length
      ∧ p.s_temps_queue.length ≤ 3
      ∧ p.s_temps_to_display_queue.length ≤ 3
      ∧ (p.s_temps_queue.length = 3 → sensorSend p = some p)
      ∧ (p.sample.isSome = true → sensorCompute p = some p)
      ∧ (p.s_temps_to_display_queue.length = 3 → averageSend p = some p)
      ∧ (p.average.isSome = true → averageReceive N p = some p)
      ∧ (Action.displayReceive ∉ schedule → p.shown = [] ∧ p.produced.length ≤ 8)
      ∧ ((∀ n, Action.averageReceive n ∉ schedule) →
          p.filtered = [] ∧ p.produced.length ≤ 4)
      ∧ (p.sample = none →
          ∃ s, sensorCycle p.temp_decimals p.xorshift_state
                = some (s, xorshift p.xorshift_state)
            ∧ s ≤ 150
            ∧ sensorCompute p
                = some { p with temp_decimals := s,
                                xorshift_state := xorshift p.xorshift_state,
                                sample := some s, produced := p.produced ++ [s] })
      ∧ (p.s_temps_queue.length < 3 →
          sensorSend p
            = some { p with s_temps_queue := p.s_temps_queue ++ p.sample.toList,
                            sample := none })
      ∧ (1 ≤ N → N ≤ 20 → p.average = none → p.s_temps_queue ≠ [] →
          averageReceive N p
            = some { p with
                s_temps_queue := p.s_temps_queue.drop 1,
                average_temps_array := p.average_temps_array.drop 1 ++ p.s_temps_queue.take 1,
                average := some (windowMean N (p.filtered ++ p.s_temps_queue.take 1)),
                filtered := p.filtered ++ p.s_temps_queue.take 1,
                averaged :=
                  p.averaged ++ [windowMean N (p.filtered ++ p.s_temps_queue.take 1)] })
      ∧ (p.s_temps_to_display_queue.length < 3 →
          averageSend p
            = some { p with
                s_temps_to_display_queue := p.s_temps_to_display_queue ++ p.average.toList,
                average := none })
      ∧ (p.s_temps_to_display_queue ≠ [] →
          displayReceive p
            = some { p with
                s_temps_to_display_queue := p.s_temps_to_display_queue.drop 1,
                display_temps_array :=
                  p.display_temps_array.drop 1
                    ++ (p.s_temps_to_display_queue.take 1).map (fun a => a / 10),
                shown := p.shown ++ p.s_temps_to_display_queue.take 1 })
      ∧ (1 ≤ N → N ≤ 20 →
          ∃ q, pipelineRun (List.replicate 18 [Action.displayReceive, Action.averageSend,
                  Action.averageReceive N, Action.sensorSend]).flatten p = some q
            ∧ q.produced = p.produced
            ∧ q.filtered = p.produced
            ∧ q.shown = q.averaged
            ∧ q.shown.length = p.produced.length
            ∧ (k < q.shown.length → ∃ M, 1 ≤ M ∧ M ≤ 20
                ∧ q.shown[k]? = some (windowMean M (p.produced.take (k + 1))))
            ∧ q.s_temps_queue = [] ∧ q.s_temps_to_display_queue = []
            ∧ q.sample = none ∧ q.average = none) := by
  obtain ⟨p, hp, hinv, hs, hf⟩ :=
    pipelineRun_inv schedule (Pipeline.init seed) hvalid (pipelineInv_init seed)
  have hinv0 := hinv
  obtain ⟨h1, h2, h3, h4, h5, h6, h7, -, -, h10⟩ := hinv
  have hsample : p.sample.toList.length ≤ 1 := by cases p.sample <;> simp
  have haverage : p.average.toList.length ≤ 1 := by cases p.average <;> simp
  simp only [TEMP_QUEUE_SIZE] at h1 h2
  refine ⟨p, hp, h3, h4, h5, h10 k, h6, h7, h1, h2, sensorSend_blocked p,
    sensorCompute_blocked p, averageSend_blocked p, averageReceive_blocked N p, ?_, ?_,
    sensorCompute_effect p hinv0, sensorSend_effect p,
    fun hN1 hN20 => averageReceive_effect N p hN1 hN20 hinv0,
    averageSend_effect p, displayReceive_effect p hinv0, ?_⟩
  · intro hno
    have hshown : p.shown = [] := by rw [hs hno]; rfl
    refine ⟨hshown, ?_⟩
    have hl4 := congrArg List.length h4
    have hl3 := congrArg List.length h3
    rw [hshown] at hl4
    simp only [List.length_append, List.length_nil] at hl3 hl4
    omega
  · intro hno
    have hfiltered : p.filtered = [] := by rw [hf hno]; rfl
    refine ⟨hfiltered, ?_⟩
    have hl3 := congrArg List.length h3
    rw [hfiltered] at hl3
    simp only [List.length_append, List.length_nil] at hl3
    omega
  · intro hN1 hN20
    obtain ⟨q, hq, hinvq, hprod, hzero⟩ :=
      drainRounds N hN1 hN20 18 p hinv0 (backlog_le p hinv0)
    obtain ⟨e1, e2, e3, e4, e5, e6⟩ := backlog_zero q hinvq hzero
    obtain ⟨-, -, -, -, g5, -, -, -, -, g10⟩ := hinvq
    refine ⟨q, hq, hprod, by rw [e5, hprod], e6, ?_, ?_, e2, e4, e1, e3⟩
    · rw [e6, g5, e5, hprod]
    · intro hk
      rw [e6] at hk ⊢
      obtain ⟨M, hM1, hM20, hM⟩ := g10 k hk
      refine ⟨M, hM1, hM20, ?_⟩
      rw [hM, e5, hprod]

theorem backpressure_in_order_witness :
    ∃ p, pipelineRun [Action.sensorCompute, Action.sensorSend, Action.averageReceive 10,
          Action.averageSend, Action.sensorCompute, Action.sensorSend] (Pipeline.init 5) = some p
      ∧ p.produced = p.filtered ++ p.s_temps_queue ++ p.sample.toList
      ∧ p.averaged = p.shown ++ p.s_temps_to_display_queue ++ p.average.toList
      ∧ p.averaged.length = p.filtered.length
      ∧ (0 < p.averaged.length → ∃ M, 1 ≤ M ∧ M ≤ 20
          ∧ p.averaged[0]? = some (windowMean M (p.filtered.take (0 + 1))))
      ∧ p.average_temps_array = (List.replicate 20 0 ++ p.filtered).drop p.filtered.length
      ∧ p.display_temps_array
          = (List.replicate 69 0 ++ p.shown.map (fun a => a / 10)).drop p.shown.length
      ∧ p.s_temps_queue.length ≤ 3
      ∧ p.s_temps_to_display_queue.length ≤ 3
      ∧ (p.s_temps_queue.length = 3 → sensorSend p = some p)
      ∧ (p.sample.isSome = true → sensorCompute p = some p)
      ∧ (p.s_temps_to_display_queue.length = 3 → averageSend p = some p)
      ∧ (p.average.isSome = true → averageReceive 10 p = some p)
      ∧ (Action.displayReceive ∉ [Action.sensorCompute, Action.sensorSend,
          Action.averageReceive 10, Action.averageSend, Action.sensorCompute,
          Action.sensorSend] → p.shown = [] ∧ p.produced.length ≤ 8)
      ∧ ((∀ n, Action.averageReceive n ∉ [Action.sensorCompute, Action.sensorSend,
          Action.averageReceive 10, Action.averageSend, Action.sensorCompute,
          Action.sensorSend]) → p.filtered = [] ∧ p.produced.length ≤ 4)
      ∧ (p.sample = none →
          ∃ s, sensorCycle p.temp_decimals p.xorshift_state
                = some (s, xorshift p.xorshift_state)
            ∧ s ≤ 150
            ∧ sensorCompute p
                = some { p with temp_decimals := s,
                                xorshift_state := xorshift p.xorshift_state,
                                sample := some s, produced := p.produced ++ [s] })
      ∧ (p.s_temps_queue.length < 3 →
          sensorSend p
            = some { p with s_temps_queue := p.s_temps_queue ++ p.sample.toList,
                            sample := none })
      ∧ (1 ≤ 10 → 10 ≤ 20 → p.average = none → p.s_temps_queue ≠ [] →
          averageReceive 10 p
            = some { p with
                s_temps_queue := p.s_temps_queue.drop 1,
                average_temps_array := p.average_temps_array.drop 1 ++ p.s_temps_queue.take 1,
                average := some (windowMean 10 (p.filtered ++ p.s_temps_queue.take 1)),
                filtered := p.filtered ++ p.s_temps_queue.take 1,
                averaged :=
                  p.averaged ++ [windowMean 10 (p.filtered ++ p.s_temps_queue.take 1)] })
      ∧ (p.s_temps_to_display_queue.length < 3 →
          averageSend p
            = some { p with
                s_temps_to_display_queue := p.s_temps_to_display_queue ++ p.average.toList,
                average := none })
      ∧ (p.s_temps_to_display_queue ≠ [] →
          displayReceive p
            = some { p with
                s_temps_to_display_queue := p.s_temps_to_display_queue.drop 1,
                display_temps_array :=
                  p.display_temps_array.drop 1
                    ++ (p.s_temps_to_display_queue.take 1).map (fun a => a / 10),
                shown := p.shown ++ p.s_temps_to_display_queue.take 1 })
      ∧ (1 ≤ 10 → 10 ≤ 20 →
          ∃ q, pipelineRun (List.replicate 18 [Action.displayReceive, Action.averageSend,
                  Action.averageReceive 10, Action.sensorSend]).flatten p = some q
            ∧ q.produced = p.produced
            ∧ q.filtered = p.produced
            ∧ q.shown = q.averaged
            ∧ q.shown.length = p.produced.length
            ∧ (0 < q.shown.length → ∃ M, 1 ≤ M ∧ M ≤ 20
                ∧ q.shown[0]? = some (windowMean M (p.produced.take (0 + 1))))
            ∧ q.s_temps_queue = [] ∧ q.s_temps_to_display_queue = []
            ∧ q.sample = none ∧ q.average = none) :=
  backpressure_in_order 5 10 0 [Action.sensorCompute, Action.sensorSend,
    Action.averageReceive 10, Action.averageSend, Action.sensorCompute, Action.sensorSend]
    (by decide)

/-- With the display task never running, the sensor does compute 8 samples
before every task is blocked: the bound of 8 is reached, and running the
sensor and the filter again changes nothing. -/
theorem stalled_display_stalls_sensor :
    (pipelineRun ((List.replicate 8 [Action.sensorCompute, Action.sensorSend,
        Action.averageReceive 10, Action.averageSend]).flatten) (Pipeline.init 5)).map
      (fun p => p.produced) = some [69, 87, 110, 94, 115, 126, 119, 131]
    ∧ (pipelineRun ((List.replicate 8 [Action.sensorCompute, Action.sensorSend,
        Action.averageReceive 10, Action.averageSend]).flatten) (Pipeline.init 5)).bind
      (pipelineRun [Action.sensorCompute, Action.sensorSend, Action.averageReceive 10,
        Action.averageSend])
      = pipelineRun ((List.replicate 8 [Action.sensorCompute, Action.sensorSend,
        Action.averageReceive 10, Action.averageSend]).flatten) (Pipeline.init 5) := by
  decide

set_option maxRecDepth 100000 in
/-- The same, once the display task runs: after the 8 samples of the stalled
run, the rounds of the consumers bring all 8 samples to the filter and their 8
averages to the display task, in order. -/
theorem drained_pipeline_delivers_all :
    ((pipelineRun ((List.replicate 8 [Action.sensorCompute, Action.sensorSend,
        Action.averageReceive 10, Action.averageSend]).flatten) (Pipeline.init 5)).bind
      (pipelineRun (List.replicate 18 [Action.displayReceive, Action.averageSend,
        Action.averageReceive 10, Action.sensorSend]).flatten)).map
      (fun p => (p.filtered, p.shown))
      = some ([69, 87, 110, 94, 115, 126, 119, 131], [6, 15, 26, 36, 47, 60, 72, 85]) := by
  decide

end SO2TP4
